import Mathlib

/-! # gmqcc: the QuakeC parser front-end (`parser.c`) and utilities (`util.c`)

A shallow embedding of the parser of gmqcc.  The C parser is a set of
functions mutating one `parser_t`; here every function takes the parser state
and returns the new one next to its C return value.  Growable C arrays
(`MEM_VECTOR_MAKE`) are lists whose head is index 0, so a stack's top is the
last element.  Pointers to AST nodes are the nodes themselves; the one object
that is mutated after other objects point to it, the `ast_function`, is
addressed by its index in `parser_t.functions`.  Allocation is assumed to
succeed, and diagnostics are reduced to the `errors` counter that
`parseerror` increments.

Of `util.c` the CRC-16, the regeneration of the Mersenne twister, the string
hash table and the tracked string duplicate are embedded.  Values of the
types `uint16_t` and `uint32_t` are natural numbers, reduced modulo `2 ^ 16`
and `2 ^ 32` where the C arithmetic wraps.
-/

namespace Gmqcc

/-! ## Outcomes of a C call -/

/-- Result of running a C function of the parser: it returned a value, it ran
into undefined behaviour (a NULL or uninitialised read), or the step budget of
the model was used up. -/
inductive Outcome (α : Type) where
  | done (a : α)
  | undefined
  | timeout

/-- Sequencing of two calls: faults of the first are passed on. -/
def Outcome.bind {α β : Type} (x : Outcome α) (f : α → Outcome β) : Outcome β :=
  match x with
  | .done a => f a
  | .undefined => .undefined
  | .timeout => .timeout

/-! ## Types, opcodes, source positions, literals -/

/-- Modelled from the spec: the type codes of `gmqcc.h` (absent from the
sources), one per type of the data model: void, string, float, vector,
entity, field, function. -/
inductive qc_type where
  | TYPE_VOID
  | TYPE_STRING
  | TYPE_FLOAT
  | TYPE_VECTOR
  | TYPE_ENTITY
  | TYPE_FIELD
  | TYPE_FUNCTION
deriving DecidableEq

open qc_type

/-- Modelled from the spec: the instruction codes of `gmqcc.h` (absent) that
the parser puts into Binary and Store nodes: the nine typed arithmetic
opcodes of the operator table, and one store opcode per kind of storage. -/
inductive instr where
  | INSTR_ADD_F
  | INSTR_ADD_V
  | INSTR_SUB_F
  | INSTR_SUB_V
  | INSTR_MUL_F
  | INSTR_MUL_V
  | INSTR_MUL_FV
  | INSTR_MUL_VF
  | INSTR_DIV_F
  | INSTR_STORE_F
  | INSTR_STORE_V
  | INSTR_STORE_S
  | INSTR_STORE_ENT
  | INSTR_STORE_FLD
  | INSTR_STORE_FNC
deriving DecidableEq

open instr

/-- Modelled from the spec: the table `type_store_instr` (absent) giving the
store opcode selected by the destination type. -/
def type_store_instr (t : qc_type) : instr :=
  match t with
  | TYPE_VOID => INSTR_STORE_F
  | TYPE_STRING => INSTR_STORE_S
  | TYPE_FLOAT => INSTR_STORE_F
  | TYPE_VECTOR => INSTR_STORE_V
  | TYPE_ENTITY => INSTR_STORE_ENT
  | TYPE_FIELD => INSTR_STORE_FLD
  | TYPE_FUNCTION => INSTR_STORE_FNC

/-- Source position `{file, line}` carried by every token and AST node. -/
structure lex_ctx where
  file : String
  line : Nat
deriving DecidableEq

/-- A C `double`, kept as its IEEE-754 binary64 bit pattern. -/
structure qc_double where
  bits : Nat
deriving DecidableEq

/-- The C type `vector`: three 32-bit floats, each kept as its bit pattern. -/
structure vector where
  x : Nat
  y : Nat
  z : Nat
deriving DecidableEq

/-- Whether a binary64 pattern is a NaN: exponent all ones, mantissa not zero. -/
def double_isnan (d : qc_double) : Bool :=
  (d.bits / 2 ^ 52) % 2 ^ 11 == 2 ^ 11 - 1 && d.bits % 2 ^ 52 != 0

/-- The C comparison `a == b` on doubles: a NaN equals nothing, the two zeros
are equal, any other two values are equal when their patterns are. -/
def double_eq (a b : qc_double) : Bool :=
  if double_isnan a || double_isnan b then false
  else if a.bits % 2 ^ 63 == 0 && b.bits % 2 ^ 63 == 0 then true
  else a.bits % 2 ^ 64 == b.bits % 2 ^ 64

/-- Position of the highest set bit of a positive number below `2 ^ fuel`. -/
def highbit : Nat → Nat → Nat
  | 0, _ => 0
  | fuel + 1, n => if n / 2 ^ fuel % 2 == 1 then fuel else highbit fuel n

/-- The C conversion `(double)i` of a 32-bit `int`, which is exact. -/
def double_of_int (i : Int) : qc_double :=
  let m := i.natAbs
  if m == 0 then ⟨0⟩
  else
    let e := highbit 32 m
    let sign := if i < 0 then 2 ^ 63 else 0
    ⟨sign + (1023 + e) * 2 ^ 52 + (m * 2 ^ (52 - e)) % 2 ^ 52⟩

/-! ## Tokens and the lexer -/

/-- Modelled from the spec: the token tags of `lexer.h` (absent).  A tag below
`TOKEN_START` is the character itself (`ch`); the tags from `TOKEN_ERROR` on
are the lexer's error tags. -/
inductive tok_type where
  | ch (c : Char)
  | TOKEN_IDENT
  | TOKEN_TYPENAME
  | TOKEN_OPERATOR
  | TOKEN_KEYWORD
  | TOKEN_STRINGCONST
  | TOKEN_CHARCONST
  | TOKEN_VECTORCONST
  | TOKEN_INTCONST
  | TOKEN_FLOATCONST
  | TOKEN_EOF
  | TOKEN_ERROR
  | TOKEN_FATAL
deriving DecidableEq

open tok_type

/-- The C test `tok >= TOKEN_ERROR`. -/
def tok_type.is_error (t : tok_type) : Bool :=
  match t with
  | TOKEN_ERROR => true
  | TOKEN_FATAL => true
  | _ => false

/-- Modelled from the spec: a token of `lexer.h` (absent): tag, spelling, the
members of its `constval` union (type code, integer, double, vector) and
source position. -/
structure token where
  ttype : tok_type
  value : String
  constval_t : qc_type
  constval_i : Int
  constval_f : qc_double
  constval_v : vector
  ctx : lex_ctx
deriving DecidableEq

/-- Modelled from the spec: the lexer state of `lexer.h` (absent): the
classified tokens not yet handed out, the current token, and the `noops` flag
that the parser toggles. -/
structure lex_file where
  input : List token
  tok : token
  noops : Bool
deriving DecidableEq

/-- Modelled from the spec: `lex_do` of the absent lexer.  The lexer is an
external collaborator that produces a stream of classified tokens; the stream
is given, `lex_do` makes its next token current and hands out an end-of-file
token once the stream is exhausted. -/
def lex_do (lex : lex_file) : lex_file :=
  match lex.input with
  | [] => { lex with tok := { lex.tok with ttype := TOKEN_EOF, value := "" } }
  | t :: rest => { lex with input := rest, tok := t }

/-! ## AST nodes -/

/-- Constant payload of a Value node (the C union `constval`, guarded by
`isconst`); `vnull` is the member `vstring` holding a NULL pointer. -/
inductive const_val where
  | none
  | vfloat (d : qc_double)
  | vstring (s : String)
  | vvec (v : vector)
  | vnull
deriving DecidableEq

/-- Modelled from the spec: the AST node kinds of `ast.h` (absent).  Every
node carries its source position and its type `vtype`; a Value also carries
the return-type link `next` and the parameter list `params` of a function
type. -/
inductive ast_expression where
  | value (ctx : lex_ctx) (name : String) (vtype : qc_type) (next : Option ast_expression)
      (params : List ast_expression) (isconst : Bool) (constval : const_val)
  | binary (ctx : lex_ctx) (vtype : qc_type) (op : instr) (left right : ast_expression)
  | store (ctx : lex_ctx) (vtype : qc_type) (op : instr) (dest source : ast_expression)
  | call (ctx : lex_ctx) (vtype : qc_type) (func : ast_expression) (params : List ast_expression)
  | member (ctx : lex_ctx) (vtype : qc_type) (owner : ast_expression) (field : Nat)
  | block (ctx : lex_ctx) (vtype : qc_type) (locals : List ast_expression)
      (exprs : List ast_expression)
  | ret (ctx : lex_ctx) (operand : Option ast_expression)

/-- The field `expression.vtype` of a node. -/
def ast_expression.vtype (e : ast_expression) : qc_type :=
  match e with
  | .value _ _ t _ _ _ _ => t
  | .binary _ t _ _ _ => t
  | .store _ t _ _ _ => t
  | .call _ t _ _ => t
  | .member _ t _ _ => t
  | .block _ t _ _ => t
  | .ret _ _ => TYPE_VOID

/-- The field `expression.next` of a node: the return type of a function
value, NULL for every other node. -/
def ast_expression.next (e : ast_expression) : Option ast_expression :=
  match e with
  | .value _ _ _ n _ _ _ => n
  | _ => none

/-- The field `expression.params` of a node: the parameters of a function
value, empty for every other node (a Call keeps its arguments in a field of
its own). -/
def ast_expression.params (e : ast_expression) : List ast_expression :=
  match e with
  | .value _ _ _ _ ps _ _ => ps
  | _ => []

/-- The field `name` of a Value node. -/
def ast_expression.name (e : ast_expression) : String :=
  match e with
  | .value _ n _ _ _ _ _ => n
  | _ => ""

/-- The field `node.context` of a node. -/
def ast_expression.context (e : ast_expression) : lex_ctx :=
  match e with
  | .value c _ _ _ _ _ _ => c
  | .binary c _ _ _ _ => c
  | .store c _ _ _ _ => c
  | .call c _ _ _ => c
  | .member c _ _ _ => c
  | .block c _ _ _ => c
  | .ret c _ => c

/-- The statement list `exprs` of a Block node. -/
def ast_expression.exprs (e : ast_expression) : List ast_expression :=
  match e with
  | .block _ _ _ xs => xs
  | _ => []

/-- The argument list of a Call node. -/
def ast_expression.call_params (e : ast_expression) : List ast_expression :=
  match e with
  | .call _ _ _ ps => ps
  | _ => []

/-- Modelled from the spec: `ast_value_new` of ast.c (absent): a fresh Value
of the given name and type, not constant, without parameters or return
type. -/
def ast_value_new (ctx : lex_ctx) (name : String) (t : qc_type) : ast_expression :=
  .value ctx name t none [] false .none

/-- Modelled from the spec: `ast_value_set_name` of ast.c (absent). -/
def ast_value_set_name (v : ast_expression) (name : String) : ast_expression :=
  match v with
  | .value c _ t n ps k cv => .value c name t n ps k cv
  | e => e

/-- Modelled from the spec: result type of a Binary node per opcode:
`MUL_V` is the dot product and gives a float, the other vector opcodes give a
vector, the float opcodes a float. -/
def binary_type (op : instr) (left : ast_expression) : qc_type :=
  match op with
  | INSTR_ADD_F => TYPE_FLOAT
  | INSTR_SUB_F => TYPE_FLOAT
  | INSTR_MUL_F => TYPE_FLOAT
  | INSTR_DIV_F => TYPE_FLOAT
  | INSTR_MUL_V => TYPE_FLOAT
  | INSTR_ADD_V => TYPE_VECTOR
  | INSTR_SUB_V => TYPE_VECTOR
  | INSTR_MUL_FV => TYPE_VECTOR
  | INSTR_MUL_VF => TYPE_VECTOR
  | _ => left.vtype

/-- Modelled from the spec: `ast_binary_new` of ast.c (absent): a Binary node
with the opcode, both operands and the opcode's result type. -/
def ast_binary_new (ctx : lex_ctx) (op : instr) (left right : ast_expression) : ast_expression :=
  .binary ctx (binary_type op left) op left right

/-- Modelled from the spec: `ast_store_new` of ast.c (absent): a Store node
with the opcode, destination and source; it has the destination's type. -/
def ast_store_new (ctx : lex_ctx) (op : instr) (dest source : ast_expression) : ast_expression :=
  .store ctx dest.vtype op dest source

/-- Modelled from the spec: `ast_call_new` of ast.c (absent): a Call of the
callee with no arguments yet; its type is the callee's return type (void when
the callee has none). -/
def ast_call_new (ctx : lex_ctx) (funcexpr : ast_expression) : ast_expression :=
  .call ctx (match funcexpr.next with
    | some r => r.vtype
    | none => TYPE_VOID) funcexpr []

/-- Modelled from the spec: `ast_call_params_add` and the move of a whole
argument vector into a Call. -/
def ast_call_set_params (call : ast_expression) (ps : List ast_expression) : ast_expression :=
  match call with
  | .call c t f _ => .call c t f ps
  | e => e

/-- Modelled from the spec: `ast_member_new` of ast.c (absent): the float
component `field` of the vector `owner`. -/
def ast_member_new (ctx : lex_ctx) (owner : ast_expression) (field : Nat) : ast_expression :=
  .member ctx TYPE_FLOAT owner field

/-- Modelled from the spec: `ast_block_new` of ast.c (absent): an empty
Block. -/
def ast_block_new (ctx : lex_ctx) : ast_expression :=
  .block ctx TYPE_VOID [] []

/-- Modelled from the spec: `ast_block_exprs_add` of ast.c (absent): append a
statement to a Block. -/
def ast_block_exprs_add (b e : ast_expression) : ast_expression :=
  match b with
  | .block c t ls xs => .block c t ls (xs ++ [e])
  | other => other

/-- Modelled from the spec: `ast_block_locals_add` of ast.c (absent): append a
local to a Block. -/
def ast_block_locals_add (b v : ast_expression) : ast_expression :=
  match b with
  | .block c t ls xs => .block c t (ls ++ [v]) xs
  | other => other

/-- Modelled from the spec: `ast_block_set_type` of ast.c (absent): the Block
takes the type of `src`. -/
def ast_block_set_type (b src : ast_expression) : ast_expression :=
  match b with
  | .block c _ ls xs => .block c src.vtype ls xs
  | other => other

/-- Modelled from the spec: `ast_return_new` of ast.c (absent). -/
def ast_return_new (ctx : lex_ctx) (e : ast_expression) : ast_expression :=
  .ret ctx (some e)

/-- Modelled from the spec: the Function node of `ast.h` (absent): the owning
function-typed Value, the body blocks and the builtin index. -/
structure ast_function where
  ctx : lex_ctx
  name : String
  vtype : ast_expression
  builtin : Int
  blocks : List ast_expression

/-- Modelled from the spec: `ast_function_new` of ast.c (absent): a Function
bound to `vtype`, without body and without builtin index. -/
def ast_function_new (ctx : lex_ctx) (name : String) (vtype : ast_expression) : ast_function :=
  { ctx := ctx, name := name, vtype := vtype, builtin := 0, blocks := [] }

/-! ## The parser state -/

/-- A symbol-table entry: a name and the node it resolves to. -/
structure varentry_t where
  name : String
  var : ast_expression

/-- The parser state `parser_t`.  `function` is the active function, NULL
(`none`) or a position in `functions`. -/
structure parser_t where
  lex : lex_file
  tok : tok_type
  globals : List varentry_t
  functions : List ast_function
  imm_float : List ast_expression
  imm_string : List ast_expression
  imm_vector : List ast_expression
  function : Option Nat
  locals : List varentry_t
  blocklocal : Nat
  errors : Nat

/-- The C function `parseerror`: count the error (the printed diagnostic is
not modelled). -/
def parseerror (parser : parser_t) : parser_t :=
  { parser with errors := parser.errors + 1 }

/-- The C function `parser_next`: make the next token current; false when
the input has ended or the lexer reports an error. -/
def parser_next (parser : parser_t) : Bool × parser_t :=
  let lex := lex_do parser.lex
  let tok := lex.tok.ttype
  (!(tok == TOKEN_EOF || tok.is_error), { parser with lex := lex, tok := tok })

/-- The macro `parser_tokval`. -/
def parser_tokval (parser : parser_t) : String :=
  parser.lex.tok.value

/-- The macro `parser_ctx`. -/
def parser_ctx (parser : parser_t) : lex_ctx :=
  parser.lex.tok.ctx

/-- Assignment to `parser->lex->flags.noops`. -/
def set_noops (parser : parser_t) (b : Bool) : parser_t :=
  { parser with lex := { parser.lex with noops := b } }

/-! ## Constant pool -/

/-- The constant payload of a Value node. -/
def ast_expression.constval (e : ast_expression) : const_val :=
  match e with
  | .value _ _ _ _ _ _ cv => cv
  | _ => .none

/-- A constant Value named `#IMMEDIATE`, as the three interning functions
build it. -/
def immediate (ctx : lex_ctx) (t : qc_type) (cv : const_val) : ast_expression :=
  .value ctx "#IMMEDIATE" t none [] true cv

/-- The C function `parser_const_float`. -/
def parser_const_float (parser : parser_t) (d : qc_double) : ast_expression × parser_t :=
  match parser.imm_float.find? (fun v =>
    match v.constval with
    | .vfloat x => double_eq x d
    | _ => false) with
  | some v => (v, parser)
  | none =>
    let out := immediate (parser_ctx parser) TYPE_FLOAT (.vfloat d)
    (out, { parser with imm_float := parser.imm_float ++ [out] })

/-- The C function `_util_Estrdup` of util.c (the arguments `file` and
`line` only feed the allocation tracker): NULL for NULL; the copy is made
only when `strlen(s)` is not zero, so the empty string gives NULL too.  The
allocation is taken to succeed. -/
def _util_Estrdup (s : Option String) : Option String :=
  match s with
  | none => none
  | some str => if str.length ≠ 0 then some str else none

/-- The C function `_util_Estrdup_empty` of util.c: NULL for NULL, a copy
for every string, the empty one included. -/
def _util_Estrdup_empty (s : Option String) : Option String :=
  match s with
  | none => none
  | some str => some str

/-- Modelled from the spec: the macro `util_strdup` of `gmqcc.h` (absent),
which passes its argument to `_util_Estrdup` with the file and line of the
call. -/
def util_strdup (s : Option String) : Option String :=
  _util_Estrdup s

/-- The loop of `parser_const_string` over the pool: the first node whose
`constval.vstring` compares equal to `str` under `strcmp`; comparing a NULL
`vstring` is undefined. -/
def const_string_find (str : String) : List ast_expression → Outcome (Option ast_expression)
  | [] => .done none
  | v :: rest =>
    match v.constval with
    | .vnull => .undefined
    | .vstring x => if x == str then .done (some v) else const_string_find str rest
    | _ => const_string_find str rest

/-- The payload that `parser_const_string` stores in a new node:
`util_strdup(str)`. -/
def string_payload (str : String) : const_val :=
  match util_strdup (some str) with
  | some copy => .vstring copy
  | none => .vnull

/-- The C function `parser_const_string`. -/
def parser_const_string (parser : parser_t) (str : String) :
    Outcome (ast_expression × parser_t) :=
  (const_string_find str parser.imm_string).bind fun found =>
    match found with
    | some v => .done (v, parser)
    | none =>
      let out := immediate (parser_ctx parser) TYPE_STRING (string_payload str)
      .done (out, { parser with imm_string := parser.imm_string ++ [out] })

/-- The C function `parser_const_vector`. -/
def parser_const_vector (parser : parser_t) (v : vector) : ast_expression × parser_t :=
  match parser.imm_vector.find? (fun e =>
    match e.constval with
    | .vvec x => x == v
    | _ => false) with
  | some e => (e, parser)
  | none =>
    let out := immediate (parser_ctx parser) TYPE_VECTOR (.vvec v)
    (out, { parser with imm_vector := parser.imm_vector ++ [out] })

/-! ## Symbol table -/

/-- The C function `parser_find_global`: the first global of that name. -/
def parser_find_global (parser : parser_t) (name : String) : Option ast_expression :=
  (parser.globals.find? (fun e => e.name == name)).map (fun e => e.var)

/-- The first loop of `parser_find_local`: the locals of index `upto` and
above, from the top of the stack downwards. -/
def find_local_entry (locals : List varentry_t) (name : String) (upto : Nat) :
    Option varentry_t :=
  (locals.drop upto).reverse.find? (fun e => e.name == name)

/-- The C function `parser_find_local`: the locals down to `upto`, then the
parameters of the active function; reading the parameters of a NULL active
function is undefined. -/
def parser_find_local (parser : parser_t) (name : String) (upto : Nat) :
    Outcome (Option ast_expression) :=
  match find_local_entry parser.locals name upto with
  | some e => .done (some e.var)
  | none =>
    match parser.function with
    | none => .undefined
    | some i =>
      match parser.functions.get? i with
      | none => .undefined
      | some f => .done (f.vtype.params.find? (fun v => v.name == name))

/-- The C function `parser_find_var`. -/
def parser_find_var (parser : parser_t) (name : String) : Outcome (Option ast_expression) :=
  (parser_find_local parser name 0).bind fun v =>
    match v with
    | some e => .done (some e)
    | none => .done (parser_find_global parser name)

/-! ## The operator table -/

/-- Associativity of an operator. -/
inductive assoc_t where
  | ASSOC_LEFT
  | ASSOC_RIGHT
deriving DecidableEq

open assoc_t

/-- Modelled from the spec: an entry `oper_info` of the operator table of
`lexer.h` (absent): spelling, operand count, opcode id, associativity,
precedence and flags. -/
structure oper_info where
  op : String
  operands : Nat
  id : Nat
  assoc : assoc_t
  prec : Nat
  flags : Nat
deriving DecidableEq

/-- The macro `opid1`: the id of an operator spelled with one character. -/
def opid1 (c : Char) : Nat :=
  c.toNat

/-- The flag bit of a unary operator written before its operand. -/
def OP_PREFIX : Nat := 1

/-- The flag bit of a unary operator written after its operand. -/
def OP_SUFFIX : Nat := 2

/-- Modelled from the spec: the table `operators` of `lexer.h` (absent),
with the operators of the operator table of the expression parser: the
arithmetic operators are binary and left-associative, `=` is
right-associative and binds weaker, `,` is left-associative and has the
lowest precedence. -/
def operators : List oper_info :=
  [ { op := "*", operands := 2, id := opid1 '*', assoc := ASSOC_LEFT, prec := 13, flags := 0 },
    { op := "/", operands := 2, id := opid1 '/', assoc := ASSOC_LEFT, prec := 13, flags := 0 },
    { op := "+", operands := 2, id := opid1 '+', assoc := ASSOC_LEFT, prec := 12, flags := 0 },
    { op := "-", operands := 2, id := opid1 '-', assoc := ASSOC_LEFT, prec := 12, flags := 0 },
    { op := "=", operands := 2, id := opid1 '=', assoc := ASSOC_RIGHT, prec := 2, flags := 0 },
    { op := ",", operands := 2, id := opid1 ',', assoc := ASSOC_LEFT, prec := 1, flags := 0 } ]

/-- The read `operators[etype - 1]`; outside the table it is undefined. -/
def operator_at (etype : Nat) : Outcome oper_info :=
  if etype = 0 then .undefined
  else
    match operators.get? (etype - 1) with
    | some op => .done op
    | none => .undefined

/-! ## The shunting yard -/

/-- An element `sy_elem` of either stack of the shunting yard. -/
structure sy_elem where
  etype : Nat
  paren : Nat
  off : Nat
  out : Option ast_expression
  block : Option ast_expression
  ctx : lex_ctx

/-- The two stacks of the shunting yard: operands `out`, operators `ops`. -/
structure shunt where
  out : List sy_elem
  ops : List sy_elem

/-- The C function `syexp`: an operand. -/
def syexp (ctx : lex_ctx) (v : ast_expression) : sy_elem :=
  { etype := 0, paren := 0, off := 0, out := some v, block := none, ctx := ctx }

/-- The C function `syblock`: an operand that is a Block built by commas. -/
def syblock (ctx : lex_ctx) (v : ast_expression) : sy_elem :=
  { etype := 0, paren := 0, off := 0, out := some v, block := some v, ctx := ctx }

/-- The C function `syop`: the operator at position `o` of the table. -/
def syop (ctx : lex_ctx) (o : Nat) : sy_elem :=
  { etype := 1 + o, paren := 0, off := 0, out := none, block := none, ctx := ctx }

/-- The C function `syparen`: a paren marker, `1` for grouping and the
character f for a call whose callee is operand `off`. -/
def syparen (ctx : lex_ctx) (p : Nat) (off : Nat) : sy_elem :=
  { etype := 0, paren := p, off := off, out := none, block := none, ctx := ctx }

/-- The paren code of a call-open marker, the character f. -/
def PAREN_CALL : Nat := ('f').toNat

/-- The typed reduction of `parser_sy_pop` for the arithmetic operators and
`=`: the switch over the operator id once both operands are read.  `none` is
a type error. -/
def sy_apply (ctx : lex_ctx) (id : Nat) (e0 e1 : ast_expression) : Option ast_expression :=
  if id = opid1 '+' then
    if e0.vtype ≠ e1.vtype then none
    else
      match e0.vtype with
      | TYPE_FLOAT => some (ast_binary_new ctx INSTR_ADD_F e0 e1)
      | TYPE_VECTOR => some (ast_binary_new ctx INSTR_ADD_V e0 e1)
      | _ => none
  else if id = opid1 '-' then
    if e0.vtype ≠ e1.vtype then none
    else
      match e0.vtype with
      | TYPE_FLOAT => some (ast_binary_new ctx INSTR_SUB_F e0 e1)
      | TYPE_VECTOR => some (ast_binary_new ctx INSTR_SUB_V e0 e1)
      | _ => none
  else if id = opid1 '*' then
    if e0.vtype ≠ e1.vtype ∧ e0.vtype ≠ TYPE_VECTOR ∧ e0.vtype ≠ TYPE_FLOAT ∧
        e1.vtype ≠ TYPE_VECTOR ∧ e1.vtype ≠ TYPE_FLOAT then none
    else
      match e0.vtype with
      | TYPE_FLOAT =>
        if e1.vtype = TYPE_VECTOR then some (ast_binary_new ctx INSTR_MUL_FV e0 e1)
        else some (ast_binary_new ctx INSTR_MUL_F e0 e1)
      | TYPE_VECTOR =>
        if e1.vtype = TYPE_FLOAT then some (ast_binary_new ctx INSTR_MUL_VF e0 e1)
        else some (ast_binary_new ctx INSTR_MUL_V e0 e1)
      | _ => none
  else if id = opid1 '/' then
    if e0.vtype ≠ e1.vtype ∨ e0.vtype ≠ TYPE_FLOAT then none
    else some (ast_binary_new ctx INSTR_DIV_F e0 e1)
  else if id = opid1 '=' then
    some (ast_store_new ctx (type_store_instr e0.vtype) e0 e1)
  else none

/-- The comma case of `parser_sy_pop`: extend the Block of the left operand,
or start a Block with both operands; the Block takes the right operand's
type. -/
def sy_comma (ctx : lex_ctx) (block0 : Option ast_expression) (e0 e1 : ast_expression) :
    ast_expression :=
  match block0 with
  | some b => ast_block_set_type (ast_block_exprs_add b e1) e1
  | none =>
    ast_block_set_type (ast_block_exprs_add (ast_block_exprs_add (ast_block_new ctx) e0) e1) e1

/-- The test `blocks[0] && !blocks[0]->exprs_count` of `parser_sy_pop`. -/
def block_is_empty (block0 : Option ast_expression) : Bool :=
  match block0 with
  | some b => b.exprs.length == 0
  | none => false

/-- The switch over the operator id in `parser_sy_pop`, after the operands
`args` were taken off the operand stack `sy1`; `a0` is the first of them. -/
def sy_pop_switch (parser : parser_t) (sy1 : shunt) (top : sy_elem) (op : oper_info)
    (a0 : sy_elem) (args : List sy_elem) : Outcome (Bool × parser_t × shunt) :=
  if op.id = opid1 ',' ∨ op.id = opid1 '+' ∨ op.id = opid1 '-' ∨
      op.id = opid1 '*' ∨ op.id = opid1 '/' ∨ op.id = opid1 '=' then
    match a0.out, (args.get? 1).bind (fun a1 => a1.out) with
    | some e0, some e1 =>
      if op.id = opid1 ',' then
        .done (true, parser,
          { sy1 with out := sy1.out ++ [syblock top.ctx (sy_comma top.ctx a0.block e0 e1)] })
      else
        match sy_apply top.ctx op.id e0 e1 with
        | some out => .done (true, parser, { sy1 with out := sy1.out ++ [syexp top.ctx out] })
        | none => .done (false, parseerror parser, sy1)
    | _, _ => .undefined
  else .done (false, parseerror parser, sy1)

/-- The C function `parser_sy_pop`: reduce the operator on top of the
operator stack over the topmost operands. -/
def parser_sy_pop (parser : parser_t) (sy : shunt) : Outcome (Bool × parser_t × shunt) :=
  match sy.ops.getLast? with
  | none => .done (false, parseerror parser, sy)
  | some top =>
    if top.paren ≠ 0 then .done (false, parseerror parser, sy)
    else
      (operator_at top.etype).bind fun op =>
        if sy.out.length < op.operands then .done (false, parseerror parser, sy)
        else
          let args := sy.out.drop (sy.out.length - op.operands)
          let sy1 : shunt :=
            { ops := sy.ops.dropLast, out := sy.out.take (sy.out.length - op.operands) }
          match args.get? 0 with
          | none => .undefined
          | some a0 =>
            if block_is_empty a0.block ∧ op.id ≠ opid1 ',' then
              .done (false, parseerror parser, sy1)
            else sy_pop_switch parser sy1 top op a0 args

/-- The tail of `parser_close_call`: the Call overwrites the callee at
position `fid`, then the callee's type, return type and parameter count are
checked against the `paramcount` arguments found. -/
def close_call_finish (parser : parser_t) (sy : shunt) (fid : Nat) (func call : ast_expression)
    (paramcount : Nat) : Bool × parser_t × shunt :=
  let sy1 : shunt := { sy with out := sy.out.set fid (syexp call.context call) }
  if func.vtype ≠ TYPE_FUNCTION then (false, parseerror parser, sy1)
  else if func.next.isNone then (false, parseerror parser, sy1)
  else if func.params.length ≠ paramcount then (false, parseerror parser, sy1)
  else (true, parser, sy1)

/-- The C function `parser_close_call`: the call-open marker on top of the
operator stack is closed; the operand at its `off` becomes a Call. -/
def parser_close_call (parser : parser_t) (sy : shunt) : Outcome (Bool × parser_t × shunt) :=
  match sy.ops.getLast? with
  | none => .undefined
  | some top =>
    let sy1 : shunt := { sy with ops := sy.ops.dropLast }
    let fid := top.off
    if sy1.out.length < 1 ∨ sy1.out.length ≤ fid then .done (false, parseerror parser, sy1)
    else
      match (sy1.out.get? fid).bind (fun e => e.out) with
      | none => .undefined
      | some func =>
        let call := ast_call_new top.ctx func
        if fid + 1 = sy1.out.length then
          .done (close_call_finish parser sy1 fid func call 0)
        else if fid + 2 = sy1.out.length then
          match sy1.out.getLast? with
          | none => .undefined
          | some arg =>
            let sy2 : shunt := { sy1 with out := sy1.out.dropLast }
            match arg.block with
            | none =>
              match arg.out with
              | none => .undefined
              | some a =>
                .done (close_call_finish parser sy2 fid func (ast_call_set_params call [a]) 1)
            | some params =>
              .done (close_call_finish parser sy2 fid func
                (ast_call_set_params call params.exprs) params.exprs.length)
        else .done (false, parseerror parser, sy1)

/-- The loop of `parser_close_paren`; each round takes one element off the
operator stack, so `fuel` is the height of that stack. -/
def close_paren_loop (functions_only : Bool) :
    Nat → parser_t → shunt → Outcome (Bool × parser_t × shunt)
  | fuel, parser, sy =>
    match sy.ops.getLast? with
    | none => .done (true, parser, sy)
    | some top =>
      if top.paren = PAREN_CALL then parser_close_call parser sy
      else if top.paren = 1 then
        .done (!functions_only, parser, { sy with ops := sy.ops.dropLast })
      else
        match fuel with
        | 0 => .timeout
        | fuel + 1 =>
          (parser_sy_pop parser sy).bind fun r =>
            if r.1 then close_paren_loop functions_only fuel r.2.1 r.2.2
            else .done (false, r.2.1, r.2.2)

/-- The C function `parser_close_paren`. -/
def parser_close_paren (parser : parser_t) (sy : shunt) (functions_only : Bool) :
    Outcome (Bool × parser_t × shunt) :=
  match sy.ops.getLast? with
  | none => .done (false, parseerror parser, sy)
  | some top =>
    if top.paren = 1 then .done (false, parseerror parser, sy)
    else close_paren_loop functions_only sy.ops.length parser sy

/-- The operator lookup of `parser_expression`: the position of the first
infix entry of the table with that spelling. -/
def find_operator (tab : List oper_info) (spelling : String) : Option Nat :=
  tab.findIdx? (fun o => o.flags &&& OP_PREFIX == 0 && o.flags &&& OP_SUFFIX == 0 &&
    o.op == spelling)

/-- The assignment `olast = &operators[...]` of `parser_expression`, made
only when the operator stack is not empty and its top is no paren marker;
otherwise `olast` keeps the value it had. -/
def update_olast (sy : shunt) (olast : Option oper_info) : Outcome (Option oper_info) :=
  match sy.ops.getLast? with
  | none => .done olast
  | some top =>
    if top.paren ≠ 0 then .done olast
    else (operator_at top.etype).bind fun o => .done (some o)

/-- The loop `while (olast && ...)` of `parser_expression` that reduces the
operators the arriving operator `op` has to wait for. -/
def expression_reduce (op : oper_info) :
    Nat → parser_t → shunt → Option oper_info → Outcome (Bool × parser_t × shunt)
  | fuel, parser, sy, olast =>
    match olast with
    | none => .done (true, parser, sy)
    | some last =>
      if op.prec < last.prec ∨ (op.assoc = ASSOC_LEFT ∧ op.prec ≤ last.prec) then
        match fuel with
        | 0 => .timeout
        | fuel + 1 =>
          (parser_sy_pop parser sy).bind fun r =>
            if r.1 then
              (update_olast r.2.2 olast).bind fun olast1 =>
                expression_reduce op fuel r.2.1 r.2.2 olast1
            else .done (false, r.2.1, r.2.2)
      else .done (true, parser, sy)

/-- The loop `while (sy.ops_count)` at the end of `parser_expression`. -/
def sy_pop_all : Nat → parser_t → shunt → Outcome (Bool × parser_t × shunt)
  | fuel, parser, sy =>
    if sy.ops.length = 0 then .done (true, parser, sy)
    else
      match fuel with
      | 0 => .timeout
      | fuel + 1 =>
        (parser_sy_pop parser sy).bind fun r =>
          if r.1 then sy_pop_all fuel r.2.1 r.2.2
          else .done (false, r.2.1, r.2.2)

/-- The label `onerr` of `parser_expression`. -/
def expression_onerr (parser : parser_t) : Outcome (Option ast_expression × parser_t) :=
  .done (none, set_noops parser true)

/-- The code of `parser_expression` after its main loop: step over the
terminator, reduce what is left on the operator stack, and return the bottom
operand. -/
def expression_finish (parser : parser_t) (sy : shunt) :
    Outcome (Option ast_expression × parser_t) :=
  let n := parser_next parser
  if !n.1 then expression_onerr (parseerror n.2)
  else
    (sy_pop_all sy.ops.length n.2 sy).bind fun r =>
      if !r.1 then expression_onerr r.2.1
      else
        let parser1 := set_noops r.2.1 true
        match r.2.2.out with
        | [] => .done (none, parseerror parser1)
        | e :: _ =>
          match e.out with
          | some v => .done (some v, parser1)
          | none => .done (none, parser1)

/-- The branch of `parser_expression` that accepts an operand (`wantop` is
false).  The result is the new value of `wantop`, or `none` after a jump to
`onerr`. -/
def expression_operand (parser : parser_t) (sy : shunt) :
    Outcome (Option Bool × parser_t × shunt) :=
  let ctx := parser_ctx parser
  if parser.tok = TOKEN_IDENT then
    (parser_find_var parser (parser_tokval parser)).bind fun v =>
      match v with
      | none => .done (none, parseerror parser, sy)
      | some var => .done (some true, parser, { sy with out := sy.out ++ [syexp ctx var] })
  else if parser.tok = TOKEN_FLOATCONST then
    let r := parser_const_float parser parser.lex.tok.constval_f
    .done (some true, r.2, { sy with out := sy.out ++ [syexp ctx r.1] })
  else if parser.tok = TOKEN_INTCONST then
    let r := parser_const_float parser (double_of_int parser.lex.tok.constval_i)
    .done (some true, r.2, { sy with out := sy.out ++ [syexp ctx r.1] })
  else if parser.tok = TOKEN_STRINGCONST then
    (parser_const_string parser (parser_tokval parser)).bind fun r =>
      .done (some true, r.2, { sy with out := sy.out ++ [syexp ctx r.1] })
  else if parser.tok = TOKEN_VECTORCONST then
    let r := parser_const_vector parser parser.lex.tok.constval_v
    .done (some true, r.2, { sy with out := sy.out ++ [syexp ctx r.1] })
  else if parser.tok = ch '(' then
    .done (some false, parser, { sy with ops := sy.ops ++ [syparen ctx 1 0] })
  else if parser.tok = ch ')' then
    (parser_close_paren parser sy true).bind fun r =>
      if r.1 then .done (some true, r.2.1, r.2.2)
      else .done (none, r.2.1, r.2.2)
  else .done (none, parseerror parser, sy)

/-- What the operator branch of `parser_expression` asks of the main loop. -/
inductive op_step where
  | go_on
  | stop
  | onerr
deriving DecidableEq

/-- The branch of `parser_expression` that accepts an operator, a call-open
paren or a closing paren (`wantop` is true). -/
def expression_operator (parser : parser_t) (sy : shunt) :
    Outcome (op_step × parser_t × shunt) :=
  let ctx := parser_ctx parser
  if parser.tok = ch '(' then
    .done (.go_on, parser, { sy with ops := sy.ops ++ [syparen ctx PAREN_CALL (sy.out.length - 1)] })
  else if parser.tok = ch ')' then
    (parser_close_paren parser sy false).bind fun r =>
      if r.1 then .done (.go_on, r.2.1, r.2.2)
      else .done (.onerr, r.2.1, r.2.2)
  else if parser.tok ≠ TOKEN_OPERATOR then .done (.onerr, parseerror parser, sy)
  else
    match find_operator operators (parser_tokval parser) with
    | none => .done (.stop, parser, sy)
    | some o =>
      (operator_at (o + 1)).bind fun op =>
        (update_olast sy none).bind fun olast =>
          (expression_reduce op (sy.ops.length + 1) parser sy olast).bind fun r =>
            if r.1 then .done (.go_on, r.2.1, { r.2.2 with ops := r.2.2.ops ++ [syop ctx o] })
            else .done (.onerr, r.2.1, r.2.2)

/-- The main loop of `parser_expression`.  Every round ends with a
`parser_next` that has to succeed for the loop to go on, so `fuel` is the
number of tokens left plus one. -/
def expression_loop : Nat → parser_t → shunt → Bool → Outcome (Option ast_expression × parser_t)
  | 0, _, _, _ => .timeout
  | fuel + 1, parser, sy, wantop =>
    if !wantop then
      (expression_operand parser sy).bind fun r =>
        match r.1 with
        | none => expression_onerr r.2.1
        | some nextwant =>
          let n := parser_next (set_noops r.2.1 (!nextwant))
          if !n.1 then expression_onerr n.2
          else if n.2.tok = ch ';' then expression_finish n.2 r.2.2
          else expression_loop fuel n.2 r.2.2 nextwant
    else
      (expression_operator parser sy).bind fun r =>
        match r.1 with
        | .onerr => expression_onerr r.2.1
        | .stop => expression_finish r.2.1 r.2.2
        | .go_on =>
          let n := parser_next (set_noops r.2.1 true)
          if !n.1 then expression_onerr n.2
          else if n.2.tok = ch ';' then expression_finish n.2 r.2.2
          else expression_loop fuel n.2 r.2.2 false

/-- The C function `parser_expression`: parse one expression up to and
including its terminator; `none` is the C result NULL. -/
def parser_expression (parser : parser_t) : Outcome (Option ast_expression × parser_t) :=
  expression_loop (parser.lex.input.length + 1) parser { out := [], ops := [] } false

/-! ## Types of declarations -/

mutual
/-- The C function `parser_parse_type` with a step budget: the result is the
parsed Value (NULL on error), the flag `isfunc` and the parser state. -/
def parse_type : Nat → parser_t → qc_type → Outcome (Option ast_expression × Bool × parser_t)
  | 0, _, _ => .timeout
  | fuel + 1, parser, basetype =>
    let ctx := parser_ctx parser
    if parser.tok = ch '(' then
      (parse_type_params fuel parser []).bind fun r =>
        match r.1 with
        | none => .done (none, true, r.2)
        | some params =>
          let n := parser_next r.2
          if !n.1 then .done (none, true, n.2)
          else .done (some (.value ctx "<unnamed>" basetype none params false .none), true, n.2)
    else .done (some (ast_value_new ctx "<unnamed>" basetype), false, parser)
/-- The loop over the parameter list in `parser_parse_type`; `none` is the
jump to `on_error`. -/
def parse_type_params : Nat → parser_t → List ast_expression →
    Outcome (Option (List ast_expression) × parser_t)
  | 0, _, _ => .timeout
  | fuel + 1, parser, params =>
    let n := parser_next parser
    if !n.1 then .done (none, n.2)
    else if n.2.tok = ch ')' then .done (some params, n.2)
    else
      let temptype := n.2.lex.tok.constval_t
      let n2 := parser_next n.2
      if !n2.1 then .done (none, n2.2)
      else
        (parse_type fuel n2.2 temptype).bind fun r =>
          match r.1 with
          | none => .done (none, r.2.2)
          | some param =>
            let named : Bool × ast_expression × parser_t :=
              if r.2.2.tok = TOKEN_IDENT then
                let n3 := parser_next r.2.2
                (n3.1, ast_value_set_name param (parser_tokval r.2.2), n3.2)
              else (true, param, r.2.2)
            if !named.1 then .done (none, named.2.2)
            else if named.2.2.tok = ch ',' then
              parse_type_params fuel named.2.2 (params ++ [named.2.1])
            else if named.2.2.tok = ch ')' then .done (some (params ++ [named.2.1]), named.2.2)
            else .done (none, parseerror named.2.2)
end

/-- The C function `parser_parse_type`.  Every round of its loop and every
nested call reads a token first, so the tokens left bound the steps. -/
def parser_parse_type (parser : parser_t) (basetype : qc_type) :
    Outcome (Option ast_expression × Bool × parser_t) :=
  parse_type (parser.lex.input.length + 2) parser basetype

/-! ## Statements, blocks and declarations -/

/-- The C function `parser_pop_local` repeated until `locals_count` is no
longer above `blocklocal`. -/
def unroll_locals (parser : parser_t) : parser_t :=
  { parser with locals := parser.locals.take parser.blocklocal }

/-- The function-typed Value that `parser_variable` builds around the parsed
Value `var`: `var` becomes its return type and hands over its parameters. -/
def function_value (ctx : lex_ctx) (var : ast_expression) : ast_expression :=
  match var with
  | .value c n t nx ps k cv =>
    .value ctx n TYPE_FUNCTION (some (.value c n t nx [] k cv)) ps false .none
  | e => e

/-- The symbol-table entries `parser_variable` registers for the Value
`var`: the entry itself and, for a vector, the three member aliases. -/
def var_entries (var : ast_expression) : List varentry_t :=
  if var.vtype = TYPE_VECTOR then
    [ { name := var.name, var := var },
      { name := var.name ++ "_x", var := ast_member_new var.context var 0 },
      { name := var.name ++ "_y", var := ast_member_new var.context var 1 },
      { name := var.name ++ "_z", var := ast_member_new var.context var 2 } ]
  else [ { name := var.name, var := var } ]

/-- Assignment to `func->builtin` of the Function at position `i`. -/
def set_builtin (fs : List ast_function) (i : Nat) (b : Int) : List ast_function :=
  fs.modify (fun f => { f with builtin := b }) i

/-- The call `ast_function_blocks_add` on the Function at position `i`. -/
def add_block (fs : List ast_function) (i : Nat) (b : ast_expression) : List ast_function :=
  fs.modify (fun f => { f with blocks := f.blocks ++ [b] }) i

/-- What `parser_variable` has in hand once a declarator is registered: the
Value `var`, the Function `func` created for it (NULL or a position in
`functions`), the enclosing block and the parser state. -/
structure declarator where
  var : ast_expression
  func : Option Nat
  localblock : Option ast_expression
  parser : parser_t

/-- The part of `parser_variable` that registers an accepted declarator:
the parsed Value `var0` is named after the current identifier, is wrapped in
a function-typed Value with a new Function when `isfunc` is set, and is
entered, with the aliases of a vector, into the globals or (inside
`localblock`) into the locals and the locals of the block. -/
def variable_register (p1 : parser_t) (localblock : Option ast_expression) (ctx : lex_ctx)
    (var0 : ast_expression) (isfunc : Bool) : declarator :=
  let named := ast_value_set_name var0 (parser_tokval p1)
  let func : Option Nat := if isfunc then some p1.functions.length else none
  let var := if isfunc then function_value ctx named else named
  let p2 : parser_t :=
    if isfunc then
      { p1 with functions := p1.functions ++ [ast_function_new ctx named.name var] }
    else p1
  let p3 : parser_t :=
    if localblock.isNone then { p2 with globals := p2.globals ++ var_entries var }
    else { p2 with locals := p2.locals ++ var_entries var }
  { var := var, func := func,
    localblock := localblock.map (fun b => ast_block_locals_add b var), parser := p3 }

/-- The part of `parser_variable` for the initializer `= # N`, entered on the
token `#`: false after an error, else the builtin index of `func` is set. -/
def variable_builtin (parser : parser_t) (localblock : Option ast_expression)
    (func : Option Nat) : Bool × parser_t :=
  if localblock.isSome then (false, parseerror parser)
  else
    match func with
    | none => (false, parseerror parser)
    | some i =>
      let n := parser_next parser
      if !n.1 then (false, parseerror n.2)
      else if n.2.tok ≠ TOKEN_INTCONST then (false, parseerror n.2)
      else if n.2.lex.tok.constval_i ≤ 0 then (false, parseerror n.2)
      else
        (true, { n.2 with functions := set_builtin n.2.functions i (-n.2.lex.tok.constval_i) })

/-- The result of `parser_parse_statement`: the C return value, the enclosing
block (locals may have been added), the out-parameter `*out` (`none` when the
call left it unassigned) and the parser state. -/
structure stmt_result where
  ok : Bool
  block : Option ast_expression
  out : Option (Option ast_expression)
  parser : parser_t

/-- The `return` statement of `parser_parse_statement`. -/
def parse_return (parser : parser_t) (block : Option ast_expression) : Outcome stmt_result :=
  match parser.function.bind (fun i => parser.functions.get? i) with
  | none => .undefined
  | some f =>
    let expected := f.vtype
    let n := parser_next parser
    if !n.1 then .done ⟨false, block, none, parseerror n.2⟩
    else if n.2.tok ≠ ch ';' then
      (parser_expression n.2).bind fun r =>
        match r.1 with
        | none => .done ⟨false, block, none, r.2⟩
        | some exp =>
          match expected.next with
          | none => .undefined
          | some rt =>
            let parser1 := if exp.vtype ≠ rt.vtype then parseerror r.2 else r.2
            .done ⟨true, block, some (some (ast_return_new exp.context exp)), parser1⟩
    else
      let n2 := parser_next n.2
      if !n2.1 then
        match expected.next with
        | none => .undefined
        | some rt =>
          let parser1 := parseerror n2.2
          .done ⟨true, block, none, if rt.vtype ≠ TYPE_VOID then parseerror parser1 else parser1⟩
      else .done ⟨true, block, none, n2.2⟩

mutual
/-- The C function `parser_parse_statement` with a step budget. -/
def parse_statement : Nat → parser_t → Option ast_expression → Outcome stmt_result
  | 0, _, _ => .timeout
  | fuel + 1, parser, block =>
    if parser.tok = TOKEN_TYPENAME then
      match block with
      | none => .done ⟨false, block, none, parseerror parser⟩
      | some b =>
        (variable_loop fuel parser (some b) parser.lex.tok.constval_t).bind fun r =>
          if !r.1 then .done ⟨false, r.2.1, none, r.2.2⟩
          else .done ⟨true, r.2.1, some none, r.2.2⟩
    else if parser.tok = TOKEN_KEYWORD then
      if parser_tokval parser = "return" then parse_return parser block
      else .done ⟨false, block, none, parseerror parser⟩
    else if parser.tok = ch '{' then
      (parse_block fuel parser).bind fun r =>
        match r.1 with
        | none => .done ⟨false, block, none, r.2⟩
        | some inner => .done ⟨true, block, some (some inner), r.2⟩
    else
      (parser_expression parser).bind fun r =>
        match r.1 with
        | none => .done ⟨false, block, none, r.2⟩
        | some exp => .done ⟨true, block, some (some exp), r.2⟩
/-- The statement loop of `parser_parse_block`, up to the label `cleanup`:
the result is the finished Block, or NULL. -/
def parse_block_loop : Nat → parser_t → ast_expression →
    Outcome (Option ast_expression × parser_t)
  | 0, _, _ => .timeout
  | fuel + 1, parser, block =>
    if parser.tok ≠ TOKEN_EOF ∧ !parser.tok.is_error ∧ parser.tok ≠ ch '}' then
      (parse_statement fuel parser (some block)).bind fun r =>
        if !r.ok then .done (none, r.parser)
        else
          match r.out, r.block with
          | some (some expr), some b => parse_block_loop fuel r.parser (ast_block_exprs_add b expr)
          | some none, some b => parse_block_loop fuel r.parser b
          | _, _ => .undefined
    else if parser.tok ≠ ch '}' then .done (none, parser)
    else .done (some block, (parser_next parser).2)
/-- The C function `parser_parse_block` with a step budget. -/
def parse_block : Nat → parser_t → Outcome (Option ast_expression × parser_t)
  | 0, _ => .timeout
  | fuel + 1, parser =>
    let oldblocklocal := parser.blocklocal
    let n := parser_next { parser with blocklocal := parser.locals.length }
    if !n.1 then
      .done (none, unroll_locals { parseerror n.2 with blocklocal := oldblocklocal })
    else
      (parse_block_loop fuel n.2 (ast_block_new (parser_ctx n.2))).bind fun r =>
        .done (r.1, unroll_locals { r.2 with blocklocal := oldblocklocal })
/-- The loop of the C function `parser_variable` with a step budget, entered
on the base typename or on a comma; `basetype` is the type code read from the
base typename.  The result is the C return value, the enclosing block and the
parser state. -/
def variable_loop : Nat → parser_t → Option ast_expression → qc_type →
    Outcome (Bool × Option ast_expression × parser_t)
  | 0, _, _, _ => .timeout
  | fuel + 1, parser, localblock, basetype =>
    let n := parser_next parser
    if !n.1 then .done (false, localblock, parseerror n.2)
    else
      let ctx := parser_ctx n.2
      (parser_parse_type n.2 basetype).bind fun t =>
        match t.1 with
        | none => .done (false, localblock, t.2.2)
        | some var0 =>
          let isfunc := t.2.1
          let p1 := t.2.2
          if p1.tok ≠ TOKEN_IDENT then .done (false, localblock, parseerror p1)
          else if localblock.isNone ∧ (parser_find_global p1 (parser_tokval p1)).isSome then
            .done (false, localblock, parseerror p1)
          else
            (if localblock.isSome then parser_find_local p1 (parser_tokval p1) p1.blocklocal
             else .done none).bind fun dup =>
              if dup.isSome then .done (false, localblock, parseerror p1)
              else
                let d := variable_register p1 localblock ctx var0 isfunc
                let n1 := parser_next d.parser
                if !n1.1 then .done (false, d.localblock, n1.2)
                else if n1.2.tok = ch ';' then
                  let n2 := parser_next n1.2
                  if !n2.1 then .done (n2.2.tok == TOKEN_EOF, d.localblock, n2.2)
                  else .done (true, d.localblock, n2.2)
                else if n1.2.tok = ch ',' then variable_loop fuel n1.2 d.localblock basetype
                else if n1.2.tok ≠ ch '=' then .done (false, d.localblock, parseerror n1.2)
                else
                  let n2 := parser_next n1.2
                  if !n2.1 then .done (false, d.localblock, n2.2)
                  else if n2.2.tok = ch '{' then
                    if localblock.isSome then .done (false, d.localblock, parseerror n2.2)
                    else
                      (parse_block fuel { n2.2 with function := d.func }).bind fun b =>
                        let p4 : parser_t := { b.2 with function := n2.2.function }
                        match b.1 with
                        | none => .done (false, d.localblock, p4)
                        | some block =>
                          match d.func with
                          | none => .undefined
                          | some i =>
                            .done (true, d.localblock,
                              { p4 with functions := add_block p4.functions i block })
                  else
                    let after : Bool × parser_t :=
                      if n2.2.tok = ch '#' then variable_builtin n2.2 localblock d.func
                      else (true, parseerror n2.2)
                    if !after.1 then .done (false, d.localblock, after.2)
                    else
                      let n3 := parser_next after.2
                      if !n3.1 then .done (false, d.localblock, n3.2)
                      else if n3.2.tok = ch ',' then variable_loop fuel n3.2 d.localblock basetype
                      else if n3.2.tok ≠ ch ';' then .done (false, d.localblock, parseerror n3.2)
                      else .done (true, d.localblock, (parser_next n3.2).2)
end

/-- The step budget of the statement, block and declaration parsers, sized
to the input: between two rounds of a loop and within three nested calls at
least one token is read. -/
def parse_budget (parser : parser_t) : Nat :=
  3 * parser.lex.input.length + 3

/-- The C function `parser_parse_statement`. -/
def parser_parse_statement (parser : parser_t) (block : Option ast_expression) :
    Outcome stmt_result :=
  parse_statement (parse_budget parser) parser block

/-- The C function `parser_parse_block`: the parsed Block, NULL on failure. -/
def parser_parse_block (parser : parser_t) : Outcome (Option ast_expression × parser_t) :=
  parse_block (parse_budget parser) parser

/-- The C function `parser_variable`, called with the base typename as
current token; `localblock` is NULL for a global declaration. -/
def parser_variable (parser : parser_t) (localblock : Option ast_expression) :
    Outcome (Bool × Option ast_expression × parser_t) :=
  variable_loop (parse_budget parser) parser localblock parser.lex.tok.constval_t

/-! ## Top level -/

/-- The C function `parser_do`: one top-level declaration. -/
def parser_do (parser : parser_t) : Outcome (Bool × parser_t) :=
  if parser.tok = TOKEN_TYPENAME then
    (parser_variable parser none).bind fun r => .done (r.1, r.2.2)
  else if parser.tok = TOKEN_KEYWORD then .done (false, parser)
  else if parser.tok = ch '.' then .done (false, parser)
  else .done (false, parseerror parser)

/-- Modelled from the spec: `lex_open` of the absent lexer: the lexer of the
opened file, with its token stream and no token handed out yet. -/
def lex_open (input : List token) : lex_file :=
  { input := input,
    tok :=
      { ttype := TOKEN_EOF, value := "", constval_t := TYPE_VOID, constval_i := 0,
        constval_f := ⟨0⟩, constval_v := ⟨0, 0, 0⟩, ctx := ⟨"", 0⟩ },
    noops := false }

/-- The C function `parser_init` on the block `mem` that `mem_a` returned.
The call `memset(parser, 0, sizeof(parser))` clears as many bytes as a
pointer has, which is the first member, `lex`, and no other member; the two
`MEM_VECTOR_INIT` empty `globals` and `locals`.  The members `tok`,
`functions`, `imm_float`, `imm_string`, `imm_vector`, `function`,
`blocklocal` and `errors` keep what the block held.  The cleared `lex`, a
NULL pointer, is a lexer without tokens here: `parser_compile` assigns the
member before it is read. -/
def parser_init (mem : parser_t) : parser_t :=
  { mem with lex := lex_open [], globals := [], locals := [] }

/-- A block of memory that holds no functions, no interned constants, no
active function, the watermark 0 and the error counter 0 (the member `tok` is
written by the first `parser_next` before it is read). -/
def cleared_block : parser_t :=
  { lex := lex_open [], tok := TOKEN_EOF, globals := [], functions := [], imm_float := [],
    imm_string := [], imm_vector := [], function := none, locals := [], blocklocal := 0,
    errors := 0 }

/-- The parser that `parser_init` leaves when `mem_a` returned a cleared
block. -/
def parser_cleared : parser_t :=
  parser_init cleared_block

/-- The state in which `parser_compile` reads the first token of `input`
when it started from `parser_cleared`: empty tables, zero counters, the lexer of
the file with `noops` set. -/
def clean_state (input : List token) : parser_t :=
  { lex :=
      { input := input,
        tok :=
          { ttype := TOKEN_EOF, value := "", constval_t := TYPE_VOID, constval_i := 0,
            constval_f := ⟨0⟩, constval_v := ⟨0, 0, 0⟩, ctx := ⟨"", 0⟩ },
        noops := true },
    tok := TOKEN_EOF, globals := [], functions := [], imm_float := [], imm_string := [],
    imm_vector := [], function := none, locals := [], blocklocal := 0, errors := 0 }

/-- The declaration loop of `parser_compile`. -/
def compile_loop : Nat → parser_t → Outcome (Bool × parser_t)
  | 0, _ => .timeout
  | fuel + 1, parser =>
    if parser.tok ≠ TOKEN_EOF ∧ !parser.tok.is_error then
      (parser_do parser).bind fun r =>
        if !r.1 then .done (false, parseerror r.2)
        else compile_loop fuel r.2
    else .done (parser.errors == 0, parser)

/-- The C function `parser_compile` on the parser as `parser_init` left it
and on the token stream of the opened file. -/
def parser_compile (parser : parser_t) (input : List token) : Outcome (Bool × parser_t) :=
  let opened : parser_t := { parser with lex := { lex_open input with noops := true } }
  let n := parser_next opened
  if n.1 then compile_loop (input.length + 1) n.2
  else .done (n.2.errors == 0, n.2)

/-! ## Token streams of concrete programs -/

/-- A token of the given tag and spelling, without payload. -/
def mk_token (ttype : tok_type) (value : String) : token :=
  { ttype := ttype, value := value, constval_t := TYPE_VOID, constval_i := 0,
    constval_f := ⟨0⟩, constval_v := ⟨0, 0, 0⟩, ctx := ⟨"", 0⟩ }

/-- A one-character token such as a paren, a brace or the semicolon. -/
def tk_ch (c : Char) : token :=
  mk_token (ch c) (String.singleton c)

/-- An identifier token. -/
def tk_ident (name : String) : token :=
  mk_token TOKEN_IDENT name

/-- A typename token carrying its type code. -/
def tk_typename (name : String) (t : qc_type) : token :=
  { mk_token TOKEN_TYPENAME name with constval_t := t }

/-- An operator token, as the lexer classifies it inside an expression. -/
def tk_op (spelling : String) : token :=
  mk_token TOKEN_OPERATOR spelling

/-- An integer literal token. -/
def tk_int (spelling : String) (i : Int) : token :=
  { mk_token TOKEN_INTCONST spelling with constval_i := i }

/-- A keyword token. -/
def tk_keyword (name : String) : token :=
  mk_token TOKEN_KEYWORD name

/-! ## The operator table of the specification -/

/-- The rows of the operator table for the arithmetic operators: operator
character, left operand type, right operand type, opcode of the Binary. -/
def operator_table : List (Char × qc_type × qc_type × instr) :=
  [ ('+', TYPE_FLOAT, TYPE_FLOAT, INSTR_ADD_F),
    ('+', TYPE_VECTOR, TYPE_VECTOR, INSTR_ADD_V),
    ('-', TYPE_FLOAT, TYPE_FLOAT, INSTR_SUB_F),
    ('-', TYPE_VECTOR, TYPE_VECTOR, INSTR_SUB_V),
    ('*', TYPE_FLOAT, TYPE_FLOAT, INSTR_MUL_F),
    ('*', TYPE_FLOAT, TYPE_VECTOR, INSTR_MUL_FV),
    ('*', TYPE_VECTOR, TYPE_FLOAT, INSTR_MUL_VF),
    ('*', TYPE_VECTOR, TYPE_VECTOR, INSTR_MUL_V),
    ('/', TYPE_FLOAT, TYPE_FLOAT, INSTR_DIV_F) ]

/-- Whether operator `c` over the operand types `tl` and `tr` is a row of the
operator table; the row of `=` asks for two equal types. -/
def table_row (c : Char) (tl tr : qc_type) : Bool :=
  if c = '=' then tl == tr
  else operator_table.any (fun r => r.1 == c && r.2.1 == tl && r.2.2.1 == tr)

/-- The C return value of a reduction; false when the call did not return. -/
def reduced (r : Outcome (Bool × parser_t × shunt)) : Bool :=
  match r with
  | .done x => x.1
  | _ => false

/-- The source position of the tokens and operands of the examples. -/
def pos0 : lex_ctx := ⟨"", 0⟩

/-- A variable of the given name and type, declared at `pos0`. -/
def var_of (name : String) (t : qc_type) : ast_expression :=
  ast_value_new pos0 name t

/-- The arguments a call supplies, read off the operands above the callee:
none, one expression, or the expressions of one comma Block; more than one
operand above the callee is no argument list. -/
def supplied (args : List sy_elem) : Option (List ast_expression) :=
  match args with
  | [] => some []
  | [a] =>
    match a.block with
    | some b => some b.exprs
    | none => a.out.map (fun e => [e])
  | _ => none

/-- A function-typed Value as `parser_variable` builds it: named `name`,
returning `ret`, with the parameters `params`. -/
def fn_value (name : String) (ret : qc_type) (params : List ast_expression) : ast_expression :=
  function_value pos0 (.value pos0 name ret none params false .none)

/-- A parser state inside the body of a function `h(string x)`, with a float
and a vector local and an entity global all named `x`. -/
def scope_state : parser_t :=
  { clean_state [] with
    functions := [ast_function_new pos0 "h" (fn_value "h" TYPE_VOID [var_of "x" TYPE_STRING])],
    function := some 0,
    locals := [⟨"x", var_of "x" TYPE_FLOAT⟩, ⟨"x", var_of "x" TYPE_VECTOR⟩],
    globals := [⟨"x", var_of "x" TYPE_ENTITY⟩] }

/-! ## Concrete programs and states -/

/-- The typename token `float`. -/
def tk_float : token := tk_typename "float" TYPE_FLOAT

/-- The typename token `vector`. -/
def tk_vector : token := tk_typename "vector" TYPE_VECTOR

/-- The typename token `void`. -/
def tk_void : token := tk_typename "void" TYPE_VOID

/-- The tokens `T ( ) name = {` that open the body of a parameterless
function of return type `T` in a global declaration. -/
def body_open (t : token) (name : String) : List token :=
  [t, tk_ch '(', tk_ch ')', tk_ident name, tk_ch '=', tk_ch '{']

/-- The parser state at the first token of `input`, inside the body of a
function `h()`, with the float globals `a`, `b`, `c` and the global
functions `f0()`, `f1(float)`, `f2(float, float)` and
`f3(float, float, float)`, all returning float. -/
def call_state (input : List token) : parser_t :=
  (parser_next
    { clean_state input with
      globals :=
        [ ⟨"a", var_of "a" TYPE_FLOAT⟩, ⟨"b", var_of "b" TYPE_FLOAT⟩, ⟨"c", var_of "c" TYPE_FLOAT⟩,
          ⟨"f0", fn_value "f0" TYPE_FLOAT []⟩,
          ⟨"f1", fn_value "f1" TYPE_FLOAT [var_of "p" TYPE_FLOAT]⟩,
          ⟨"f2", fn_value "f2" TYPE_FLOAT [var_of "p" TYPE_FLOAT, var_of "q" TYPE_FLOAT]⟩,
          ⟨"f3", fn_value "f3" TYPE_FLOAT
            [var_of "p" TYPE_FLOAT, var_of "q" TYPE_FLOAT, var_of "r" TYPE_FLOAT]⟩ ],
      functions := [ast_function_new pos0 "h" (fn_value "h" TYPE_VOID [])],
      function := some 0 }).2

/-- The tokens of the call statement `f ( args ) ;` followed by the closing
brace of the body. -/
def call_tokens (f : String) (args : List token) : List token :=
  [tk_ident f, tk_ch '('] ++ args ++ [tk_ch ')', tk_ch ';', tk_ch '}']

/-- Whether `parser_expression` returned NULL. -/
def returned_null (r : Outcome (Option ast_expression × parser_t)) : Bool :=
  match r with
  | .done (e, _) => e.isNone
  | _ => false

/-- The names of the arguments of the Call that `parser_expression`
returned; `none` when it returned no Call. -/
def returned_call_args (r : Outcome (Option ast_expression × parser_t)) : Option (List String) :=
  match r with
  | .done (some (.call _ _ _ ps), _) => some (ps.map (fun e => e.name))
  | _ => none

/-- The error counter after a call of `parser_expression` or
`parser_parse_block`. -/
def errors_after (r : Outcome (Option ast_expression × parser_t)) : Option Nat :=
  match r with
  | .done (_, p) => some p.errors
  | _ => none

/-- The names on the locals stack after `parser_parse_block` returned, and
whether it returned a Block. -/
def locals_after (r : Outcome (Option ast_expression × parser_t)) : Option (Bool × List String) :=
  match r with
  | .done (b, p) => some (b.isSome, p.locals.map (fun e => e.name))
  | _ => none

/-- The outcome of `parser_compile` in short: its return value, the error
counter, the names of the globals, and for every function the number of its
body blocks and the names of the locals of its first block. -/
def compiled (r : Outcome (Bool × parser_t)) :
    Option (Bool × Nat × List String × List (Nat × List String)) :=
  match r with
  | .done (ok, p) =>
    some (ok, p.errors, p.globals.map (fun e => e.name),
      p.functions.map (fun f => (f.blocks.length,
        match f.blocks with
        | .block _ _ ls _ :: _ => ls.map (fun e => e.name)
        | _ => [])))
  | _ => none

/-- The parser state in the body of `f()` after `float x;`, at the `{` that
opens a nested block: one local, the watermark of the body at 0. -/
def nested_open_state (input : List token) : parser_t :=
  (parser_next
    { clean_state (tk_ch '{' :: input) with
      functions := [ast_function_new pos0 "f" (fn_value "f" TYPE_VOID [])],
      function := some 0,
      locals := [⟨"x", var_of "x" TYPE_FLOAT⟩],
      blocklocal := 0 }).2

/-- The parser state at the typename of the global declaration `vector v;`. -/
def decl_state : parser_t :=
  (parser_next (clean_state [tk_vector, tk_ident "v", tk_ch ';'])).2

/-- The parser state at the typename of the declaration `float x;` in a
nested block of `f()`, whose enclosing block declared a local `x`: one local
below the watermark 1. -/
def shadow_state : parser_t :=
  (parser_next
    { clean_state [tk_float, tk_ident "x", tk_ch ';', tk_ch '}'] with
      functions := [ast_function_new pos0 "f" (fn_value "f" TYPE_VOID [])],
      function := some 0,
      locals := [⟨"x", var_of "x" TYPE_FLOAT⟩],
      blocklocal := 1 }).2

/-- What `parser_parse_type` leaves alone: both scopes, the watermark, the
functions and the active function. -/
def same_scope (p q : parser_t) : Prop :=
  q.globals = p.globals ∧ q.locals = p.locals ∧ q.blocklocal = p.blocklocal ∧
    q.functions = p.functions ∧ q.function = p.function

/-! ## Sequences of interning calls -/

/-- The C comparison `a == b` on two `float` values given as binary32 bit
patterns. -/
def float_eq (a b : Nat) : Bool :=
  if ((a / 2 ^ 23) % 2 ^ 8 == 2 ^ 8 - 1 && a % 2 ^ 23 != 0) ||
      ((b / 2 ^ 23) % 2 ^ 8 == 2 ^ 8 - 1 && b % 2 ^ 23 != 0) then false
  else if a % 2 ^ 31 == 0 && b % 2 ^ 31 == 0 then true
  else a % 2 ^ 32 == b % 2 ^ 32

/-- The equality of vectors that the specification names: float equality on
each of the three components. -/
def vector_componentwise_eq (v w : vector) : Bool :=
  float_eq v.x w.x && float_eq v.y w.y && float_eq v.z w.z

/-- One call of an interning function: its literal. -/
inductive const_call where
  | float (d : qc_double)
  | string (s : String)
  | vec (v : vector)
deriving DecidableEq

/-- The parser state after one interning call. -/
def intern (parser : parser_t) (c : const_call) : Outcome parser_t :=
  match c with
  | .float d => .done (parser_const_float parser d).2
  | .string s => (parser_const_string parser s).bind fun r => .done r.2
  | .vec v => .done (parser_const_vector parser v).2

/-- The parser state after a sequence of interning calls. -/
def intern_all (parser : parser_t) (calls : List const_call) : Outcome parser_t :=
  match calls with
  | [] => .done parser
  | c :: cs => (intern parser c).bind fun q => intern_all q cs

/-- The parser state that one interning call leaves when it returns (the
state it was entered with when it does not). -/
def interned (parser : parser_t) (c : const_call) : parser_t :=
  match intern parser c with
  | .done q => q
  | _ => parser

/-- No node of the string pool holds a NULL string. -/
def no_null_string (parser : parser_t) : Prop :=
  ∀ v ∈ parser.imm_string, v.constval ≠ .vnull

/-- The payloads of the three pools after a sequence of interning calls;
`none` when a call did not return. -/
def pools_of (r : Outcome parser_t) :
    Option (List const_val × List const_val × List const_val) :=
  match r with
  | .done p =>
    some (p.imm_float.map (fun v => v.constval), p.imm_string.map (fun v => v.constval),
      p.imm_vector.map (fun v => v.constval))
  | _ => none

/-- The payload of the node that `parser_const_string` returned and the
payloads of the string pool it left; `none` when the call did not return. -/
def string_interned (r : Outcome (ast_expression × parser_t)) :
    Option (const_val × List const_val) :=
  match r with
  | .done (v, p) => some (v.constval, p.imm_string.map (fun v => v.constval))
  | _ => none

/-- The test of the loop of `parser_const_float`: the node stores a float
that compares equal to `d`. -/
def holds_float (d : qc_double) (v : ast_expression) : Bool :=
  match v.constval with
  | .vfloat x => double_eq x d
  | _ => false

/-- The test of the loop of `parser_const_string`. -/
def holds_string (s : String) (v : ast_expression) : Bool :=
  match v.constval with
  | .vstring x => x == s
  | _ => false

/-- The test of the loop of `parser_const_vector`. -/
def holds_vector (w : vector) (v : ast_expression) : Bool :=
  match v.constval with
  | .vvec x => x == w
  | _ => false

/-- Two pooled nodes store floats that compare equal. -/
def same_float (a b : ast_expression) : Bool :=
  match a.constval, b.constval with
  | .vfloat x, .vfloat y => double_eq x y
  | _, _ => false

/-- The parser state with empty constant pools. -/
def empty_pools (parser : parser_t) : parser_t :=
  { parser with imm_float := [], imm_string := [], imm_vector := [] }

/-- The double `+0.0`. -/
def double_zero : qc_double := ⟨0⟩

/-- The double `-0.0`: only the sign bit is set. -/
def double_neg_zero : qc_double := ⟨2 ^ 63⟩

/-- A quiet NaN: exponent all ones and the top mantissa bit. -/
def double_nan : qc_double := ⟨0x7FF8000000000000⟩

/-- No two entries of a pool are equal under the comparison its lookup
uses: `==` for floats, equality of the stored bytes for strings, equality of
the stored bit patterns for vectors. -/
def pools_distinct (p : parser_t) : Prop :=
  p.imm_float.Pairwise (fun a b => same_float a b = false) ∧
    p.imm_string.Pairwise (fun a b => a.constval ≠ b.constval) ∧
    p.imm_vector.Pairwise (fun a b => a.constval ≠ b.constval)

/-- The typename token `string`. -/
def tk_string : token := tk_typename "string" TYPE_STRING

/-- The parser state at the typename of the global declaration
`void(string) bprint = #1;`. -/
def bprint_state : parser_t :=
  (parser_next (clean_state [tk_void, tk_ch '(', tk_string, tk_ch ')', tk_ident "bprint",
    tk_ch '=', tk_ch '#', tk_int "1" 1, tk_ch ';'])).2

/-- The state of `bprint_state` four tokens on, at the identifier `bprint`. -/
def bprint_ident_state : parser_t :=
  (parser_next (parser_next (parser_next (parser_next bprint_state).2).2).2).2

/-- Whether a call of the model ran into undefined behaviour of the C code. -/
def is_undefined {α : Type} (r : Outcome α) : Bool :=
  match r with
  | .undefined => true
  | _ => false

/-- The opcodes of an expression that is a Store of a Binary whose left
operand is a Binary, or such a Binary itself: the opcodes from the root to
the innermost left operand. -/
def left_chain (r : Outcome (Option ast_expression × parser_t)) : Option (List instr) :=
  match r with
  | .done (some (.store _ _ s _ (.binary _ _ o1 (.binary _ _ o2 _ _) _)), _) => some [s, o1, o2]
  | .done (some (.binary _ _ o1 (.binary _ _ o2 _ _) _), _) => some [o1, o2]
  | _ => none

/-- The property `P` holds of the result of a call whenever the call
returns. -/
def Outcome.sat {α : Type} (P : α → Prop) (r : Outcome α) : Prop :=
  match r with
  | .done a => P a
  | _ => True

/-- A Function node as the declarations leave it: builtin index 0 and at
most one body block, or a negative builtin index and no body block. -/
def node_ok (f : ast_function) : Bool :=
  (f.builtin == 0 && decide (f.blocks.length ≤ 1)) || (decide (f.builtin < 0) && f.blocks.isEmpty)

/-- A Function node as `ast_function_new` leaves it. -/
def node_fresh (f : ast_function) : Bool :=
  f.builtin == 0 && f.blocks.isEmpty

/-- The Function nodes of the parser a call returned, none if it did not
return. -/
def functions_of (r : Outcome (Bool × parser_t)) : List ast_function :=
  match r with
  | .done x => x.2.functions
  | _ => []

/-- The state `q` has the Function nodes of `p`, followed by nodes that are
as `ast_function_new` left them. -/
def functions_grow (p q : parser_t) : Prop :=
  ∃ extra, q.functions = p.functions ++ extra ∧ extra.all node_fresh = true

/-- A Function node as C14 describes it: no body block below builtin index
0, at least one body block from builtin index 0 on. -/
def node_as_claimed (f : ast_function) : Bool :=
  if f.builtin < 0 then f.blocks.isEmpty else decide (1 ≤ f.blocks.length)

/-- The program `float() f;`, a function declared without initializer. -/
def forward_declaration : List token :=
  [tk_float, tk_ch '(', tk_ch ')', tk_ident "f", tk_ch ';']

/-- The builtin index and the number of body blocks of every Function node
of the parser a call returned. -/
def function_summary (r : Outcome (Bool × parser_t)) : Option (List (Int × Nat)) :=
  match r with
  | .done x => some (x.2.functions.map (fun f => (f.builtin, f.blocks.length)))
  | _ => none

/-- The parser state in the body of a function at the start of the statement
`a = b = c ;` followed by the closing brace, with the float globals `a`,
`b`, `c`. -/
def assign_chain_state : parser_t :=
  call_state [tk_ident "a", tk_op "=", tk_ident "b", tk_op "=", tk_ident "c", tk_ch ';',
    tk_ch '}']

/-! ## Shapes of syntax trees -/

/-- The mnemonic of an opcode. -/
def instr.mnemonic (op : instr) : String :=
  match op with
  | INSTR_ADD_F => "ADD_F"
  | INSTR_ADD_V => "ADD_V"
  | INSTR_SUB_F => "SUB_F"
  | INSTR_SUB_V => "SUB_V"
  | INSTR_MUL_F => "MUL_F"
  | INSTR_MUL_V => "MUL_V"
  | INSTR_MUL_FV => "MUL_FV"
  | INSTR_MUL_VF => "MUL_VF"
  | INSTR_DIV_F => "DIV_F"
  | INSTR_STORE_F => "STORE_F"
  | INSTR_STORE_V => "STORE_V"
  | INSTR_STORE_S => "STORE_S"
  | INSTR_STORE_ENT => "STORE_ENT"
  | INSTR_STORE_FLD => "STORE_FLD"
  | INSTR_STORE_FNC => "STORE_FNC"

mutual
/-- A syntax tree written in prefix form: a Value by its name, a Binary and a
Store by the opcode followed by both operands, a Call by the callee and the
bracketed arguments, a Block by its bracketed statements, a Return by its
operand. -/
def ast_expression.shape : ast_expression → List String
  | .value _ n _ _ _ _ _ => [n]
  | .binary _ _ op l r => op.mnemonic :: (l.shape ++ r.shape)
  | .store _ _ op d s => op.mnemonic :: (d.shape ++ s.shape)
  | .call _ _ f ps => "call" :: (f.shape ++ "(" :: (shape_list ps ++ [")"]))
  | .member _ _ o _ => "member" :: o.shape
  | .block _ _ _ xs => "\x7b" :: (shape_list xs ++ ["\x7d"])
  | .ret _ none => ["return"]
  | .ret _ (some e) => "return" :: e.shape
/-- The trees of a list written one after the other. -/
def shape_list : List ast_expression → List String
  | [] => []
  | e :: es => e.shape ++ shape_list es
end

/-- The shape of the expression that `parser_expression` returned; `none`
when it returned NULL or did not return. -/
def returned_shape (r : Outcome (Option ast_expression × parser_t)) : Option (List String) :=
  match r with
  | .done (some e, _) => some e.shape
  | _ => none

/-- The parser state at the start of a statement in the body of a function
`h` that returns `ret`, with the float globals `a`, `b`, `c`, the string
global `s` and the float function `f1(float p)`. -/
def body_state (ret : qc_type) (input : List token) : parser_t :=
  (parser_next
    { clean_state input with
      globals :=
        [ ⟨"a", var_of "a" TYPE_FLOAT⟩, ⟨"b", var_of "b" TYPE_FLOAT⟩, ⟨"c", var_of "c" TYPE_FLOAT⟩,
          ⟨"s", var_of "s" TYPE_STRING⟩,
          ⟨"f1", fn_value "f1" TYPE_FLOAT [var_of "p" TYPE_FLOAT]⟩ ],
      functions := [ast_function_new pos0 "h" (fn_value "h" ret [])],
      function := some 0 }).2

/-- The result of `parser_parse_statement` in short: the C return value,
the shape of the node in `*out` (`none` when `*out` was not assigned, `some
[]` when it was set to NULL) and the error counter. -/
def statement_summary (r : Outcome stmt_result) : Option (Bool × Option (List String) × Nat) :=
  match r with
  | .done x =>
    some (x.ok,
      match x.out with
      | none => none
      | some none => some []
      | some (some e) => some e.shape,
      x.parser.errors)
  | _ => none

/-- The token stream of `float x; float y; void foo() { x = y + 1; }`. -/
def scenario_c_style : List token :=
  [tk_float, tk_ident "x", tk_ch ';', tk_float, tk_ident "y", tk_ch ';',
    tk_void, tk_ident "foo", tk_ch '(', tk_ch ')', tk_ch '{',
    tk_ident "x", tk_op "=", tk_ident "y", tk_op "+", tk_int "1" 1, tk_ch ';', tk_ch '}']

/-- The token stream of `float x; float y; void() foo = { x = y + 1; }`. -/
def scenario_qc_style : List token :=
  [tk_float, tk_ident "x", tk_ch ';', tk_float, tk_ident "y", tk_ch ';',
    tk_void, tk_ch '(', tk_ch ')', tk_ident "foo", tk_ch '=', tk_ch '{',
    tk_ident "x", tk_op "=", tk_ident "y", tk_op "+", tk_int "1" 1, tk_ch ';', tk_ch '}']

/-- The return type of a function-typed Value; void when it has none. -/
def return_type (v : ast_expression) : qc_type :=
  match v.next with
  | some r => r.vtype
  | none => TYPE_VOID

/-- The return value and the error counter of a call of `parser_compile`,
and the names and types of the globals it left; `none` when the call did not
return. -/
def globals_after (r : Outcome (Bool × parser_t)) :
    Option (Bool × Nat × List (String × qc_type)) :=
  match r with
  | .done (ok, p) => some (ok, p.errors, p.globals.map (fun e => (e.name, e.var.vtype)))
  | _ => none

/-- The payloads of the float, string and vector pools a call of
`parser_compile` left. -/
def pools_after (r : Outcome (Bool × parser_t)) :
    Option (List const_val × List const_val × List const_val) :=
  match r with
  | .done (_, p) =>
    some (p.imm_float.map (fun v => v.constval), p.imm_string.map (fun v => v.constval),
      p.imm_vector.map (fun v => v.constval))
  | _ => none

/-- The functions a call of `parser_compile` left: for each its name, return
type, parameter count and builtin index. -/
def functions_after (r : Outcome (Bool × parser_t)) :
    Option (List (String × qc_type × Nat × Int)) :=
  match r with
  | .done (_, p) =>
    some (p.functions.map (fun f => (f.name, return_type f.vtype, f.vtype.params.length,
      f.builtin)))
  | _ => none

/-- The bodies of the functions a call of `parser_compile` left: for each
function the shapes of the statements of each of its blocks. -/
def bodies_after (r : Outcome (Bool × parser_t)) : Option (List (List (List (List String)))) :=
  match r with
  | .done (_, p) => some (p.functions.map (fun f => f.blocks.map (fun b => b.exprs.map
      (fun e => e.shape))))
  | _ => none

/-- The token stream of `void(float a) f = { float a; }`: a local of the
name of a parameter, in the body of the function. -/
def parameter_redeclared : List token :=
  [tk_void, tk_ch '(', tk_float, tk_ident "a", tk_ch ')', tk_ident "f", tk_ch '=', tk_ch '{',
    tk_float, tk_ident "a", tk_ch ';', tk_ch '}']

/-- The token stream of `void(float a) f = { { float a; } }`: the same
local in a nested block. -/
def parameter_redeclared_nested : List token :=
  [tk_void, tk_ch '(', tk_float, tk_ident "a", tk_ch ')', tk_ident "f", tk_ch '=', tk_ch '{',
    tk_ch '{', tk_float, tk_ident "a", tk_ch ';', tk_ch '}', tk_ch '}']

/-- The name and type of the node a lookup returned; `none` when it found
nothing or did not return. -/
def found (r : Outcome (Option ast_expression)) : Option (String × qc_type) :=
  match r with
  | .done (some e) => some (e.name, e.vtype)
  | _ => none

/-! ## Code generation -/

/-- Modelled from the spec: the IR builder of ir.c and the code generators
of ast.c (absent), as far as `parser_finish` uses them.  The builder is a
state `σ`; `ir_builder_new` may fail; `ast_global_codegen`,
`ast_function_codegen` and `ir_function_finalize` take a node and the
builder and return their C result with the builder they leave;
`ir_builder_generate` returns its C result. -/
structure ir_model (σ : Type) where
  builder_new : Option σ
  global_codegen : ast_expression → σ → Bool × σ
  function_codegen : ast_function → σ → Bool × σ
  function_finalize : ast_function → σ → Bool × σ
  builder_generate : σ → Bool

/-- A call that `parser_finish` makes on the IR builder, with the node it
hands over. -/
inductive ir_call where
  | global_codegen (v : ast_expression)
  | function_codegen (f : ast_function)
  | function_finalize (f : ast_function)
  | builder_dump
  | builder_generate

/-- The macro `ast_istype(e, ast_value)`: whether a node is a Value. -/
def ast_expression.is_value (e : ast_expression) : Bool :=
  match e with
  | .value _ _ _ _ _ _ _ => true
  | _ => false

/-- One of the loops of `parser_finish` over Values: `ast_global_codegen` on
each in turn, up to the first that fails.  The result is whether all
succeeded, the builder, and the calls made. -/
def finish_globals {σ : Type} (m : ir_model σ) :
    List ast_expression → σ → Bool × σ × List ir_call
  | [], ir => (true, ir, [])
  | v :: vs, ir =>
    let r := m.global_codegen v ir
    if !r.1 then (false, r.2, [.global_codegen v])
    else
      let t := finish_globals m vs r.2
      (t.1, t.2.1, .global_codegen v :: t.2.2)

/-- The loop of `parser_finish` over the functions: `ast_function_codegen`
and then `ir_function_finalize` on each in turn, up to the first call that
fails. -/
def finish_functions {σ : Type} (m : ir_model σ) :
    List ast_function → σ → Bool × σ × List ir_call
  | [], ir => (true, ir, [])
  | f :: fs, ir =>
    let r := m.function_codegen f ir
    if !r.1 then (false, r.2, [.function_codegen f])
    else
      let r1 := m.function_finalize f r.2
      if !r1.1 then (false, r1.2, [.function_codegen f, .function_finalize f])
      else
        let t := finish_functions m fs r1.2
        (t.1, t.2.1, .function_codegen f :: .function_finalize f :: t.2.2)

/-- The globals that `parser_finish` generates code for: the entries of the
globals list that are Values, which leaves out the Member aliases of the
vectors. -/
def global_values (parser : parser_t) : List ast_expression :=
  (parser.globals.filter (fun e => e.var.is_value)).map (fun e => e.var)

/-- The C function `parser_finish`: its return value and the calls it made
on the IR builder, in order.  The name of the output file plays no part. -/
def parser_finish {σ : Type} (m : ir_model σ) (parser : parser_t) : Bool × List ir_call :=
  if parser.errors ≠ 0 then (false, [])
  else
    match m.builder_new with
    | none => (false, [])
    | some ir =>
      let r1 := finish_globals m parser.imm_float ir
      if !r1.1 then (false, r1.2.2)
      else
        let r2 := finish_globals m parser.imm_string r1.2.1
        if !r2.1 then (false, r1.2.2 ++ r2.2.2)
        else
          let r3 := finish_globals m parser.imm_vector r2.2.1
          if !r3.1 then (false, r1.2.2 ++ r2.2.2 ++ r3.2.2)
          else
            let r4 := finish_globals m (global_values parser) r3.2.1
            if !r4.1 then (false, r1.2.2 ++ r2.2.2 ++ r3.2.2 ++ r4.2.2)
            else
              let r5 := finish_functions m parser.functions r4.2.1
              if !r5.1 then (false, r1.2.2 ++ r2.2.2 ++ r3.2.2 ++ r4.2.2 ++ r5.2.2)
              else
                (m.builder_generate r5.2.1,
                  r1.2.2 ++ r2.2.2 ++ r3.2.2 ++ r4.2.2 ++ r5.2.2 ++
                    [.builder_dump, .builder_generate])

/-- The order of emission that the specification names: the float, the
string and the vector constants, each pool in its order, then the globals
and then the functions, each with its finalization, and at last the dump and
the output. -/
def emission_order (parser : parser_t) : List ir_call :=
  parser.imm_float.map .global_codegen ++ parser.imm_string.map .global_codegen ++
    parser.imm_vector.map .global_codegen ++ (global_values parser).map .global_codegen ++
    parser.functions.flatMap (fun f => [.function_codegen f, .function_finalize f]) ++
    [.builder_dump, .builder_generate]

/-- An IR builder without state on which every call succeeds. -/
def ir_accepting : ir_model Unit :=
  { builder_new := some (),
    global_codegen := fun _ s => (true, s),
    function_codegen := fun _ s => (true, s),
    function_finalize := fun _ s => (true, s),
    builder_generate := fun _ => true }

/-- The calls of `parser_finish`, on a builder that accepts every call,
for the parser that `parser_compile` left: the return value and for every
call the name of the node handed over. -/
def emitted (r : Outcome (Bool × parser_t)) : Option (Bool × List String) :=
  match r with
  | .done x =>
    some ((parser_finish ir_accepting x.2).1,
      (parser_finish ir_accepting x.2).2.map (fun c =>
        match c with
        | .global_codegen v => v.name
        | .function_codegen f => "codegen " ++ f.name
        | .function_finalize f => "finalize " ++ f.name
        | .builder_dump => "dump"
        | .builder_generate => "generate"))
  | _ => none

/-- What a block and a function body leave as they found it: the block
watermark and the active function. -/
def same_frame (p q : parser_t) : Prop :=
  q.blocklocal = p.blocklocal ∧ q.function = p.function

/-- The return value of `parser_compile`, and the block watermark and the
active function it left. -/
def frame_after (r : Outcome (Bool × parser_t)) : Option (Bool × Nat × Option Nat) :=
  match r with
  | .done x => some (x.1, x.2.blocklocal, x.2.function)
  | _ => none

/-- The parser state at the typename of the global declaration
`float(float a) g;`. -/
def prototype_state : parser_t :=
  (parser_next (clean_state [tk_float, tk_ch '(', tk_float, tk_ident "a", tk_ch ')',
    tk_ident "g", tk_ch ';'])).2

/-- The parser state at the name `g` of that declaration. -/
def prototype_ident_state : parser_t :=
  (parser_next (parser_next (parser_next (parser_next (parser_next prototype_state).2).2).2).2).2

/-- The locals list of a Block. -/
def ast_expression.locals (e : ast_expression) : List ast_expression :=
  match e with
  | .block _ _ ls _ => ls
  | _ => []

/-- Two calls end alike: both return, with results related by `R`, or both
are undefined, or both run out of budget. -/
def Outcome.rel {α β : Type} (R : α → β → Prop) (x : Outcome α) (y : Outcome β) : Prop :=
  match x, y with
  | .done a, .done b => R a b
  | .undefined, .undefined => True
  | .timeout, .timeout => True
  | _, _ => False

/-- The variables a statement declared, when it was given an empty Block. -/
def stmt_result.declared (r : stmt_result) : List ast_expression :=
  match r.block with
  | some b => b.locals
  | none => []

/-- The non-null node a statement stored in `*out`, if any. -/
def stmt_result.node (r : stmt_result) : Option ast_expression :=
  match r.out with
  | some (some e) => some e
  | _ => none

/-- The statements between `{` and the matching `}` taken one by one, as
the claim about `parser_parse_block` words it: from the token after `{`,
while the current token is no `}` (nor the end of input or an error), one
statement is parsed by `parser_parse_statement`, each time into an empty Block
of its own; the results are listed in source order, up to the first
statement that fails. -/
def statements_in_order : Nat → parser_t → Outcome (List stmt_result)
  | 0, _ => .timeout
  | fuel + 1, parser =>
    if parser.tok ≠ TOKEN_EOF ∧ !parser.tok.is_error ∧ parser.tok ≠ ch '}' then
      (parse_statement fuel parser (some (ast_block_new (parser_ctx parser)))).bind fun r =>
        if !r.ok then .done [r]
        else (statements_in_order fuel r.parser).bind fun rest => .done (r :: rest)
    else .done []

/-- The Block of a parsed body in short: the names of its locals and the
shapes of its statements. -/
def block_summary (r : Outcome (Option ast_expression × parser_t)) :
    Option (List String × List (List String)) :=
  match r with
  | .done (some b, _) => some (b.locals.map (fun v => v.name), b.exprs.map (fun e => e.shape))
  | _ => none

/-- The statements of `statements_in_order` in short: for each its return
value, the names of the variables it declared and the shape of its node. -/
def trace_summary (r : Outcome (List stmt_result)) :
    Option (List (Bool × List String × List String)) :=
  match r with
  | .done rs => some (rs.map (fun x => (x.ok, x.declared.map (fun v => v.name),
      match x.node with
      | some e => e.shape
      | none => [])))
  | _ => none

/-- The blocks that two runs of a declaration or statement return when one
was entered with a Block whose locals are `ls ++ l0` and whose statements are
`xs`, the other with a Block whose locals are `l0`: for some list `vs` the
first is the entered Block with the locals `ls ++ vs`, the second has the
locals `vs`. -/
def grafted (c : lex_ctx) (t : qc_type) (ls xs : List ast_expression) (c2 : lex_ctx)
    (t2 : qc_type) (xs2 : List ast_expression) (a b : Option ast_expression) : Prop :=
  ∃ vs, a = some (.block c t (ls ++ vs) xs) ∧ b = some (.block c2 t2 vs xs2)

/-- The token stream of the body
`{ float x; x = a; vector v; { float y; y = b; } return a; }`. -/
def body_with_locals : List token :=
  [tk_ch '{', tk_float, tk_ident "x", tk_ch ';', tk_ident "x", tk_op "=", tk_ident "a", tk_ch ';',
    tk_vector, tk_ident "v", tk_ch ';',
    tk_ch '{', tk_float, tk_ident "y", tk_ch ';', tk_ident "y", tk_op "=", tk_ident "b", tk_ch ';',
    tk_ch '}', tk_keyword "return", tk_ident "a", tk_ch ';', tk_ch '}']

/-- The state in which `parser_parse_block` enters its statement loop: the
watermark set to the top of the locals, the `{` skipped. -/
def block_entry (p : parser_t) : parser_t :=
  (parser_next { p with blocklocal := p.locals.length }).2

/-- A parameter as it is written in a parameter list: the type token, the
name token if there is one, and the token that follows the parameter (a comma
or the closing paren). -/
structure param_decl where
  typ : token
  name : Option token
  sep : token

/-- The tokens of a written parameter. -/
def param_decl.tokens (d : param_decl) : List token :=
  d.typ :: (d.name.toList ++ [d.sep])

/-- The Value a written parameter stands for: of the type code of its type
token and of its name, `<unnamed>` without one. -/
def param_decl.value (d : param_decl) : ast_expression :=
  match d.name with
  | some n => .value n.ctx n.value d.typ.constval_t none [] false .none
  | none => .value d.sep.ctx "<unnamed>" d.typ.constval_t none [] false .none

/-- A list of written parameters is well formed: every type token is a
typename, every name token an identifier, a comma follows every parameter but
the last and a closing paren follows the last. -/
def well_formed_params : List param_decl → Bool
  | [] => false
  | [d] =>
    d.typ.ttype == TOKEN_TYPENAME && d.name.all (fun n => n.ttype == TOKEN_IDENT) &&
      d.sep.ttype == ch ')'
  | d :: ds =>
    d.typ.ttype == TOKEN_TYPENAME && d.name.all (fun n => n.ttype == TOKEN_IDENT) &&
      d.sep.ttype == ch ',' && well_formed_params ds

/-- The lexer hands the token out without reporting the end of the input or
an error. -/
def token.readable (t : token) : Bool :=
  !(t.ttype == TOKEN_EOF || t.ttype.is_error)

/-- The parser state once the lexer has handed out `t` and is left with
`rest`. -/
def advance (p : parser_t) (t : token) (rest : List token) : parser_t :=
  { p with lex := { p.lex with input := rest, tok := t }, tok := t.ttype }

/-- The result of `parser_parse_type` in short, when it returned a Value:
the flag `isfunc`, the type of the Value and the spelling of the current
token. -/
def type_summary (r : Outcome (Option ast_expression × Bool × parser_t)) :
    Option (Bool × qc_type × String) :=
  match r with
  | .done (some e, isfunc, q) => some (isfunc, e.vtype, parser_tokval q)
  | _ => none

/-- The parameters of the Value that `parser_parse_type` returned, each by
type, name and number of its own parameters. -/
def params_summary (r : Outcome (Option ast_expression × Bool × parser_t)) :
    Option (List (qc_type × String × Nat)) :=
  match r with
  | .done (some e, _, _) => some (e.params.map (fun x => (x.vtype, x.name, x.params.length)))
  | _ => none

/-- The parser state at the `(` of `( float a , vector , string s ) g ;`. -/
def param_list_state : parser_t :=
  (parser_next (clean_state [tk_ch '(', tk_float, tk_ident "a", tk_ch ',', tk_vector, tk_ch ',',
    tk_string, tk_ident "s", tk_ch ')', tk_ident "g", tk_ch ';'])).2

/-! ## util.c: CRC-16 -/

/-- The array `util_crc16_table` of util.c. -/
def util_crc16_table : List Nat :=
  [
    0x0000, 0x1021, 0x2042, 0x3063, 0x4084, 0x50A5, 0x60C6, 0x70E7,
    0x8108, 0x9129, 0xA14A, 0xB16B, 0xC18C, 0xD1AD, 0xE1CE, 0xF1EF,
    0x1231, 0x0210, 0x3273, 0x2252, 0x52B5, 0x4294, 0x72F7, 0x62D6,
    0x9339, 0x8318, 0xB37B, 0xA35A, 0xD3BD, 0xC39C, 0xF3FF, 0xE3DE,
    0x2462, 0x3443, 0x0420, 0x1401, 0x64E6, 0x74C7, 0x44A4, 0x5485,
    0xA56A, 0xB54B, 0x8528, 0x9509, 0xE5EE, 0xF5CF, 0xC5AC, 0xD58D,
    0x3653, 0x2672, 0x1611, 0x0630, 0x76D7, 0x66F6, 0x5695, 0x46B4,
    0xB75B, 0xA77A, 0x9719, 0x8738, 0xF7DF, 0xE7FE, 0xD79D, 0xC7BC,
    0x48C4, 0x58E5, 0x6886, 0x78A7, 0x0840, 0x1861, 0x2802, 0x3823,
    0xC9CC, 0xD9ED, 0xE98E, 0xF9AF, 0x8948, 0x9969, 0xA90A, 0xB92B,
    0x5AF5, 0x4AD4, 0x7AB7, 0x6A96, 0x1A71, 0x0A50, 0x3A33, 0x2A12,
    0xDBFD, 0xCBDC, 0xFBBF, 0xEB9E, 0x9B79, 0x8B58, 0xBB3B, 0xAB1A,
    0x6CA6, 0x7C87, 0x4CE4, 0x5CC5, 0x2C22, 0x3C03, 0x0C60, 0x1C41,
    0xEDAE, 0xFD8F, 0xCDEC, 0xDDCD, 0xAD2A, 0xBD0B, 0x8D68, 0x9D49,
    0x7E97, 0x6EB6, 0x5ED5, 0x4EF4, 0x3E13, 0x2E32, 0x1E51, 0x0E70,
    0xFF9F, 0xEFBE, 0xDFDD, 0xCFFC, 0xBF1B, 0xAF3A, 0x9F59, 0x8F78,
    0x9188, 0x81A9, 0xB1CA, 0xA1EB, 0xD10C, 0xC12D, 0xF14E, 0xE16F,
    0x1080, 0x00A1, 0x30C2, 0x20E3, 0x5004, 0x4025, 0x7046, 0x6067,
    0x83B9, 0x9398, 0xA3FB, 0xB3DA, 0xC33D, 0xD31C, 0xE37F, 0xF35E,
    0x02B1, 0x1290, 0x22F3, 0x32D2, 0x4235, 0x5214, 0x6277, 0x7256,
    0xB5EA, 0xA5CB, 0x95A8, 0x8589, 0xF56E, 0xE54F, 0xD52C, 0xC50D,
    0x34E2, 0x24C3, 0x14A0, 0x0481, 0x7466, 0x6447, 0x5424, 0x4405,
    0xA7DB, 0xB7FA, 0x8799, 0x97B8, 0xE75F, 0xF77E, 0xC71D, 0xD73C,
    0x26D3, 0x36F2, 0x0691, 0x16B0, 0x6657, 0x7676, 0x4615, 0x5634,
    0xD94C, 0xC96D, 0xF90E, 0xE92F, 0x99C8, 0x89E9, 0xB98A, 0xA9AB,
    0x5844, 0x4865, 0x7806, 0x6827, 0x18C0, 0x08E1, 0x3882, 0x28A3,
    0xCB7D, 0xDB5C, 0xEB3F, 0xFB1E, 0x8BF9, 0x9BD8, 0xABBB, 0xBB9A,
    0x4A75, 0x5A54, 0x6A37, 0x7A16, 0x0AF1, 0x1AD0, 0x2AB3, 0x3A92,
    0xFD2E, 0xED0F, 0xDD6C, 0xCD4D, 0xBDAA, 0xAD8B, 0x9DE8, 0x8DC9,
    0x7C26, 0x6C07, 0x5C64, 0x4C45, 0x3CA2, 0x2C83, 0x1CE0, 0x0CC1,
    0xEF1F, 0xFF3E, 0xCF5D, 0xDF7C, 0xAF9B, 0xBFBA, 0x8FD9, 0x9FF8,
    0x6E17, 0x7E36, 0x4E55, 0x5E74, 0x2E93, 0x3EB2, 0x0ED1, 0x1EF0 ]

/-- The C function `util_crc16` on the `len` bytes `k`: `h` is a `uint16_t`,
a byte is read as `unsigned char`, the index `(h >> 8) ^ byte` is below 256
and the assignment to `h` truncates to 16 bits. -/
def util_crc16 (current : Nat) (k : List Nat) : Nat :=
  k.foldl (fun h c =>
    (util_crc16_table.getD ((h >>> 8) ^^^ (c % 256)) 0 ^^^ (h <<< 8)) % 65536) (current % 65536)

/-- One step of the bitwise CRC as the claim words it: shift the 16-bit
register left by one and XOR the polynomial 0x1021 in when the bit shifted
out was 1. -/
def crc16_shift (r : Nat) : Nat :=
  if r.testBit 15 then ((r <<< 1) % 65536) ^^^ 0x1021 else (r <<< 1) % 65536

/-- Eight steps of the bitwise CRC. -/
def crc16_shift8 (r : Nat) : Nat :=
  crc16_shift (crc16_shift (crc16_shift (crc16_shift (crc16_shift (crc16_shift
    (crc16_shift (crc16_shift r)))))))

/-- The bitwise reference CRC-16/CCITT as the claim words it: from the
register value `current`, for each byte in order, XOR the byte into the high
8 bits of the register and shift eight times; no reflection, no final XOR. -/
def crc16_bitwise (current : Nat) (k : List Nat) : Nat :=
  k.foldl (fun r c => crc16_shift8 (r ^^^ ((c % 256) <<< 8))) (current % 65536)

/-! ## util.c: Mersenne twister -/

/-- The macro `MT_SIZE`. -/
def MT_SIZE : Nat := 624

/-- The macro `MT_PERIOD`. -/
def MT_PERIOD : Nat := 397

/-- The macro `MT_SPACE`. -/
def MT_SPACE : Nat := MT_SIZE - MT_PERIOD

/-- The array `matrix` of `mt_generate`. -/
def mt_matrix : List Nat := [0x00000000, 0x9908B0DF]

/-- A read of `mt_state[i]`: the array has `MT_SIZE` elements, a read at or
beyond `MT_SIZE` is undefined. -/
def mt_read (s : List Nat) (i : Nat) : Outcome Nat :=
  if i < MT_SIZE then .done (s.getD i 0) else .undefined

/-- An assignment to `mt_state[i]`. -/
def mt_write (s : List Nat) (i v : Nat) : Outcome (List Nat) :=
  if i < MT_SIZE then .done (s.set i v) else .undefined

/-- The two statements that the first loop of `mt_generate` repeats, at
index `i`: the mask of the low bits is `0x7FFFFFF` and the partner is
`mt_state[i + MT_PERIOD]`. -/
def mt_first_body (s : List Nat) (i : Nat) : Outcome (List Nat) :=
  (mt_read s i).bind fun a =>
    (mt_read s (i + 1)).bind fun b =>
      let y := (0x80000000 &&& a) ||| (0x7FFFFFF &&& b)
      (mt_read s (i + MT_PERIOD)).bind fun c =>
        mt_write s i (c ^^^ (y >>> 1) ^^^ mt_matrix.getD (y &&& 1) 0)

/-- The first loop of `mt_generate`,
`for (i = 0; i < MT_SPACE; ++i) { ...; i++; ...; }`, from the index `i`. -/
def mt_first_loop : Nat → Nat → List Nat → Outcome (List Nat)
  | 0, _, _ => .timeout
  | fuel + 1, i, s =>
    if i < MT_SPACE then
      (mt_first_body s i).bind fun s1 =>
        (mt_first_body s1 (i + 1)).bind fun s2 => mt_first_loop fuel (i + 1 + 1) s2
    else .done s

/-- The two statements that the second loop of `mt_generate` repeats, at
index `i`: the mask of the low bits is `0x7FFFFFFF` and the partner is
`mt_state[i - MT_SPACE]`. -/
def mt_second_body (s : List Nat) (i : Nat) : Outcome (List Nat) :=
  (mt_read s i).bind fun a =>
    (mt_read s (i + 1)).bind fun b =>
      let y := (0x80000000 &&& a) ||| (0x7FFFFFFF &&& b)
      (mt_read s (i - MT_SPACE)).bind fun c =>
        mt_write s i (c ^^^ (y >>> 1) ^^^ mt_matrix.getD (y &&& 1) 0)

/-- The body of the second loop written out `n` times, each followed by
`++i`. -/
def mt_second_unrolled : Nat → Nat → List Nat → Outcome (List Nat)
  | 0, _, s => .done s
  | n + 1, i, s => (mt_second_body s i).bind fun s1 => mt_second_unrolled n (i + 1) s1

/-- The second loop of `mt_generate`, `while (i < MT_SIZE - 1)` around the
body written out 11 times. -/
def mt_second_loop : Nat → Nat → List Nat → Outcome (List Nat)
  | 0, _, _ => .timeout
  | fuel + 1, i, s =>
    if i < MT_SIZE - 1 then
      (mt_second_unrolled 11 i s).bind fun s1 => mt_second_loop fuel (i + 11) s1
    else .done s

/-- The last two statements of `mt_generate`: both halves of `y` are taken
from `mt_state[MT_SIZE - 1]`. -/
def mt_last (s : List Nat) : Outcome (List Nat) :=
  (mt_read s (MT_SIZE - 1)).bind fun a =>
    (mt_read s (MT_SIZE - 1)).bind fun b =>
      let y := (0x80000000 &&& a) ||| (0x7FFFFFFF &&& b)
      (mt_read s (MT_PERIOD - 1)).bind fun c =>
        mt_write s (MT_SIZE - 1) (c ^^^ (y >>> 1) ^^^ mt_matrix.getD (y &&& 1) 0)

/-- The C function `mt_generate` on the state `mt_state`. -/
def mt_generate (s : List Nat) : Outcome (List Nat) :=
  (mt_first_loop MT_SIZE 0 s).bind fun s1 =>
    (mt_second_loop MT_SIZE MT_SPACE s1).bind fun s2 => mt_last s2

/-- One round of the reference loop quoted in the comment of `mt_generate`,
as the claim words it. -/
def mt_reference_step (s : List Nat) (i : Nat) : List Nat :=
  let load := (0x80000000 &&& s.getD i 0) ||| (0x7FFFFFFF &&& s.getD ((i + 1) % 624) 0)
  let v := s.getD ((i + 397) % 624) 0 ^^^ (load >>> 1)
  s.set i (if load % 2 = 1 then v ^^^ 0x9908B0DF else v)

/-- The reference loop quoted in the comment of `mt_generate`: the rounds
for `i` in `[0, 624)` in order. -/
def mt_reference (s : List Nat) : List Nat :=
  (List.range 624).foldl mt_reference_step s

/-- The word at index `i` of the state a call left; `none` when the call did
not return. -/
def word_after (r : Outcome (List Nat)) (i : Nat) : Option Nat :=
  match r with
  | .done s => some (s.getD i 0)
  | _ => none

/-- The state of 624 zero words with the word `v` at index `i`. -/
def mt_zero_but (i v : Nat) : List Nat :=
  (List.replicate 624 0).set i v

/-! ## util.c: hash table -/

/-- The C function `strcmp` on two strings given by their bytes before the
terminating NUL: negative, zero or positive as the first differing byte
(the NUL included) says. -/
def strcmp : List Nat → List Nat → Int
  | [], [] => 0
  | [], _ :: _ => -1
  | _ :: _, [] => 1
  | a :: as, b :: bs => if a < b then -1 else if b < a then 1 else strcmp as bs

/-- The struct `hash_node_t` without its `next` pointer: a chain is the list
of its nodes.  A pointer `value` is a number, NULL is 0. -/
structure hash_node_t where
  key : List Nat
  value : Nat
deriving DecidableEq

/-- Modelled from the spec: the struct `hash_table_t` of `gmqcc.h` (absent):
the number of bins and the chain of every bin. -/
structure hash_table_t where
  size : Nat
  table : List (List hash_node_t)
deriving DecidableEq

/-- The `while (size >= 4)` loop of `util_hthash` on the bytes left and the
value of `hash`; the result is `hash` with the bytes left over.  All
arithmetic is on `uint32_t`; the shift `data[3] << 24` is taken as the 32-bit
pattern that the conversion to `uint32_t` gives. -/
def hthash_loop : List Nat → Nat → Nat × List Nat
  | d0 :: d1 :: d2 :: d3 :: rest, hash =>
    let alias0 := ((d0 % 256) ||| ((d1 % 256) <<< 8) ||| ((d2 % 256) <<< 16) |||
      ((d3 % 256) <<< 24)) % 2 ^ 32
    let alias1 := (alias0 * 0x5BD1E995) % 2 ^ 32
    let alias2 := alias1 ^^^ (alias1 >>> 24)
    let alias3 := (alias2 * 0x5BD1E995) % 2 ^ 32
    let hash1 := (hash * 0x5BD1E995) % 2 ^ 32
    hthash_loop rest (hash1 ^^^ alias3)
  | data, hash => (hash, data)

/-- The `switch (size)` of `util_hthash` with its fall-through cases. -/
def hthash_tail (data : List Nat) (hash : Nat) : Nat :=
  match data with
  | [d0, d1, d2] =>
    ((hash ^^^ ((d2 % 256) <<< 16) ^^^ ((d1 % 256) <<< 8) ^^^ (d0 % 256)) * 0x5BD1E995) % 2 ^ 32
  | [d0, d1] => ((hash ^^^ ((d1 % 256) <<< 8) ^^^ (d0 % 256)) * 0x5BD1E995) % 2 ^ 32
  | [d0] => ((hash ^^^ (d0 % 256)) * 0x5BD1E995) % 2 ^ 32
  | _ => hash

/-- The C function `util_hthash`: the bin of `key` in `ht`. -/
def util_hthash (ht : hash_table_t) (key : List Nat) : Nat :=
  let hash0 := (0x1EF0 ^^^ key.length) % 2 ^ 32
  let r := hthash_loop key hash0
  let hash1 := hthash_tail r.2 r.1
  let hash2 := hash1 ^^^ (hash1 >>> 13)
  let hash3 := (hash2 * 0x5BD1E995) % 2 ^ 32
  let hash4 := hash3 ^^^ (hash3 >>> 15)
  hash4 % ht.size

/-- The C function `_util_htnewpair`; the allocations are taken to succeed,
and the key is copied by `_util_Estrdup_empty`, which copies every string. -/
def _util_htnewpair (key : List Nat) (value : Nat) : hash_node_t :=
  ⟨key, value⟩

/-- The C function `util_htnew`; NULL for a size below 1.  The allocations
are taken to succeed, the usage statistics are not modelled. -/
def util_htnew (size : Nat) : Option hash_table_t :=
  if size < 1 then none else some ⟨size, List.replicate size []⟩

/-- The chain that `util_htseth` leaves in the bin: `skipped` are the nodes
that the `while` loop passes, `next` the rest of the chain; the node at
`next` is overwritten when it has the key, else a new node is linked in
before `next` (at the head of the chain, at its end, or in between). -/
def htseth_chain (key : List Nat) (value : Nat) (chain : List hash_node_t) :
    List hash_node_t :=
  let skipped := chain.takeWhile (fun n => decide (strcmp key n.key > 0))
  let next := chain.dropWhile (fun n => decide (strcmp key n.key > 0))
  match next with
  | n :: tl =>
    if strcmp key n.key = 0 then skipped ++ { n with value := value } :: tl
    else if skipped.isEmpty then _util_htnewpair key value :: next
    else skipped ++ _util_htnewpair key value :: next
  | [] =>
    if skipped.isEmpty then [_util_htnewpair key value]
    else skipped ++ [_util_htnewpair key value]

/-- The C function `util_htseth`. -/
def util_htseth (ht : hash_table_t) (key : List Nat) (bin : Nat) (value : Nat) :
    hash_table_t :=
  { ht with table := ht.table.set bin (htseth_chain key value (ht.table.getD bin [])) }

/-- The C function `util_htset`. -/
def util_htset (ht : hash_table_t) (key : List Nat) (value : Nat) : hash_table_t :=
  util_htseth ht key (util_hthash ht key) value

/-- The search of `util_htgeth` in the chain of the bin; 0 is NULL. -/
def htgeth_chain (key : List Nat) (chain : List hash_node_t) : Nat :=
  match chain.dropWhile (fun n => decide (strcmp key n.key > 0)) with
  | [] => 0
  | pair :: _ => if strcmp key pair.key ≠ 0 then 0 else pair.value

/-- The C function `util_htgeth`. -/
def util_htgeth (ht : hash_table_t) (key : List Nat) (bin : Nat) : Nat :=
  htgeth_chain key (ht.table.getD bin [])

/-- The C function `util_htget`. -/
def util_htget (ht : hash_table_t) (key : List Nat) : Nat :=
  util_htgeth ht key (util_hthash ht key)

/-- The chain that `util_htrmh` leaves in the bin: the chain as it is when
no node has the key, else the chain without that node.  The callback on the
removed value is not modelled. -/
def htrmh_chain (key : List Nat) (chain : List hash_node_t) : List hash_node_t :=
  let skipped := chain.takeWhile (fun n => decide (strcmp key n.key > 0))
  match chain.dropWhile (fun n => decide (strcmp key n.key > 0)) with
  | [] => chain
  | tmp :: tl => if strcmp key tmp.key ≠ 0 then chain else skipped ++ tl

/-- The C function `util_htrmh`. -/
def util_htrmh (ht : hash_table_t) (key : List Nat) (bin : Nat) : hash_table_t :=
  { ht with table := ht.table.set bin (htrmh_chain key (ht.table.getD bin [])) }

/-- The C function `util_htrm`. -/
def util_htrm (ht : hash_table_t) (key : List Nat) : hash_table_t :=
  util_htrmh ht key (util_hthash ht key)

/-- The value that a chain holds for a key, wherever the node is; 0 when
no node has the key. -/
def chain_lookup (key : List Nat) : List hash_node_t → Nat
  | [] => 0
  | n :: rest => if n.key = key then n.value else chain_lookup key rest

/-- A chain is strictly sorted by key. -/
def chain_sorted (c : List hash_node_t) : Prop :=
  c.Pairwise (fun a b => strcmp b.key a.key > 0)

/-- A call on the table: `util_htset(ht, key, value)` or
`util_htrm(ht, key, cb)`. -/
inductive ht_call where
  | set (key : List Nat) (value : Nat)
  | rm (key : List Nat)
deriving DecidableEq

/-- The key of a call. -/
def ht_call.key (c : ht_call) : List Nat :=
  match c with
  | .set k _ => k
  | .rm k => k

/-- The table after a call. -/
def ht_apply (ht : hash_table_t) (c : ht_call) : hash_table_t :=
  match c with
  | .set k v => util_htset ht k v
  | .rm k => util_htrm ht k

/-- The table after a sequence of calls, made in order. -/
def ht_run (ht : hash_table_t) (calls : List ht_call) : hash_table_t :=
  calls.foldl ht_apply ht

/-- The finite map of the claim: the value of the most recent
`util_htset(ht, key, v)` among `calls` that no `util_htrm(ht, key)` followed,
and NULL when there is none. -/
def latest_value (calls : List ht_call) (key : List Nat) : Nat :=
  match calls.reverse.find? (fun c => decide (c.key = key)) with
  | some (.set _ v) => v
  | _ => 0

/-- The chains of the table are strictly sorted by key. -/
def chains_sorted (ht : hash_table_t) : Prop :=
  ∀ c ∈ ht.table, chain_sorted c

/-- What the calls keep of a table: one chain per bin, at least one bin,
every chain sorted. -/
def ht_inv (ht : hash_table_t) : Prop :=
  ht.table.length = ht.size ∧ 0 < ht.size ∧ chains_sorted ht

/-- The keys of the bins of a table, bin by bin. -/
def ht_keys (ht : hash_table_t) : List (List (List Nat)) :=
  ht.table.map (fun c => c.map (fun n => n.key))

/-! # Properties of the parser -/

/-! ## Reductions of the shunting yard -/

/-- Every entry of the operator table takes two operands. -/
theorem operator_at_operands (e : Nat) (op : oper_info) (h : operator_at e = .done op) :
    op.operands = 2 := by
  unfold operator_at at h
  split at h
  · cases h
  · rcases e with _ | _ | _ | _ | _ | _ | _ | e <;>
      simp [operators] at h <;> (try cases h) <;> rfl

/-- With an operator on top of the operator stack and two operands on top of
the operand stack, `parser_sy_pop` takes all three off and goes into its
switch, unless the left operand is an empty Block. -/
theorem sy_pop_two (parser : parser_t) (outs ops : List sy_elem) (top a0 a1 : sy_elem)
    (op : oper_info) (hp : top.paren = 0) (hop : operator_at top.etype = .done op) :
    parser_sy_pop parser { out := outs ++ [a0, a1], ops := ops ++ [top] } =
      if block_is_empty a0.block ∧ op.id ≠ opid1 ',' then
        .done (false, parseerror parser, { out := outs, ops := ops })
      else sy_pop_switch parser { out := outs, ops := ops } top op a0 [a0, a1] := by
  have h2 := operator_at_operands _ _ hop
  unfold parser_sy_pop
  simp [hp, hop, h2, Outcome.bind]

/-- For `+`, `-` and `/` the typed reduction yields a node exactly for the
rows of the operator table. -/
theorem sy_apply_arith (ctx : lex_ctx) (c : Char) (e0 e1 : ast_expression)
    (hc : c = '+' ∨ c = '-' ∨ c = '/') :
    (sy_apply ctx (opid1 c) e0 e1).isSome = table_row c e0.vtype e1.vtype := by
  rcases hc with rfl | rfl | rfl <;>
    (unfold sy_apply; cases h0 : e0.vtype <;> cases h1 : e1.vtype <;> rfl)

/-- C1 (amended): when `parser_sy_pop` reduces `+`, `-` or `/` over a left
operand of type `tl` and a right operand of type `tr`, it succeeds only if
the triple is a row of the operator table, and for a triple that is no row it
fails with an error, the operator and both operands taken off and no node
pushed.  The operator `=` is not type-checked: over any two operand types it
is reduced to a Store whose opcode the left type selects. -/
theorem sy_pop_typed_rows (parser : parser_t) (outs ops : List sy_elem) (top a0 a1 : sy_elem)
    (op : oper_info) (e0 e1 : ast_expression) (c : Char)
    (hp : top.paren = 0) (hop : operator_at top.etype = .done op) (hid : op.id = opid1 c)
    (h0 : a0.out = some e0) (h1 : a1.out = some e1) :
    (c = '+' ∨ c = '-' ∨ c = '/' →
      (reduced (parser_sy_pop parser { out := outs ++ [a0, a1], ops := ops ++ [top] }) = true →
        table_row c e0.vtype e1.vtype = true) ∧
      (table_row c e0.vtype e1.vtype = false →
        parser_sy_pop parser { out := outs ++ [a0, a1], ops := ops ++ [top] } =
          .done (false, parseerror parser, { out := outs, ops := ops }))) ∧
    (c = '=' → block_is_empty a0.block = false →
      parser_sy_pop parser { out := outs ++ [a0, a1], ops := ops ++ [top] } =
        .done (true, parser,
          { out := outs ++ [syexp top.ctx
              (.store top.ctx e0.vtype (type_store_instr e0.vtype) e0 e1)],
            ops := ops })) := by
  rw [sy_pop_two parser outs ops top a0 a1 op hp hop]
  refine ⟨?_, ?_⟩
  · intro hc
    have hs := sy_apply_arith top.ctx c e0 e1 hc
    have hne : opid1 c ≠ opid1 ',' := by rcases hc with rfl | rfl | rfl <;> decide
    have hin : opid1 c = opid1 ',' ∨ opid1 c = opid1 '+' ∨ opid1 c = opid1 '-' ∨
        opid1 c = opid1 '*' ∨ opid1 c = opid1 '/' ∨ opid1 c = opid1 '=' := by
      rcases hc with rfl | rfl | rfl <;> decide
    cases hb : block_is_empty a0.block
    · cases ha : sy_apply top.ctx (opid1 c) e0 e1 <;>
        simp [sy_pop_switch, hid, hne, hin, h0, h1, ha, reduced, ← hs]
    · simp [hid, hne, reduced]
  · rintro rfl hb
    have hne : opid1 '=' ≠ opid1 ',' := by decide
    have hin : opid1 '=' = opid1 ',' ∨ opid1 '=' = opid1 '+' ∨ opid1 '=' = opid1 '-' ∨
        opid1 '=' = opid1 '*' ∨ opid1 '=' = opid1 '/' ∨ opid1 '=' = opid1 '=' := by decide
    have ha : sy_apply top.ctx (opid1 '=') e0 e1 =
        some (.store top.ctx e0.vtype (type_store_instr e0.vtype) e0 e1) := by
      unfold sy_apply
      rfl
    simp [sy_pop_switch, hid, hne, hin, h0, h1, ha, hb]

/-- C1, at a concrete input: the amended statement applied to `x + s`
with `x` a float and `s` a string, which is no row and is rejected. -/
theorem sy_pop_typed_rows_witness :
    (syop pos0 2).paren = 0 ∧ operator_at (syop pos0 2).etype = .done
        { op := "+", operands := 2, id := opid1 '+', assoc := ASSOC_LEFT, prec := 12, flags := 0 } ∧
      parser_sy_pop (clean_state [])
          { out := [] ++ [syexp pos0 (var_of "x" TYPE_FLOAT), syexp pos0 (var_of "s" TYPE_STRING)],
            ops := [] ++ [syop pos0 2] } =
        .done (false, parseerror (clean_state []), { out := [], ops := [] }) :=
  ⟨rfl, rfl,
    ((sy_pop_typed_rows (clean_state []) [] [] (syop pos0 2)
      (syexp pos0 (var_of "x" TYPE_FLOAT)) (syexp pos0 (var_of "s" TYPE_STRING)) _
      (var_of "x" TYPE_FLOAT) (var_of "s" TYPE_STRING) '+' rfl rfl rfl rfl rfl).1
        (Or.inl rfl)).2 (by decide)⟩

/-- C1, counterexample: `parser_sy_pop` reduces `x = s` and `x * s` for a
float `x` and a string `s` without an error, and neither `(=, float, string)`
nor `(*, float, string)` is a row of the operator table. -/
theorem sy_pop_reduces_outside_table :
    reduced (parser_sy_pop (clean_state [])
        { out := [syexp pos0 (var_of "x" TYPE_FLOAT), syexp pos0 (var_of "s" TYPE_STRING)],
          ops := [syop pos0 4] }) = true ∧
      table_row '=' TYPE_FLOAT TYPE_STRING = false ∧
      reduced (parser_sy_pop (clean_state [])
        { out := [syexp pos0 (var_of "x" TYPE_FLOAT), syexp pos0 (var_of "s" TYPE_STRING)],
          ops := [syop pos0 0] }) = true ∧
      table_row '*' TYPE_FLOAT TYPE_STRING = false := by
  decide!

/-- C2: for every row of the operator table, `parser_sy_pop` over an operator
of that row and two topmost operands `e0`, `e1` of the row's types succeeds,
takes the operator and both operands off the stacks and pushes exactly one
operand: the Binary with the row's opcode, left `e0` and right `e1`; for `=`
over two operands of one type it pushes the Store with destination `e0`,
source `e1` and the store opcode selected by the type of `e0`. -/
theorem sy_pop_table_row (parser : parser_t) (outs ops : List sy_elem) (top a0 a1 : sy_elem)
    (op : oper_info) (e0 e1 : ast_expression) (c : Char) (opc : instr)
    (hp : top.paren = 0) (hop : operator_at top.etype = .done op) (hid : op.id = opid1 c)
    (h0 : a0.out = some e0) (h1 : a1.out = some e1) (hb : block_is_empty a0.block = false) :
    ((c, e0.vtype, e1.vtype, opc) ∈ operator_table →
      parser_sy_pop parser { out := outs ++ [a0, a1], ops := ops ++ [top] } =
        .done (true, parser,
          { out := outs ++ [syexp top.ctx (.binary top.ctx (binary_type opc e0) opc e0 e1)],
            ops := ops })) ∧
    (c = '=' → e0.vtype = e1.vtype →
      parser_sy_pop parser { out := outs ++ [a0, a1], ops := ops ++ [top] } =
        .done (true, parser,
          { out := outs ++ [syexp top.ctx
              (.store top.ctx e0.vtype (type_store_instr e0.vtype) e0 e1)],
            ops := ops })) := by
  rw [sy_pop_two parser outs ops top a0 a1 op hp hop]
  refine ⟨?_, ?_⟩
  · intro hrow
    have hc : c = '+' ∨ c = '-' ∨ c = '*' ∨ c = '/' := by
      simp [operator_table] at hrow
      rcases hrow with h | h | h | h | h | h | h | h | h <;> simp [h.1]
    have hne : opid1 c ≠ opid1 ',' := by rcases hc with rfl | rfl | rfl | rfl <;> decide
    have hin : opid1 c = opid1 ',' ∨ opid1 c = opid1 '+' ∨ opid1 c = opid1 '-' ∨
        opid1 c = opid1 '*' ∨ opid1 c = opid1 '/' ∨ opid1 c = opid1 '=' := by
      rcases hc with rfl | rfl | rfl | rfl <;> decide
    have ha : sy_apply top.ctx (opid1 c) e0 e1 =
        some (.binary top.ctx (binary_type opc e0) opc e0 e1) := by
      simp [operator_table] at hrow
      rcases hrow with h | h | h | h | h | h | h | h | h <;>
        (obtain ⟨rfl, ht0, ht1, rfl⟩ := h
         unfold sy_apply
         rw [ht0, ht1]
         rfl)
    simp [sy_pop_switch, hid, hne, h0, h1, ha, hb]
    rcases hc with rfl | rfl | rfl | rfl <;> decide
  · rintro rfl -
    have hne : opid1 '=' ≠ opid1 ',' := by decide
    have hin : opid1 '=' = opid1 ',' ∨ opid1 '=' = opid1 '+' ∨ opid1 '=' = opid1 '-' ∨
        opid1 '=' = opid1 '*' ∨ opid1 '=' = opid1 '/' ∨ opid1 '=' = opid1 '=' := by decide
    have ha : sy_apply top.ctx (opid1 '=') e0 e1 =
        some (.store top.ctx e0.vtype (type_store_instr e0.vtype) e0 e1) := by
      unfold sy_apply
      rfl
    simp [sy_pop_switch, hid, hne, hin, h0, h1, ha, hb]

/-- C2, at a concrete input: `v * y` with a vector `v` and a float `y` under
a pending `=` is reduced to `MUL_VF(v, y)`, of type vector. -/
theorem sy_pop_table_row_witness :
    (syop pos0 0).paren = 0 ∧
      operator_at (syop pos0 0).etype = .done
        { op := "*", operands := 2, id := opid1 '*', assoc := ASSOC_LEFT, prec := 13, flags := 0 } ∧
      block_is_empty (syexp pos0 (var_of "v" TYPE_VECTOR)).block = false ∧
      ('*', (var_of "v" TYPE_VECTOR).vtype, (var_of "y" TYPE_FLOAT).vtype, INSTR_MUL_VF) ∈
        operator_table ∧
      parser_sy_pop (clean_state [])
          { out := [syexp pos0 (var_of "w" TYPE_VECTOR)] ++
              [syexp pos0 (var_of "v" TYPE_VECTOR), syexp pos0 (var_of "y" TYPE_FLOAT)],
            ops := [syop pos0 4] ++ [syop pos0 0] } =
        .done (true, clean_state [],
          { out := [syexp pos0 (var_of "w" TYPE_VECTOR)] ++
              [syexp pos0 (.binary pos0 TYPE_VECTOR INSTR_MUL_VF (var_of "v" TYPE_VECTOR)
                (var_of "y" TYPE_FLOAT))],
            ops := [syop pos0 4] }) :=
  ⟨rfl, rfl, rfl, by decide,
    (sy_pop_table_row (clean_state []) [syexp pos0 (var_of "w" TYPE_VECTOR)] [syop pos0 4]
      (syop pos0 0) (syexp pos0 (var_of "v" TYPE_VECTOR)) (syexp pos0 (var_of "y" TYPE_FLOAT)) _
      (var_of "v" TYPE_VECTOR) (var_of "y" TYPE_FLOAT) '*' INSTR_MUL_VF rfl rfl rfl rfl rfl rfl).1
        (by decide)⟩

/-! ## Calls -/

/-- The callee at position `outs.length` of the operand stack. -/
theorem callee_at (outs args : List sy_elem) (callee : sy_elem) :
    (outs ++ callee :: args)[outs.length]? = some callee := by
  rw [List.getElem?_append_right (le_refl _)]
  simp

/-- The callee at position `outs.length`, read with a bound. -/
theorem callee_elem (outs args : List sy_elem) (callee : sy_elem)
    (h : outs.length < (outs ++ callee :: args).length) :
    (outs ++ callee :: args)[outs.length] = callee := by
  have h1 := callee_at outs args callee
  rw [List.getElem?_eq_getElem h] at h1
  exact Option.some.inj h1

/-- Overwriting the callee at position `outs.length` of the operand stack. -/
theorem callee_set (outs args : List sy_elem) (callee x : sy_elem) :
    (outs ++ callee :: args).set outs.length x = outs ++ x :: args := by
  simp

/-- The three checks at the end of `parser_close_call`. -/
theorem close_call_finish_eq (parser : parser_t) (sy : shunt) (fid : Nat)
    (func call : ast_expression) (n : Nat) :
    close_call_finish parser sy fid func call n =
      if func.vtype = TYPE_FUNCTION ∧ func.next.isSome ∧ func.params.length = n then
        (true, parser, { sy with out := sy.out.set fid (syexp call.context call) })
      else (false, parseerror parser, { sy with out := sy.out.set fid (syexp call.context call) }) := by
  unfold close_call_finish
  by_cases h1 : func.vtype = TYPE_FUNCTION <;> cases h2 : func.next <;>
    by_cases h3 : func.params.length = n <;> simp [h1, h3]

/-- C4: `parser_close_call` on a call-open marker whose callee `func` is
followed by the operands `args` succeeds exactly when `func` has type
function, has a return type, and is supplied as many arguments as it has
parameters; every failure is reported as an error; on success the callee is
replaced by a Call of `func` whose argument list is the supplied one, so its
length is the parameter count.  In particular `f()` succeeds exactly when the
function `f` has no parameters, with an empty argument list. -/
theorem close_call_checks (parser : parser_t) (outs ops args : List sy_elem)
    (top callee : sy_elem) (func : ast_expression)
    (hoff : top.off = outs.length) (hf : callee.out = some func)
    (hargs : ∀ a ∈ args, a.out.isSome = true) :
    (reduced (parser_close_call parser { out := outs ++ callee :: args, ops := ops ++ [top] })
        = true ↔
      func.vtype = TYPE_FUNCTION ∧ func.next.isSome = true ∧
        ∃ ps, supplied args = some ps ∧ ps.length = func.params.length) ∧
    (reduced (parser_close_call parser { out := outs ++ callee :: args, ops := ops ++ [top] })
        = false →
      ∃ sy1, parser_close_call parser { out := outs ++ callee :: args, ops := ops ++ [top] } =
        .done (false, parseerror parser, sy1)) ∧
    (reduced (parser_close_call parser { out := outs ++ callee :: args, ops := ops ++ [top] })
        = true →
      ∃ ps, supplied args = some ps ∧ ps.length = func.params.length ∧
        parser_close_call parser { out := outs ++ callee :: args, ops := ops ++ [top] } =
          .done (true, parser,
            { out := outs ++ [syexp top.ctx (ast_call_set_params (ast_call_new top.ctx func) ps)],
              ops := ops })) ∧
    (args = [] →
      (reduced (parser_close_call parser { out := outs ++ callee :: args, ops := ops ++ [top] })
        = true ↔ func.vtype = TYPE_FUNCTION ∧ func.next.isSome = true ∧ func.params = [])) := by
  have hctx : ∀ ps, (ast_call_set_params (ast_call_new top.ctx func) ps).context = top.ctx := by
    intro ps
    rfl
  have h0 : ast_call_set_params (ast_call_new top.ctx func) [] = ast_call_new top.ctx func := rfl
  rcases args with _ | ⟨a, _ | ⟨b, rest⟩⟩
  · -- no arguments
    have hr : parser_close_call parser { out := outs ++ [callee], ops := ops ++ [top] } =
        .done (close_call_finish parser { out := outs ++ [callee], ops := ops } outs.length func
          (ast_call_new top.ctx func) 0) := by
      unfold parser_close_call
      simp [hoff, hf]
    rw [hr, close_call_finish_eq]
    by_cases hc : func.vtype = TYPE_FUNCTION ∧ func.next.isSome = true ∧ func.params.length = 0
    · have hl : func.params = [] := List.length_eq_zero.mp hc.2.2
      simp [hc, reduced, supplied, hl, h0, ast_call_new, ast_call_set_params, ast_expression.context]
    · rw [if_neg hc]
      have hc2 : ¬ (func.vtype = TYPE_FUNCTION ∧ func.next.isSome = true ∧ func.params = []) := by
        intro h
        exact hc ⟨h.1, h.2.1, by simp [h.2.2]⟩
      simp [reduced, supplied]
      exact ⟨fun h1 h2 h3 => hc2 ⟨h1, h2, List.length_eq_zero.mp h3.symm⟩,
        fun h1 h2 h3 => hc2 ⟨h1, h2, h3⟩⟩
  · -- one operand above the callee
    have ha := hargs a (by simp)
    cases hb : a.block with
    | none =>
      obtain ⟨e, he⟩ := Option.isSome_iff_exists.mp ha
      have hr : parser_close_call parser { out := outs ++ [callee, a], ops := ops ++ [top] } =
          .done (close_call_finish parser { out := outs ++ [callee], ops := ops } outs.length func
            (ast_call_set_params (ast_call_new top.ctx func) [e]) 1) := by
        unfold parser_close_call
        have hl : (outs ++ [callee, a]).getLast? = some a := by
          rw [show outs ++ [callee, a] = (outs ++ [callee]) ++ [a] by simp]
          exact List.getLast?_concat _
        have hd : (outs ++ [callee, a]).dropLast = outs ++ [callee] := by
          rw [show outs ++ [callee, a] = (outs ++ [callee]) ++ [a] by simp]
          exact List.dropLast_concat
        simp [hoff, hf, hb, he, hl, hd, callee_elem]
      rw [hr, close_call_finish_eq]
      by_cases hc : func.vtype = TYPE_FUNCTION ∧ func.next.isSome = true ∧ func.params.length = 1
      · simp [hc, reduced, supplied, hb, he, ast_call_new, ast_call_set_params,
          ast_expression.context]
      · rw [if_neg hc]
        simp [reduced, supplied, hb, he]
        intro h1 h2 h3
        exact hc ⟨h1, h2, h3.symm⟩
    | some blk =>
      have hr : parser_close_call parser { out := outs ++ [callee, a], ops := ops ++ [top] } =
          .done (close_call_finish parser { out := outs ++ [callee], ops := ops } outs.length func
            (ast_call_set_params (ast_call_new top.ctx func) blk.exprs) blk.exprs.length) := by
        unfold parser_close_call
        have hl : (outs ++ [callee, a]).getLast? = some a := by
          rw [show outs ++ [callee, a] = (outs ++ [callee]) ++ [a] by simp]
          exact List.getLast?_concat _
        have hd : (outs ++ [callee, a]).dropLast = outs ++ [callee] := by
          rw [show outs ++ [callee, a] = (outs ++ [callee]) ++ [a] by simp]
          exact List.dropLast_concat
        simp [hoff, hf, hb, hl, hd, callee_elem]
      rw [hr, close_call_finish_eq]
      by_cases hc : func.vtype = TYPE_FUNCTION ∧ func.next.isSome = true ∧
          func.params.length = blk.exprs.length
      · simp [hc, reduced, supplied, hb, ast_call_new, ast_call_set_params,
          ast_expression.context]
      · rw [if_neg hc]
        simp [reduced, supplied, hb]
        intro h1 h2 h3
        exact hc ⟨h1, h2, h3.symm⟩
  · -- more than one operand above the callee
    have hr : parser_close_call parser
        { out := outs ++ callee :: a :: b :: rest, ops := ops ++ [top] } =
        .done (false, parseerror parser,
          { out := outs ++ callee :: a :: b :: rest, ops := ops }) := by
      unfold parser_close_call
      simp [hoff, hf, callee_elem]
    rw [hr]
    simp [reduced, supplied]

/-- C4, at a concrete input: for the call `f()` of a function `f` declared
with one float parameter, the statement gives that the call is accepted
exactly when `f` has no parameters. -/
theorem close_call_checks_witness :
    (syparen pos0 PAREN_CALL 0).off = ([] : List sy_elem).length ∧
      (syexp pos0 (fn_value "f" TYPE_FLOAT [var_of "a" TYPE_FLOAT])).out =
        some (fn_value "f" TYPE_FLOAT [var_of "a" TYPE_FLOAT]) ∧
      (reduced (parser_close_call (clean_state [])
          { out := [] ++ syexp pos0 (fn_value "f" TYPE_FLOAT [var_of "a" TYPE_FLOAT]) :: [],
            ops := [] ++ [syparen pos0 PAREN_CALL 0] }) = true ↔
        (fn_value "f" TYPE_FLOAT [var_of "a" TYPE_FLOAT]).vtype = TYPE_FUNCTION ∧
          (fn_value "f" TYPE_FLOAT [var_of "a" TYPE_FLOAT]).next.isSome = true ∧
          (fn_value "f" TYPE_FLOAT [var_of "a" TYPE_FLOAT]).params = []) :=
  ⟨rfl, rfl,
    (close_call_checks (clean_state []) [] [] [] (syparen pos0 PAREN_CALL 0)
      (syexp pos0 (fn_value "f" TYPE_FLOAT [var_of "a" TYPE_FLOAT]))
      (fn_value "f" TYPE_FLOAT [var_of "a" TYPE_FLOAT]) rfl rfl (by simp)).2.2.2 rfl⟩

/-! ## Name lookup -/

/-- The search of the locals from the top finds the last entry of the name. -/
theorem find_local_entry_last (before after : List varentry_t) (e : varentry_t) (name : String)
    (he : e.name = name) (hafter : ∀ x ∈ after, x.name ≠ name) :
    find_local_entry (before ++ e :: after) name 0 = some e := by
  unfold find_local_entry
  simp only [List.drop_zero, List.reverse_append, List.reverse_cons, List.append_assoc]
  rw [List.find?_append]
  have h1 : List.find? (fun x => x.name == name) after.reverse = none := by
    rw [List.find?_eq_none]
    intro x hx
    simpa using hafter x (List.mem_reverse.mp hx)
  simp [h1, he]

/-- The search of the locals finds nothing when no entry has the name. -/
theorem find_local_entry_none (locals : List varentry_t) (name : String) (upto : Nat)
    (h : ∀ x ∈ locals, x.name ≠ name) :
    find_local_entry locals name upto = none := by
  unfold find_local_entry
  rw [List.find?_eq_none]
  intro x hx
  simpa using h x (List.mem_of_mem_drop (List.mem_reverse.mp hx))

/-- A name that a local has resolves to the local added last under it,
whatever the parameters and globals are. -/
theorem find_var_local (parser : parser_t) (name : String) (before after : List varentry_t)
    (e : varentry_t) (hl : parser.locals = before ++ e :: after) (he : e.name = name)
    (hafter : ∀ x ∈ after, x.name ≠ name) :
    parser_find_var parser name = .done (some e.var) := by
  unfold parser_find_var parser_find_local
  rw [hl, find_local_entry_last before after e name he hafter]
  rfl

/-- C5: with an active function `f`, `parser_find_var` returns the most
recently added local of the name if there is one; otherwise the first
parameter of `f` of the name if there is one; otherwise the first global of
the name; otherwise nothing. -/
theorem find_var_order (parser : parser_t) (name : String) (i : Nat) (f : ast_function)
    (hfun : parser.function = some i) (hf : parser.functions.get? i = some f) :
    (∀ before after e, parser.locals = before ++ e :: after → e.name = name →
      (∀ x ∈ after, x.name ≠ name) →
      parser_find_var parser name = .done (some e.var)) ∧
    ((∀ x ∈ parser.locals, x.name ≠ name) →
      (∀ before after v, f.vtype.params = before ++ v :: after → v.name = name →
        (∀ x ∈ before, x.name ≠ name) →
        parser_find_var parser name = .done (some v)) ∧
      ((∀ x ∈ f.vtype.params, x.name ≠ name) →
        (∀ before after g, parser.globals = before ++ g :: after → g.name = name →
          (∀ x ∈ before, x.name ≠ name) →
          parser_find_var parser name = .done (some g.var)) ∧
        ((∀ x ∈ parser.globals, x.name ≠ name) →
          parser_find_var parser name = .done none))) := by
  have hf1 : parser.functions[i]? = some f := by simpa using hf
  refine ⟨?_, ?_⟩
  · intro before after e hl he hafter
    exact find_var_local parser name before after e hl he hafter
  · intro hloc
    have hnone := find_local_entry_none parser.locals name 0 hloc
    refine ⟨?_, ?_⟩
    · intro before after v hp hv hbefore
      have hfind : List.find? (fun x => x.name == name) f.vtype.params = some v := by
        rw [hp, List.find?_append]
        have h1 : List.find? (fun x => x.name == name) before = none := by
          rw [List.find?_eq_none]
          intro x hx
          simpa using hbefore x hx
        simp [h1, hv]
      unfold parser_find_var parser_find_local
      simp [hnone, hfun, hf1, hfind, Outcome.bind]
    · intro hpar
      have hfind : List.find? (fun x => x.name == name) f.vtype.params = none := by
        rw [List.find?_eq_none]
        intro x hx
        simpa using hpar x hx
      refine ⟨?_, ?_⟩
      · intro before after g hg hgn hbefore
        have hglob : List.find? (fun x => x.name == name) parser.globals = some g := by
          rw [hg, List.find?_append]
          have h1 : List.find? (fun x => x.name == name) before = none := by
            rw [List.find?_eq_none]
            intro x hx
            simpa using hbefore x hx
          simp [h1, hgn]
        unfold parser_find_var parser_find_local
        simp [hnone, hfun, hf1, hfind, Outcome.bind, parser_find_global, hglob]
      · intro hglob
        have hg : List.find? (fun x => x.name == name) parser.globals = none := by
          rw [List.find?_eq_none]
          intro x hx
          simpa using hglob x hx
        unfold parser_find_var parser_find_local
        simp [hnone, hfun, hf1, hfind, Outcome.bind, parser_find_global, hg]

/-- C5, at a concrete input: of two locals, a parameter and a global all
named `x`, the name resolves to the local added last. -/
theorem find_var_order_witness :
    scope_state.function = some 0 ∧
      scope_state.functions.get? 0 =
        some (ast_function_new pos0 "h" (fn_value "h" TYPE_VOID [var_of "x" TYPE_STRING])) ∧
      parser_find_var scope_state "x" = .done (some (var_of "x" TYPE_VECTOR)) :=
  ⟨rfl, rfl,
    (find_var_order scope_state "x" 0
      (ast_function_new pos0 "h" (fn_value "h" TYPE_VOID [var_of "x" TYPE_STRING])) rfl rfl).1
      [⟨"x", var_of "x" TYPE_FLOAT⟩] [] ⟨"x", var_of "x" TYPE_VECTOR⟩ rfl rfl (by simp)⟩

/-! ## Declarations -/

/-- A state has its own scopes. -/
theorem same_scope_refl (p : parser_t) : same_scope p p :=
  ⟨rfl, rfl, rfl, rfl, rfl⟩

/-- Keeping the scopes composes. -/
theorem same_scope_trans {p q r : parser_t} (h1 : same_scope p q) (h2 : same_scope q r) :
    same_scope p r :=
  ⟨h2.1.trans h1.1, h2.2.1.trans h1.2.1, h2.2.2.1.trans h1.2.2.1, h2.2.2.2.1.trans h1.2.2.2.1,
    h2.2.2.2.2.trans h1.2.2.2.2⟩

/-- Reading a token keeps the scopes. -/
theorem same_scope_next (p : parser_t) : same_scope p (parser_next p).2 :=
  ⟨rfl, rfl, rfl, rfl, rfl⟩

/-- Counting an error keeps the scopes. -/
theorem same_scope_error (p : parser_t) : same_scope p (parseerror p) :=
  ⟨rfl, rfl, rfl, rfl, rfl⟩

/-- The type parser returns an unnamed Value of the base type and touches
neither scope. -/
theorem parse_type_frame (fuel : Nat) :
    (∀ p t v b q, parse_type fuel p t = .done (v, b, q) →
      same_scope p q ∧ ∀ e, v = some e → ∃ c ps, e = .value c "<unnamed>" t none ps false .none) ∧
    (∀ p ps r q, parse_type_params fuel p ps = .done (r, q) → same_scope p q) := by
  induction fuel with
  | zero =>
    constructor
    · intro p t v b q h
      simp [parse_type] at h
    · intro p ps r q h
      simp [parse_type_params] at h
  | succ n ih =>
    constructor
    · intro p t v b q h
      unfold parse_type at h
      split at h
      · cases hp : parse_type_params n p [] with
        | done r =>
          rw [hp] at h
          simp only [Outcome.bind] at h
          have hs := ih.2 p [] r.1 r.2 hp
          split at h
          · cases h
            exact ⟨hs, by simp⟩
          · split at h
            · cases h
              exact ⟨same_scope_trans hs (same_scope_next _), by simp⟩
            · cases h
              refine ⟨same_scope_trans hs (same_scope_next _), ?_⟩
              intro e he
              cases he
              exact ⟨_, _, rfl⟩
        | undefined =>
          rw [hp] at h
          simp [Outcome.bind] at h
        | timeout =>
          rw [hp] at h
          simp [Outcome.bind] at h
      · cases h
        refine ⟨same_scope_refl _, ?_⟩
        intro e he
        cases he
        exact ⟨_, _, rfl⟩
    · intro p ps r q h
      unfold parse_type_params at h
      simp only at h
      split at h
      · cases h
        exact same_scope_next _
      · split at h
        · cases h
          exact same_scope_next _
        · split at h
          · cases h
            exact same_scope_trans (same_scope_next _) (same_scope_next _)
          · cases hp : parse_type n (parser_next (parser_next p).2).2
                (parser_next p).2.lex.tok.constval_t with
            | done r =>
              rw [hp] at h
              simp only [Outcome.bind] at h
              obtain ⟨v, b, q1⟩ := r
              have hs := (ih.1 _ _ v b q1 hp).1
              have hs0 : same_scope p q1 :=
                same_scope_trans (same_scope_trans (same_scope_next _) (same_scope_next _)) hs
              cases v with
              | none =>
                simp only at h
                cases h
                exact hs0
              | some param =>
                simp only at h
                by_cases hid : q1.tok = TOKEN_IDENT
                · simp only [hid, if_true] at h
                  split at h
                  · cases h
                    exact same_scope_trans hs0 (same_scope_next _)
                  · split at h
                    · exact same_scope_trans (same_scope_trans hs0 (same_scope_next _))
                        (ih.2 _ _ _ _ h)
                    · split at h
                      · cases h
                        exact same_scope_trans hs0 (same_scope_next _)
                      · cases h
                        exact same_scope_trans (same_scope_trans hs0 (same_scope_next _))
                          (same_scope_error _)
                · simp only [hid, if_false] at h
                  split at h
                  · simp at *
                  · split at h
                    · exact same_scope_trans hs0 (ih.2 _ _ _ _ h)
                    · split at h
                      · cases h
                        exact hs0
                      · cases h
                        exact same_scope_trans hs0 (same_scope_error _)
            | undefined =>
              rw [hp] at h
              simp [Outcome.bind] at h
            | timeout =>
              rw [hp] at h
              simp [Outcome.bind] at h

/-- `parser_next` looks at the lexer only. -/
theorem parser_next_lex (p q : parser_t) (h : p.lex = q.lex) :
    (parser_next p).1 = (parser_next q).1 ∧ (parser_next p).2.tok = (parser_next q).2.tok ∧
      (parser_next p).2.lex = (parser_next q).2.lex := by
  unfold parser_next
  simp [h]

/-- A token that is neither the end of the input nor an error was read with
success. -/
theorem parser_next_ok (p : parser_t) (c : Char) (h : (parser_next p).2.tok = ch c) :
    (parser_next p).1 = true := by
  unfold parser_next at h ⊢
  simp only at h ⊢
  rw [h]
  rfl

/-- Registering a declarator leaves the lexer alone. -/
theorem register_lex (p1 : parser_t) (lb : Option ast_expression) (ctx : lex_ctx)
    (var0 : ast_expression) (isfunc : Bool) :
    (variable_register p1 lb ctx var0 isfunc).parser.lex = p1.lex := by
  unfold variable_register
  cases isfunc <;> cases lb <;> rfl

/-- The C function `parser_variable` is the first round of its loop, run on
the base type of the current token. -/
theorem parser_variable_round (parser : parser_t) (lb : Option ast_expression) :
    parser_variable parser lb =
      variable_loop (3 * parser.lex.input.length + 2 + 1) parser lb
        parser.lex.tok.constval_t :=
  rfl

/-- One round of the loop of `parser_variable` up to the separator: after a
successful `parser_next`, a parsed type, an identifier and no duplicate, the
declarator is registered; a `;` ends the declaration and a `,` starts the
next round. -/
theorem variable_loop_step (fuel : Nat) (parser : parser_t) (lb : Option ast_expression)
    (basetype : qc_type) (var0 : ast_expression) (isfunc : Bool) (p1 : parser_t)
    (hn : (parser_next parser).1 = true)
    (ht : parser_parse_type (parser_next parser).2 basetype = .done (some var0, isfunc, p1))
    (hid : p1.tok = TOKEN_IDENT)
    (hglobal : lb.isNone = true → parser_find_global p1 (parser_tokval p1) = none)
    (hlocal : lb.isSome = true →
      parser_find_local p1 (parser_tokval p1) p1.blocklocal = .done none) :
    ((parser_next p1).2.tok = ch ';' →
      variable_loop (fuel + 1) parser lb basetype =
        .done
          ((parser_next (parser_next (variable_register p1 lb (parser_ctx (parser_next parser).2)
              var0 isfunc).parser).2).1 ||
            (parser_next (parser_next (variable_register p1 lb (parser_ctx (parser_next parser).2)
              var0 isfunc).parser).2).2.tok == TOKEN_EOF,
           (variable_register p1 lb (parser_ctx (parser_next parser).2) var0 isfunc).localblock,
           (parser_next (parser_next (variable_register p1 lb (parser_ctx (parser_next parser).2)
              var0 isfunc).parser).2).2)) ∧
    ((parser_next p1).2.tok = ch ',' →
      variable_loop (fuel + 1) parser lb basetype =
        variable_loop fuel
          (parser_next (variable_register p1 lb (parser_ctx (parser_next parser).2)
              var0 isfunc).parser).2
          (variable_register p1 lb (parser_ctx (parser_next parser).2) var0 isfunc).localblock
          basetype) := by
  have hlex := parser_next_lex _ _ (register_lex p1 lb (parser_ctx (parser_next parser).2) var0 isfunc)
  constructor
  · intro hsemi
    have h1 := hlex.2.1.trans hsemi
    have h1ok := parser_next_ok _ _ h1
    unfold variable_loop
    cases lb with
    | none =>
      have hgl := hglobal rfl
      simp only [hn, ht, hid, hgl, h1, h1ok, Outcome.bind]
      simp
      cases h2 : (parser_next (parser_next (variable_register p1 none
        (parser_ctx (parser_next parser).2) var0 isfunc).parser).2).1 <;> simp
    | some b =>
      have hlo := hlocal rfl
      simp only [hn, ht, hid, hlo, h1, h1ok, Outcome.bind]
      simp
      cases h2 : (parser_next (parser_next (variable_register p1 (some b)
        (parser_ctx (parser_next parser).2) var0 isfunc).parser).2).1 <;> simp
  · intro hcomma
    have h1 := hlex.2.1.trans hcomma
    have h1ok := parser_next_ok _ _ h1
    rw [variable_loop]
    cases lb with
    | none =>
      have hgl := hglobal rfl
      simp only [hn, ht, hid, hgl, h1, h1ok, Outcome.bind]
      simp
    | some b =>
      have hlo := hlocal rfl
      simp only [hn, ht, hid, hlo, h1, h1ok, Outcome.bind]
      simp

/-- The declarator that `variable_register` enters: it is named after the
current identifier, has the base type or, for a function, the type function,
and goes with its entries to the end of the globals (no enclosing block) or
of the locals (inside a block), and to the locals of the block. -/
theorem register_scope (p1 : parser_t) (lb : Option ast_expression) (ctx c : lex_ctx)
    (t : qc_type) (ps : List ast_expression) (isfunc : Bool) :
    (variable_register p1 lb ctx (.value c "<unnamed>" t none ps false .none) isfunc).var.name =
        parser_tokval p1 ∧
      (variable_register p1 lb ctx (.value c "<unnamed>" t none ps false .none) isfunc).var.vtype =
        (if isfunc then TYPE_FUNCTION else t) ∧
      (variable_register p1 lb ctx (.value c "<unnamed>" t none ps false .none) isfunc).parser.globals =
        (if lb.isNone then p1.globals ++ var_entries
          (variable_register p1 lb ctx (.value c "<unnamed>" t none ps false .none) isfunc).var
         else p1.globals) ∧
      (variable_register p1 lb ctx (.value c "<unnamed>" t none ps false .none) isfunc).parser.locals =
        (if lb.isNone then p1.locals else p1.locals ++ var_entries
          (variable_register p1 lb ctx (.value c "<unnamed>" t none ps false .none) isfunc).var) ∧
      (variable_register p1 lb ctx (.value c "<unnamed>" t none ps false .none) isfunc).localblock =
        lb.map (fun b => ast_block_locals_add b
          (variable_register p1 lb ctx (.value c "<unnamed>" t none ps false .none) isfunc).var) := by
  unfold variable_register
  cases isfunc <;> cases lb <;> simp [ast_value_set_name, function_value, ast_expression.name,
    ast_expression.vtype]

/-- C9: a declarator accepted by `parser_variable` (in any round of its
loop, global or inside a block) puts the declared Value `v` and, when `v` has
type vector, after it the three Members `v_x`, `v_y`, `v_z` of `v` with the
component indices 0, 1, 2 at the end of the scope it is declared in, four
entries in all; a Value of any other type, a function returning vector among
them, adds the one entry `v`.  The other scope is unchanged.  This is the
state in which a declaration ending in `;` returns and in which the next
round starts after a `,`. -/
theorem variable_registers (fuel : Nat) (parser : parser_t) (lb : Option ast_expression)
    (basetype : qc_type) (var0 : ast_expression) (isfunc : Bool) (p1 : parser_t)
    (hn : (parser_next parser).1 = true)
    (ht : parser_parse_type (parser_next parser).2 basetype = .done (some var0, isfunc, p1))
    (hid : p1.tok = TOKEN_IDENT)
    (hglobal : lb.isNone = true → parser_find_global p1 (parser_tokval p1) = none)
    (hlocal : lb.isSome = true →
      parser_find_local p1 (parser_tokval p1) p1.blocklocal = .done none) :
    ∃ v : ast_expression, v.name = parser_tokval p1 ∧
      v.vtype = (if isfunc then TYPE_FUNCTION else basetype) ∧
      ∃ entries : List varentry_t,
        entries = (if v.vtype = TYPE_VECTOR then
            [ ⟨v.name, v⟩,
              ⟨v.name ++ "_x", .member v.context TYPE_FLOAT v 0⟩,
              ⟨v.name ++ "_y", .member v.context TYPE_FLOAT v 1⟩,
              ⟨v.name ++ "_z", .member v.context TYPE_FLOAT v 2⟩ ]
          else [⟨v.name, v⟩]) ∧
        ((parser_next p1).2.tok = ch ';' →
          ∃ ok q, variable_loop (fuel + 1) parser lb basetype =
              .done (ok, lb.map (fun b => ast_block_locals_add b v), q) ∧
            q.globals = (if lb.isNone then parser.globals ++ entries else parser.globals) ∧
            q.locals = (if lb.isNone then parser.locals else parser.locals ++ entries)) ∧
        ((parser_next p1).2.tok = ch ',' →
          ∃ q, variable_loop (fuel + 1) parser lb basetype =
              variable_loop fuel q (lb.map (fun b => ast_block_locals_add b v)) basetype ∧
            q.globals = (if lb.isNone then parser.globals ++ entries else parser.globals) ∧
            q.locals = (if lb.isNone then parser.locals else parser.locals ++ entries)) := by
  obtain ⟨hs, hv⟩ := (parse_type_frame _).1 _ _ _ _ _ ht
  obtain ⟨c, ps, rfl⟩ := hv var0 rfl
  obtain ⟨hg, hl, -, -, -⟩ := hs
  simp only [(same_scope_next parser).1] at hg
  simp only [(same_scope_next parser).2.1] at hl
  obtain ⟨hname, htype, hglob, hloc, hblock⟩ :=
    register_scope p1 lb (parser_ctx (parser_next parser).2) c basetype ps isfunc
  obtain ⟨hsemi, hcomma⟩ :=
    variable_loop_step fuel parser lb basetype _ isfunc p1 hn ht hid hglobal hlocal
  have hg1 : ∀ q : parser_t, q.globals = (variable_register p1 lb
      (parser_ctx (parser_next parser).2) (.value c "<unnamed>" basetype none ps false .none)
      isfunc).parser.globals →
      q.globals = (if lb.isNone then parser.globals ++ var_entries (variable_register p1 lb
        (parser_ctx (parser_next parser).2) (.value c "<unnamed>" basetype none ps false .none)
        isfunc).var else parser.globals) := by
    intro q hq
    rw [hq, hglob, hg]
  have hl1 : ∀ q : parser_t, q.locals = (variable_register p1 lb
      (parser_ctx (parser_next parser).2) (.value c "<unnamed>" basetype none ps false .none)
      isfunc).parser.locals →
      q.locals = (if lb.isNone then parser.locals else parser.locals ++ var_entries
        (variable_register p1 lb (parser_ctx (parser_next parser).2)
          (.value c "<unnamed>" basetype none ps false .none) isfunc).var) := by
    intro q hq
    rw [hq, hloc, hl]
  refine ⟨_, hname, htype, _, rfl, ?_, ?_⟩
  · intro h
    rw [hsemi h, hblock]
    exact ⟨_, _, rfl, hg1 _ rfl, hl1 _ rfl⟩
  · intro h
    rw [hcomma h, hblock]
    exact ⟨_, rfl, hg1 _ rfl, hl1 _ rfl⟩

/-- C9, at a concrete input: the global declaration `vector v;`. -/
theorem variable_registers_witness :
    (parser_next decl_state).1 = true ∧
      parser_parse_type (parser_next decl_state).2 TYPE_VECTOR =
        .done (some (ast_value_new pos0 "<unnamed>" TYPE_VECTOR), false,
          (parser_next decl_state).2) ∧
      (parser_next decl_state).2.tok = TOKEN_IDENT ∧
      parser_find_global (parser_next decl_state).2 (parser_tokval (parser_next decl_state).2) =
        none ∧
      ∃ v : ast_expression, v.name = parser_tokval (parser_next decl_state).2 ∧
        v.vtype = (if false then TYPE_FUNCTION else TYPE_VECTOR) ∧
        ∃ entries : List varentry_t,
          entries = (if v.vtype = TYPE_VECTOR then
              [ ⟨v.name, v⟩,
                ⟨v.name ++ "_x", .member v.context TYPE_FLOAT v 0⟩,
                ⟨v.name ++ "_y", .member v.context TYPE_FLOAT v 1⟩,
                ⟨v.name ++ "_z", .member v.context TYPE_FLOAT v 2⟩ ]
            else [⟨v.name, v⟩]) ∧
          ((parser_next (parser_next decl_state).2).2.tok = ch ';' →
            ∃ ok q, variable_loop (0 + 1) decl_state none TYPE_VECTOR =
                .done (ok, (none : Option ast_expression).map
                  (fun b => ast_block_locals_add b v), q) ∧
              q.globals = (if (none : Option ast_expression).isNone
                then decl_state.globals ++ entries else decl_state.globals) ∧
              q.locals = (if (none : Option ast_expression).isNone
                then decl_state.locals else decl_state.locals ++ entries)) ∧
          ((parser_next (parser_next decl_state).2).2.tok = ch ',' →
            ∃ q, variable_loop (0 + 1) decl_state none TYPE_VECTOR =
                variable_loop 0 q ((none : Option ast_expression).map
                  (fun b => ast_block_locals_add b v)) TYPE_VECTOR ∧
              q.globals = (if (none : Option ast_expression).isNone
                then decl_state.globals ++ entries else decl_state.globals) ∧
              q.locals = (if (none : Option ast_expression).isNone
                then decl_state.locals else decl_state.locals ++ entries)) :=
  ⟨rfl, rfl, rfl, rfl,
    variable_registers 0 decl_state none TYPE_VECTOR
      (ast_value_new pos0 "<unnamed>" TYPE_VECTOR) false (parser_next decl_state).2
      rfl rfl rfl (fun _ => rfl) (fun h => by cases h)⟩

/-- A local of the name at or above the watermark is found by the search of
the locals. -/
theorem find_local_entry_some (locals : List varentry_t) (name : String) (upto : Nat)
    (h : ∃ e ∈ locals.drop upto, e.name = name) :
    ∃ e, find_local_entry locals name upto = some e := by
  obtain ⟨e, he, hname⟩ := h
  unfold find_local_entry
  cases hf : List.find? (fun e => e.name == name) (List.drop upto locals).reverse with
  | some x => exact ⟨x, rfl⟩
  | none =>
    rw [List.find?_eq_none] at hf
    have := hf e (List.mem_reverse.mpr he)
    simp [hname] at this

/-- A name with a suffix of two characters is another name. -/
theorem name_suffix_ne (name : String) (suffix : String) (h : suffix.length = 2) :
    name ++ suffix ≠ name := by
  intro heq
  have hlen := congrArg String.length heq
  rw [String.length_append, h] at hlen
  omega

/-- The duplicate check of a local declaration, on the locals stack: inside
a block `b`, a round of `parser_variable` that has read a declarator rejects
it with an error, registering nothing, when a local of its name is on the
stack at or above the block watermark; it accepts it when no local at or
above the watermark and no parameter of the active function has the name,
whatever is on the stack below the watermark, and `parser_find_var` then
resolves the name to the Value declared last. -/
theorem variable_local_redeclaration (fuel : Nat) (parser : parser_t) (b : ast_expression)
    (basetype : qc_type) (var0 : ast_expression) (isfunc : Bool) (p1 : parser_t)
    (hn : (parser_next parser).1 = true)
    (ht : parser_parse_type (parser_next parser).2 basetype = .done (some var0, isfunc, p1))
    (hid : p1.tok = TOKEN_IDENT) :
    ((∃ e ∈ parser.locals.drop parser.blocklocal, e.name = parser_tokval p1) →
      variable_loop (fuel + 1) parser (some b) basetype =
        .done (false, some b, parseerror p1) ∧
      (parseerror p1).errors = p1.errors + 1 ∧ (parseerror p1).locals = parser.locals) ∧
    (∀ i f, parser.function = some i → parser.functions.get? i = some f →
      (∀ e ∈ parser.locals.drop parser.blocklocal, e.name ≠ parser_tokval p1) →
      (∀ x ∈ f.vtype.params, x.name ≠ parser_tokval p1) →
      (parser_next p1).2.tok = ch ';' → (parser_next (parser_next p1).2).1 = true →
      ∃ v q, variable_loop (fuel + 1) parser (some b) basetype =
          .done (true, some (ast_block_locals_add b v), q) ∧
        v.name = parser_tokval p1 ∧ q.errors = p1.errors ∧
        parser_find_var q (parser_tokval p1) = .done (some v)) := by
  obtain ⟨hs, hv⟩ := (parse_type_frame _).1 _ _ _ _ _ ht
  obtain ⟨c, ps, rfl⟩ := hv var0 rfl
  obtain ⟨-, hl, hbl, hfs, hfn⟩ := hs
  simp only [(same_scope_next parser).2.1] at hl
  simp only [(same_scope_next parser).2.2.1] at hbl
  simp only [(same_scope_next parser).2.2.2.1] at hfs
  simp only [(same_scope_next parser).2.2.2.2] at hfn
  constructor
  · intro hex
    rw [← hl, ← hbl] at hex
    obtain ⟨e, he⟩ := find_local_entry_some _ _ _ hex
    refine ⟨?_, rfl, hl⟩
    have hfind : parser_find_local p1 (parser_tokval p1) p1.blocklocal = .done (some e.var) := by
      unfold parser_find_local
      rw [he]
    rw [variable_loop]
    simp [hn, ht, hid, hfind, Outcome.bind]
  · intro i f hfun hf hnot hpar hsemi hnext
    have hnone : find_local_entry p1.locals (parser_tokval p1) p1.blocklocal = none := by
      unfold find_local_entry
      rw [List.find?_eq_none]
      intro x hx
      rw [hl, hbl] at hx
      simpa using hnot x (List.mem_reverse.mp hx)
    have hparfind : List.find? (fun v => v.name == parser_tokval p1) f.vtype.params = none := by
      rw [List.find?_eq_none]
      intro x hx
      simpa using hpar x hx
    have hf1 : p1.functions[i]? = some f := by
      rw [hfs]
      simpa using hf
    have hfind : parser_find_local p1 (parser_tokval p1) p1.blocklocal = .done none := by
      unfold parser_find_local
      simp [hnone, hfn, hfun, hf1, hparfind]
    obtain ⟨hstep, -⟩ := variable_loop_step fuel parser (some b) basetype _ isfunc p1 hn ht hid
      (fun h => by cases h) (fun _ => hfind)
    obtain ⟨hname, htype, -, hloc, hblock⟩ :=
      register_scope p1 (some b) (parser_ctx (parser_next parser).2) c basetype ps isfunc
    have hlex := parser_next_lex _ _ (register_lex p1 (some b) (parser_ctx (parser_next parser).2)
      (.value c "<unnamed>" basetype none ps false .none) isfunc)
    have hok := (parser_next_lex _ _ hlex.2.2).1.trans hnext
    refine ⟨(variable_register p1 (some b) (parser_ctx (parser_next parser).2)
        (.value c "<unnamed>" basetype none ps false .none) isfunc).var,
      (parser_next (parser_next (variable_register p1 (some b) (parser_ctx (parser_next parser).2)
        (.value c "<unnamed>" basetype none ps false .none) isfunc).parser).2).2,
      ?_, hname, ?_, ?_⟩
    · rw [hstep hsemi, hblock, hok]
      rfl
    · show (variable_register p1 (some b) _ _ isfunc).parser.errors = p1.errors
      unfold variable_register
      cases isfunc <;> rfl
    · have hent : var_entries (variable_register p1 (some b) (parser_ctx (parser_next parser).2)
          (.value c "<unnamed>" basetype none ps false .none) isfunc).var =
          ⟨parser_tokval p1, (variable_register p1 (some b) (parser_ctx (parser_next parser).2)
            (.value c "<unnamed>" basetype none ps false .none) isfunc).var⟩ ::
          List.drop 1 (var_entries (variable_register p1 (some b)
            (parser_ctx (parser_next parser).2)
            (.value c "<unnamed>" basetype none ps false .none) isfunc).var) := by
        unfold var_entries
        split <;> simp [hname]
      have hafter : ∀ x ∈ List.drop 1 (var_entries (variable_register p1 (some b)
          (parser_ctx (parser_next parser).2)
          (.value c "<unnamed>" basetype none ps false .none) isfunc).var),
          x.name ≠ parser_tokval p1 := by
        intro x hx
        unfold var_entries at hx
        split at hx
        · simp at hx
          rcases hx with rfl | rfl | rfl
          · rw [hname]
            exact name_suffix_ne _ _ rfl
          · rw [hname]
            exact name_suffix_ne _ _ rfl
          · rw [hname]
            exact name_suffix_ne _ _ rfl
        · simp at hx
      have hlocals : (parser_next (parser_next (variable_register p1 (some b)
          (parser_ctx (parser_next parser).2)
          (.value c "<unnamed>" basetype none ps false .none) isfunc).parser).2).2.locals =
          p1.locals ++ ⟨parser_tokval p1, (variable_register p1 (some b)
            (parser_ctx (parser_next parser).2)
            (.value c "<unnamed>" basetype none ps false .none) isfunc).var⟩ ::
          List.drop 1 (var_entries (variable_register p1 (some b)
            (parser_ctx (parser_next parser).2)
            (.value c "<unnamed>" basetype none ps false .none) isfunc).var) := by
        show (variable_register p1 (some b) _ _ isfunc).parser.locals = _
        rw [hloc, ← hent]
        rfl
      exact find_var_local _ (parser_tokval p1) p1.locals _ _ hlocals rfl hafter

/-- The duplicate check at a concrete input: in a nested block of `f()`
whose enclosing block declared `x`, the declaration `float x;` is accepted
and `x` then resolves to the new Value. -/
theorem variable_local_redeclaration_witness :
    (parser_next shadow_state).1 = true ∧
      parser_parse_type (parser_next shadow_state).2 TYPE_FLOAT =
        .done (some (ast_value_new pos0 "<unnamed>" TYPE_FLOAT), false,
          (parser_next shadow_state).2) ∧
      (parser_next shadow_state).2.tok = TOKEN_IDENT ∧
      shadow_state.function = some 0 ∧
      shadow_state.functions.get? 0 =
        some (ast_function_new pos0 "f" (fn_value "f" TYPE_VOID [])) ∧
      shadow_state.locals.map (fun e => e.name) = ["x"] ∧ shadow_state.blocklocal = 1 ∧
      (parser_next (parser_next shadow_state).2).2.tok = ch ';' ∧
      (parser_next (parser_next (parser_next shadow_state).2).2).1 = true ∧
      ∃ v q, variable_loop (0 + 1) shadow_state (some (ast_block_new pos0)) TYPE_FLOAT =
          .done (true, some (ast_block_locals_add (ast_block_new pos0) v), q) ∧
        v.name = parser_tokval (parser_next shadow_state).2 ∧
        q.errors = (parser_next shadow_state).2.errors ∧
        parser_find_var q (parser_tokval (parser_next shadow_state).2) = .done (some v) :=
  ⟨rfl, rfl, rfl, rfl, rfl, rfl, rfl, rfl, rfl,
    (variable_local_redeclaration 0 shadow_state (ast_block_new pos0) TYPE_FLOAT
      (ast_value_new pos0 "<unnamed>" TYPE_FLOAT) false (parser_next shadow_state).2
      rfl rfl rfl).2 0 (ast_function_new pos0 "f" (fn_value "f" TYPE_VOID [])) rfl rfl
      (fun e he => by cases he) (fun x hx => by cases hx) rfl rfl⟩

/-! ## Evaluations on concrete programs -/

/-- C3, evaluated: `parser_expression` accepts the calls `f0 ( ) ;`,
`f1 ( a ) ;` and `f2 ( a , b ) ;` with the arguments in source order, and
returns NULL with one error for `f3 ( a , b , c ) ;` although `f3` has three
parameters: when the second comma arrives, the first comma is reduced and
then, the call-open marker now being on top, reduced against once more. -/
theorem expression_call_three_arguments :
    returned_call_args (parser_expression (call_state (call_tokens "f0" []))) = some [] ∧
      returned_call_args (parser_expression (call_state (call_tokens "f1" [tk_ident "a"]))) =
        some ["a"] ∧
      returned_call_args (parser_expression (call_state
        (call_tokens "f2" [tk_ident "a", tk_op ",", tk_ident "b"]))) = some ["a", "b"] ∧
      returned_null (parser_expression (call_state
        (call_tokens "f3" [tk_ident "a", tk_op ",", tk_ident "b", tk_op ",", tk_ident "c"]))) =
          true ∧
      errors_after (parser_expression (call_state
        (call_tokens "f3" [tk_ident "a", tk_op ",", tk_ident "b", tk_op ",", tk_ident "c"]))) =
          some 1 := by
  decide!

/-- C6, evaluated: in the body of `f()` after `float x;` the locals stack
holds `x`; `parser_parse_block` on the nested block `{ }` returns a Block and
leaves the locals stack empty.  In `void() f = { float x; { } x; }` the use
of `x` after the nested block is therefore an unknown identifier and the
compile fails, while `void() f = { float x; x; }` compiles. -/
theorem parse_block_drops_enclosing_locals :
    (nested_open_state [tk_ch '}', tk_ch '}']).locals.map (fun e => e.name) = ["x"] ∧
      locals_after (parser_parse_block (nested_open_state [tk_ch '}', tk_ch '}'])) =
        some (true, []) ∧
      compiled (parser_compile parser_cleared (body_open tk_void "f" ++
        [tk_float, tk_ident "x", tk_ch ';', tk_ch '{', tk_ch '}', tk_ident "x", tk_ch ';',
          tk_ch '}'])) = some (false, 2, ["f"], [(0, [])]) ∧
      compiled (parser_compile parser_cleared (body_open tk_void "f" ++
        [tk_float, tk_ident "x", tk_ch ';', tk_ident "x", tk_ch ';', tk_ch '}'])) =
        some (true, 0, ["f"], [(1, ["x"])]) := by
  exact ⟨by decide!, by decide!, by decide!, by decide!⟩

/-- C7, evaluated: `void() f = { float x; { } float x; }` compiles without
an error.  The second `float x;` stands in the block of the first, after a
nested block, and is accepted: the body block has the two locals `x` and `x`.
Closing the nested block has taken the first `x` from the locals stack, where
the duplicate check looks.  Without the nested block,
`void() f = { float x; float x; }` is rejected with an error, and the
declaration in the nested block of `void() f = { float x; { float x; } }` is
accepted. -/
theorem redeclaration_after_empty_block_accepted :
    compiled (parser_compile parser_cleared (body_open tk_void "f" ++
      [tk_float, tk_ident "x", tk_ch ';', tk_ch '{', tk_ch '}',
        tk_float, tk_ident "x", tk_ch ';', tk_ch '}'])) =
      some (true, 0, ["f"], [(1, ["x", "x"])]) ∧
    compiled (parser_compile parser_cleared (body_open tk_void "f" ++
      [tk_float, tk_ident "x", tk_ch ';', tk_float, tk_ident "x", tk_ch ';', tk_ch '}'])) =
      some (false, 2, ["f"], [(0, [])]) ∧
    compiled (parser_compile parser_cleared (body_open tk_void "f" ++
      [tk_float, tk_ident "x", tk_ch ';',
        tk_ch '{', tk_float, tk_ident "x", tk_ch ';', tk_ch '}', tk_ch '}'])) =
      some (true, 0, ["f"], [(1, ["x"])]) := by
  exact ⟨by decide!, by decide!, by decide!⟩

/-- C8, evaluated: `void() f = { float x; { float x; } float x; }` compiles
without an error; the body block has the two locals `x` and `x`, the first
and the third declaration. -/
theorem redeclaration_after_nested_block_accepted :
    compiled (parser_compile parser_cleared (body_open tk_void "f" ++
      [tk_float, tk_ident "x", tk_ch ';',
        tk_ch '{', tk_float, tk_ident "x", tk_ch ';', tk_ch '}',
        tk_float, tk_ident "x", tk_ch ';', tk_ch '}'])) =
      some (true, 0, ["f"], [(1, ["x", "x"])]) := by
  decide!

/-- C10, evaluated: `float v_x; vector v;` is accepted without an error and
leaves two globals named `v_x`. -/
theorem vector_alias_duplicates_global :
    compiled (parser_compile parser_cleared
      [tk_float, tk_ident "v_x", tk_ch ';', tk_vector, tk_ident "v", tk_ch ';']) =
      some (true, 0, ["v_x", "v", "v_x", "v_y", "v_z"], []) := by
  decide!

/-! ## The comma operator -/

/-- C20: `parser_sy_pop` over the comma operator with the two topmost
operands `l` and `r`: when `l` is a Block built by an earlier comma, with the
expressions `xs`, the two operands are replaced by that Block with the
expressions `xs ++ [r]` and the type of `r`; otherwise they are replaced by a
new Block with the expressions `[l, r]` and the type of `r`.  In both cases
the operator is taken off and one Block operand stands for the two. -/
theorem sy_pop_comma (parser : parser_t) (outs ops : List sy_elem) (top a0 a1 : sy_elem)
    (op : oper_info) (r : ast_expression)
    (hp : top.paren = 0) (hop : operator_at top.etype = .done op) (hid : op.id = opid1 ',')
    (h1 : a1.out = some r) :
    (∀ c t ls xs, a0.block = some (.block c t ls xs) → a0.out = some (.block c t ls xs) →
      parser_sy_pop parser { out := outs ++ [a0, a1], ops := ops ++ [top] } =
        .done (true, parser,
          { out := outs ++ [syblock top.ctx (.block c r.vtype ls (xs ++ [r]))], ops := ops })) ∧
    (∀ l, a0.block = none → a0.out = some l →
      parser_sy_pop parser { out := outs ++ [a0, a1], ops := ops ++ [top] } =
        .done (true, parser,
          { out := outs ++ [syblock top.ctx (.block top.ctx r.vtype [] [l, r])], ops := ops })) := by
  rw [sy_pop_two parser outs ops top a0 a1 op hp hop]
  constructor
  · intro c t ls xs hb ho
    simp [sy_pop_switch, hid, ho, h1, hb, sy_comma, ast_block_exprs_add, ast_block_set_type]
  · intro l hb ho
    simp [sy_pop_switch, hid, ho, h1, hb, sy_comma, ast_block_exprs_add, ast_block_set_type,
      ast_block_new]

/-- C20, at a concrete input: the Block of `a , b` is extended by `c`. -/
theorem sy_pop_comma_witness :
    (syop pos0 5).paren = 0 ∧
      operator_at (syop pos0 5).etype = .done
        { op := ",", operands := 2, id := opid1 ',', assoc := ASSOC_LEFT, prec := 1, flags := 0 } ∧
      (syexp pos0 (var_of "c" TYPE_FLOAT)).out = some (var_of "c" TYPE_FLOAT) ∧
      parser_sy_pop (clean_state [])
          { out := [] ++ [syblock pos0 (.block pos0 TYPE_VECTOR []
              [var_of "a" TYPE_FLOAT, var_of "b" TYPE_VECTOR]), syexp pos0 (var_of "c" TYPE_FLOAT)],
            ops := [] ++ [syop pos0 5] } =
        .done (true, clean_state [],
          { out := [] ++ [syblock pos0 (.block pos0 (var_of "c" TYPE_FLOAT).vtype []
              ([var_of "a" TYPE_FLOAT, var_of "b" TYPE_VECTOR] ++ [var_of "c" TYPE_FLOAT]))],
            ops := [] }) :=
  ⟨rfl, rfl, rfl,
    (sy_pop_comma (clean_state []) [] [] (syop pos0 5)
      (syblock pos0 (.block pos0 TYPE_VECTOR [] [var_of "a" TYPE_FLOAT, var_of "b" TYPE_VECTOR]))
      (syexp pos0 (var_of "c" TYPE_FLOAT)) _ (var_of "c" TYPE_FLOAT) rfl rfl rfl rfl).1
      pos0 TYPE_VECTOR [] [var_of "a" TYPE_FLOAT, var_of "b" TYPE_VECTOR] rfl rfl⟩

/-! ## The constant pool -/

/-- The loops of the three interning functions, written with the tests
`holds_float`, `holds_string` and `holds_vector`. -/
theorem const_float_eq (parser : parser_t) (d : qc_double) :
    parser_const_float parser d =
      match parser.imm_float.find? (holds_float d) with
      | some v => (v, parser)
      | none =>
        (immediate (parser_ctx parser) TYPE_FLOAT (.vfloat d),
          { parser with imm_float := parser.imm_float ++
            [immediate (parser_ctx parser) TYPE_FLOAT (.vfloat d)] }) :=
  rfl

/-- Sequencing after a returned value. -/
theorem bind_done {α β : Type} (a : α) (f : α → Outcome β) : (Outcome.done a).bind f = f a :=
  rfl

/-- A non-empty string is copied by `util_strdup`: the payload of a new
node is the string. -/
theorem string_payload_nonempty (s : String) (hs : s ≠ "") : string_payload s = .vstring s := by
  have hlen : s.length ≠ 0 := by
    intro h
    apply hs
    cases s with
    | mk data =>
      cases data with
      | nil => rfl
      | cons c cs => simp [String.length] at h
  unfold string_payload util_strdup _util_Estrdup
  simp only [hlen, ne_eq, not_false_eq_true, if_true]

/-- With no NULL string pooled, the loop of `parser_const_string` is the
search with `holds_string`. -/
theorem const_string_find_eq (s : String) (pool : List ast_expression)
    (h : ∀ v ∈ pool, v.constval ≠ .vnull) :
    const_string_find s pool = .done (pool.find? (holds_string s)) := by
  induction pool with
  | nil => rfl
  | cons v rest ih =>
    have hv := h v (List.mem_cons_self _ _)
    have ih2 := ih (fun w hw => h w (List.mem_cons_of_mem _ hw))
    unfold const_string_find
    rw [List.find?_cons]
    unfold holds_string
    cases hc : v.constval with
    | vnull => exact absurd hc hv
    | vstring x =>
      simp only []
      cases hx : x == s with
      | true => rfl
      | false =>
        simp only [Bool.false_eq_true, if_false]
        exact ih2
    | none => exact ih2
    | vfloat d => exact ih2
    | vvec w => exact ih2

/-- The call `parser_const_string(s)` for a non-empty `s` on a pool without
a NULL string, written with `holds_string`. -/
theorem const_string_eq (parser : parser_t) (s : String) (hs : s ≠ "")
    (hp : no_null_string parser) :
    parser_const_string parser s =
      .done (match parser.imm_string.find? (holds_string s) with
      | some v => (v, parser)
      | none =>
        (immediate (parser_ctx parser) TYPE_STRING (.vstring s),
          { parser with imm_string := parser.imm_string ++
            [immediate (parser_ctx parser) TYPE_STRING (.vstring s)] })) := by
  unfold parser_const_string
  rw [const_string_find_eq s _ hp, bind_done, string_payload_nonempty s hs]
  cases parser.imm_string.find? (holds_string s) <;> rfl

/-- The loop of `parser_const_vector`, written with `holds_vector`. -/
theorem const_vector_eq (parser : parser_t) (w : vector) :
    parser_const_vector parser w =
      match parser.imm_vector.find? (holds_vector w) with
      | some v => (v, parser)
      | none =>
        (immediate (parser_ctx parser) TYPE_VECTOR (.vvec w),
          { parser with imm_vector := parser.imm_vector ++
            [immediate (parser_ctx parser) TYPE_VECTOR (.vvec w)] }) :=
  rfl

/-- A node passes the test of the string pool exactly when it stores that
string. -/
theorem holds_string_iff (s : String) (v : ast_expression) :
    holds_string s v = true ↔ v.constval = .vstring s := by
  unfold holds_string
  cases h : v.constval <;> simp

/-- Interning a non-empty string leaves no NULL string in the pool. -/
theorem const_string_no_null (parser : parser_t) (s : String) (hp : no_null_string parser) :
    no_null_string (match parser.imm_string.find? (holds_string s) with
      | some v => (v, parser)
      | none =>
        (immediate (parser_ctx parser) TYPE_STRING (.vstring s),
          { parser with imm_string := parser.imm_string ++
            [immediate (parser_ctx parser) TYPE_STRING (.vstring s)] })).2 := by
  cases parser.imm_string.find? (holds_string s) with
  | some v => exact hp
  | none =>
    intro v hv
    rcases List.mem_append.mp hv with h | h
    · exact hp v h
    · rw [List.mem_singleton.mp h]
      simp [immediate, ast_expression.constval]

/-- Interning a non-empty string a second time returns the node and the
state of the first call. -/
theorem const_string_again (parser : parser_t) (s : String) (hs : s ≠ "")
    (hp : no_null_string parser) (r : ast_expression × parser_t)
    (hr : parser_const_string parser s = .done r) :
    parser_const_string r.2 s = .done r := by
  rw [const_string_eq parser s hs hp] at hr
  have hnn := const_string_no_null parser s hp
  cases h : parser.imm_string.find? (holds_string s) with
  | some v =>
    rw [h] at hr hnn
    cases hr
    rw [const_string_eq _ s hs hp, h]
  | none =>
    rw [h] at hr hnn
    cases hr
    rw [const_string_eq _ s hs hnn]
    have hnew : ∀ c, holds_string s (immediate c TYPE_STRING (.vstring s)) = true := by
      intro c
      simp [holds_string, immediate, ast_expression.constval]
    simp only [List.find?_append, h, Option.none_or, List.find?_cons, hnew, parser_ctx]

/-- C11, as far as it holds and where it fails: for a non-empty string `s`
and a pool without a NULL string, `parser_const_string(s)` returns a node
that stores `s`; each of `k` further calls in a row returns the same node and
leaves the state of the first call; the first call changes nothing but the
string pool, which it leaves as it is when a node storing `s` is pooled,
returning a pooled node, and to which it otherwise appends the returned node
as one new last entry.  For the empty string the new node stores NULL, the
result of `util_strdup("")`, and the next call, which compares that NULL
with `strcmp`, is undefined, whatever its string. -/
theorem const_string_interned :
    (∀ (parser : parser_t) (s : String) (k : Nat), s ≠ "" → no_null_string parser →
      ∃ r, parser_const_string parser s = .done r ∧
        r.1.constval = .vstring s ∧
        Nat.iterate (fun x => x.bind fun y => parser_const_string y.2 s) k
          (parser_const_string parser s) = .done r ∧
        r.2 = { parser with imm_string := r.2.imm_string } ∧
        no_null_string r.2 ∧
        ((∃ v ∈ parser.imm_string, v.constval = .vstring s) →
          r.2.imm_string = parser.imm_string ∧ r.1 ∈ parser.imm_string) ∧
        ((∀ v ∈ parser.imm_string, v.constval ≠ .vstring s) →
          r.2.imm_string = parser.imm_string ++ [r.1])) ∧
    string_interned (parser_const_string (clean_state []) "") = some (.vnull, [.vnull]) ∧
    is_undefined ((parser_const_string (clean_state []) "").bind fun r =>
      parser_const_string r.2 "") = true ∧
    is_undefined ((parser_const_string (clean_state []) "").bind fun r =>
      parser_const_string r.2 "a") = true := by
  refine ⟨?_, by decide!, by decide!, by decide!⟩
  intro parser s k hs hp
  have heq := const_string_eq parser s hs hp
  have hnn := const_string_no_null parser s hp
  refine ⟨_, heq, ?_, ?_, ?_, hnn, ?_, ?_⟩
  · cases h : parser.imm_string.find? (holds_string s) with
    | some v =>
      exact (holds_string_iff s v).mp (List.find?_some h)
    | none => rfl
  · induction k with
    | zero => exact heq
    | succ n ih =>
      rw [Function.iterate_succ_apply', ih, bind_done]
      exact const_string_again parser s hs hp _ heq
  · cases h : parser.imm_string.find? (holds_string s) <;> rfl
  · rintro ⟨v, hv, hvs⟩
    cases h : parser.imm_string.find? (holds_string s) with
    | some w => exact ⟨rfl, List.mem_of_find?_eq_some h⟩
    | none =>
      rw [List.find?_eq_none] at h
      exact absurd ((holds_string_iff s v).mpr hvs) (h v hv)
  · intro hall
    cases h : parser.imm_string.find? (holds_string s) with
    | some w =>
      exact absurd ((holds_string_iff s w).mp (List.find?_some h))
        (hall w (List.mem_of_find?_eq_some h))
    | none => rfl

/-- C13 (amended): `parser_const_float(d)` returns an already pooled node
exactly when some pooled node stores a float that compares equal to `d` under
the C comparison `==`, and then returns the first such node, the one before
which no node of the pool stores a float equal to `d`, and changes nothing;
otherwise it appends and returns a new node of type float, constant, named
`#IMMEDIATE`, that stores `d`. -/
theorem const_float_lookup (parser : parser_t) (d : qc_double) :
    ((∃ v ∈ parser.imm_float, ∃ x, v.constval = .vfloat x ∧ double_eq x d = true) →
      (parser_const_float parser d).2 = parser ∧
        (parser_const_float parser d).1 ∈ parser.imm_float ∧
        (∃ x, (parser_const_float parser d).1.constval = .vfloat x ∧ double_eq x d = true) ∧
        ∃ before after, parser.imm_float = before ++ (parser_const_float parser d).1 :: after ∧
          ∀ w ∈ before, ∀ x, w.constval = .vfloat x → double_eq x d = false) ∧
    ((∀ v ∈ parser.imm_float, ∀ x, v.constval = .vfloat x → double_eq x d = false) →
      (parser_const_float parser d).1 =
          .value (parser_ctx parser) "#IMMEDIATE" TYPE_FLOAT none [] true (.vfloat d) ∧
        (parser_const_float parser d).2 =
          { parser with imm_float := parser.imm_float ++ [(parser_const_float parser d).1] }) := by
  have hiff : ∀ v : ast_expression,
      holds_float d v = true ↔ ∃ x, v.constval = .vfloat x ∧ double_eq x d = true := by
    intro v
    unfold holds_float
    cases h : v.constval <;> simp
  constructor
  · rintro ⟨v, hv, x, hx, hd⟩
    rw [const_float_eq]
    cases h : parser.imm_float.find? (holds_float d) with
    | some w =>
      refine ⟨rfl, List.mem_of_find?_eq_some h, (hiff w).mp (List.find?_some h), ?_⟩
      obtain ⟨-, before, after, hsplit, hbefore⟩ := List.find?_eq_some.mp h
      refine ⟨before, after, hsplit, ?_⟩
      intro u hu y hy
      have hnot := hbefore u hu
      cases hdy : double_eq y d with
      | false => rfl
      | true =>
        have := (hiff u).mpr ⟨y, hy, hdy⟩
        rw [this] at hnot
        simp at hnot
    | none =>
      rw [List.find?_eq_none] at h
      exact absurd ((hiff v).mpr ⟨x, hx, hd⟩) (h v hv)
  · intro hall
    rw [const_float_eq]
    cases h : parser.imm_float.find? (holds_float d) with
    | some w =>
      obtain ⟨x, hx, hd⟩ := (hiff w).mp (List.find?_some h)
      rw [hall w (List.mem_of_find?_eq_some h) x hx] at hd
      cases hd
    | none => exact ⟨rfl, rfl⟩

/-- C13, counterexample: with `+0.0` pooled, `parser_const_float(-0.0)`
returns the pooled node, which stores `+0.0`, another bit pattern, and the
pool keeps its one entry; with a NaN pooled, interning the same bit pattern
again appends a second node. -/
theorem const_float_not_bitwise :
    (parser_const_float (parser_const_float (clean_state []) double_zero).2
        double_neg_zero).1.constval = .vfloat double_zero ∧
      (parser_const_float (parser_const_float (clean_state []) double_zero).2
        double_neg_zero).2.imm_float.length = 1 ∧
      double_zero ≠ double_neg_zero ∧
      (parser_const_float (parser_const_float (clean_state []) double_nan).2
        double_nan).2.imm_float.map (fun v => v.constval) =
          [.vfloat double_nan, .vfloat double_nan] := by
  exact ⟨by decide!, by decide!, by decide!, by decide!⟩

/-- The comparison `==` on doubles is Euclidean: two values equal to a third
are equal. -/
theorem double_eq_euclid (x y d : qc_double) (h1 : double_eq x d = true)
    (h2 : double_eq y d = true) : double_eq x y = true := by
  unfold double_eq at *
  cases hx : double_isnan x <;> cases hy : double_isnan y <;> cases hd : double_isnan d <;>
    simp [hx, hy, hd] at h1 h2 ⊢
  omega

/-- In a list without two entries that both pass a test, at most one entry
passes it. -/
theorem countP_le_one {α : Type} (P : α → Bool) (l : List α)
    (h : l.Pairwise (fun a b => ¬ (P a = true ∧ P b = true))) : l.countP P ≤ 1 := by
  induction l with
  | nil => simp
  | cons a l ih =>
    rw [List.pairwise_cons] at h
    rw [List.countP_cons]
    cases hp : P a with
    | false =>
      simp only [Bool.false_eq_true, if_false, Nat.add_zero]
      exact ih h.2
    | true =>
      have h0 : l.countP P = 0 := by
        rw [List.countP_eq_zero]
        intro b hb hpb
        exact h.1 b hb ⟨hp, hpb⟩
      simp [h0]

/-- A node passes the test of the vector pool exactly when it stores that
vector. -/
theorem holds_vector_iff (w : vector) (v : ast_expression) :
    holds_vector w v = true ↔ v.constval = .vvec w := by
  unfold holds_vector
  cases h : v.constval <;> simp

/-- Two nodes that both store a float equal to `d` store equal floats. -/
theorem same_float_of_holds (d : qc_double) (a b : ast_expression)
    (ha : holds_float d a = true) (hb : holds_float d b = true) : same_float a b = true := by
  unfold holds_float at ha hb
  unfold same_float
  cases hca : a.constval <;> rw [hca] at ha <;> simp at ha
  cases hcb : b.constval <;> rw [hcb] at hb <;> simp at hb
  exact double_eq_euclid _ _ d ha hb

/-- A node that fails the test for `d` differs from a node storing `d`. -/
theorem same_float_new (d : qc_double) (a : ast_expression) (c : lex_ctx)
    (ha : holds_float d a = false) :
    same_float a (immediate c TYPE_FLOAT (.vfloat d)) = false := by
  unfold holds_float at ha
  unfold same_float
  cases hca : a.constval
  all_goals rw [hca] at ha
  all_goals simp [immediate, ast_expression.constval] at ha ⊢
  exact ha

/-- The state that interning a float leaves. -/
theorem interned_float (p : parser_t) (d : qc_double) :
    interned p (.float d) = (parser_const_float p d).2 :=
  rfl

/-- The state that interning a vector leaves. -/
theorem interned_vec (p : parser_t) (w : vector) :
    interned p (.vec w) = (parser_const_vector p w).2 :=
  rfl

/-- The state that interning a non-empty string leaves in a pool without a
NULL string. -/
theorem interned_string (p : parser_t) (s : String) (hs : s ≠ "") (hp : no_null_string p) :
    interned p (.string s) =
      (match p.imm_string.find? (holds_string s) with
      | some v => (v, p)
      | none =>
        (immediate (parser_ctx p) TYPE_STRING (.vstring s),
          { p with imm_string := p.imm_string ++
            [immediate (parser_ctx p) TYPE_STRING (.vstring s)] })).2 := by
  unfold interned intern
  simp only []
  rw [const_string_eq p s hs hp]
  rfl

/-- An interning call other than of the empty string returns on a pool
without a NULL string, and leaves such a pool. -/
theorem intern_done (p : parser_t) (c : const_call) (hc : c ≠ .string "")
    (hp : no_null_string p) :
    intern p c = .done (interned p c) ∧ no_null_string (interned p c) := by
  cases c with
  | float d =>
    refine ⟨rfl, ?_⟩
    rw [interned_float, const_float_eq]
    cases p.imm_float.find? (holds_float d) <;> exact hp
  | string s =>
    have hs : s ≠ "" := fun e => hc (by rw [e])
    constructor
    · rw [interned_string p s hs hp]
      unfold intern
      simp only []
      rw [const_string_eq p s hs hp]
      rfl
    · rw [interned_string p s hs hp]
      exact const_string_no_null p s hp
  | vec w =>
    refine ⟨rfl, ?_⟩
    rw [interned_vec, const_vector_eq]
    cases p.imm_vector.find? (holds_vector w) <;> exact hp

/-- One interning call keeps the pools free of equal entries. -/
theorem pools_distinct_intern (p : parser_t) (c : const_call) (hc : c ≠ .string "")
    (hp : no_null_string p) (h : pools_distinct p) :
    pools_distinct (interned p c) := by
  obtain ⟨hf, hs, hv⟩ := h
  cases c with
  | float d =>
    rw [interned_float, const_float_eq]
    cases hfind : p.imm_float.find? (holds_float d) with
    | some w => exact ⟨hf, hs, hv⟩
    | none =>
      refine ⟨?_, hs, hv⟩
      simp only
      rw [List.pairwise_append]
      refine ⟨hf, List.pairwise_singleton _ _, ?_⟩
      intro a ha b hb
      rw [List.mem_singleton] at hb
      rw [hb]
      rw [List.find?_eq_none] at hfind
      exact same_float_new d a _ (by simpa using hfind a ha)
  | string s =>
    have hne : s ≠ "" := fun e => hc (by rw [e])
    rw [interned_string p s hne hp]
    cases hfind : p.imm_string.find? (holds_string s) with
    | some w => exact ⟨hf, hs, hv⟩
    | none =>
      refine ⟨hf, ?_, hv⟩
      simp only
      rw [List.pairwise_append]
      refine ⟨hs, List.pairwise_singleton _ _, ?_⟩
      intro a ha b hb
      rw [List.mem_singleton] at hb
      rw [hb]
      rw [List.find?_eq_none] at hfind
      intro heq
      exact hfind a ha ((holds_string_iff s a).mpr heq)
  | vec w =>
    rw [interned_vec, const_vector_eq]
    cases hfind : p.imm_vector.find? (holds_vector w) with
    | some w => exact ⟨hf, hs, hv⟩
    | none =>
      refine ⟨hf, hs, ?_⟩
      simp only
      rw [List.pairwise_append]
      refine ⟨hv, List.pairwise_singleton _ _, ?_⟩
      intro a ha b hb
      rw [List.mem_singleton] at hb
      rw [hb]
      rw [List.find?_eq_none] at hfind
      intro heq
      exact hfind a ha ((holds_vector_iff w a).mpr heq)

/-- One interning call only appends to the pools. -/
theorem intern_appends (p : parser_t) (c : const_call) (hc : c ≠ .string "")
    (hp : no_null_string p) :
    (∃ e, (interned p c).imm_float = p.imm_float ++ e) ∧
      (∃ e, (interned p c).imm_string = p.imm_string ++ e) ∧
      (∃ e, (interned p c).imm_vector = p.imm_vector ++ e) := by
  cases c with
  | float d =>
    rw [interned_float, const_float_eq]
    cases hfind : p.imm_float.find? (holds_float d) with
    | some w => exact ⟨⟨[], by simp⟩, ⟨[], by simp⟩, ⟨[], by simp⟩⟩
    | none => exact ⟨⟨_, rfl⟩, ⟨[], by simp⟩, ⟨[], by simp⟩⟩
  | string s =>
    have hne : s ≠ "" := fun e => hc (by rw [e])
    rw [interned_string p s hne hp]
    cases hfind : p.imm_string.find? (holds_string s) with
    | some w => exact ⟨⟨[], by simp⟩, ⟨[], by simp⟩, ⟨[], by simp⟩⟩
    | none => exact ⟨⟨[], by simp⟩, ⟨_, rfl⟩, ⟨[], by simp⟩⟩
  | vec w =>
    rw [interned_vec, const_vector_eq]
    cases hfind : p.imm_vector.find? (holds_vector w) with
    | some w => exact ⟨⟨[], by simp⟩, ⟨[], by simp⟩, ⟨[], by simp⟩⟩
    | none => exact ⟨⟨[], by simp⟩, ⟨[], by simp⟩, ⟨_, rfl⟩⟩

/-- After its interning call a literal that equals itself has a node. -/
theorem intern_holds (p : parser_t) (hp : no_null_string p) :
    (∀ d, double_eq d d = true → 0 < (interned p (.float d)).imm_float.countP (holds_float d)) ∧
      (∀ s, s ≠ "" → 0 < (interned p (.string s)).imm_string.countP (holds_string s)) ∧
      (∀ w, 0 < (interned p (.vec w)).imm_vector.countP (holds_vector w)) := by
  refine ⟨?_, ?_, ?_⟩
  · intro d hd
    rw [List.countP_pos_iff]
    rw [interned_float, const_float_eq]
    cases hfind : p.imm_float.find? (holds_float d) with
    | some w => exact ⟨w, List.mem_of_find?_eq_some hfind, List.find?_some hfind⟩
    | none =>
      refine ⟨immediate (parser_ctx p) TYPE_FLOAT (.vfloat d), by simp, ?_⟩
      simpa [holds_float, immediate, ast_expression.constval] using hd
  · intro s hs
    rw [List.countP_pos_iff]
    rw [interned_string p s hs hp]
    cases hfind : p.imm_string.find? (holds_string s) with
    | some w => exact ⟨w, List.mem_of_find?_eq_some hfind, List.find?_some hfind⟩
    | none =>
      refine ⟨immediate (parser_ctx p) TYPE_STRING (.vstring s), by simp, ?_⟩
      simp [holds_string, immediate, ast_expression.constval]
  · intro w
    rw [List.countP_pos_iff]
    rw [interned_vec, const_vector_eq]
    cases hfind : p.imm_vector.find? (holds_vector w) with
    | some v => exact ⟨v, List.mem_of_find?_eq_some hfind, List.find?_some hfind⟩
    | none =>
      refine ⟨immediate (parser_ctx p) TYPE_VECTOR (.vvec w), by simp, ?_⟩
      simp [holds_vector, immediate, ast_expression.constval]

/-- A sequence of interning calls without the empty string returns; it
keeps the pools free of equal entries, and keeps a node for every literal
that had one or is interned on the way. -/
theorem intern_all_invariant (calls : List const_call) :
    ∀ p : parser_t, no_null_string p → pools_distinct p → .string "" ∉ calls →
      ∃ q, intern_all p calls = .done q ∧
      pools_distinct q ∧
      (∀ d, (.float d ∈ calls ∧ double_eq d d = true) ∨ 0 < p.imm_float.countP (holds_float d) →
        0 < q.imm_float.countP (holds_float d)) ∧
      (∀ s, .string s ∈ calls ∨ 0 < p.imm_string.countP (holds_string s) →
        0 < q.imm_string.countP (holds_string s)) ∧
      (∀ w, .vec w ∈ calls ∨ 0 < p.imm_vector.countP (holds_vector w) →
        0 < q.imm_vector.countP (holds_vector w)) := by
  induction calls with
  | nil =>
    intro p _ hp _
    refine ⟨p, rfl, hp, ?_, ?_, ?_⟩
    · intro d h
      rcases h with h | h
      · simp at h
      · exact h
    · intro s h
      rcases h with h | h
      · simp at h
      · exact h
    · intro w h
      rcases h with h | h
      · simp at h
      · exact h
  | cons c cs ih =>
    intro p hnull hp hne
    have hc : c ≠ .string "" := fun e => hne (by rw [e]; exact List.mem_cons_self _ _)
    have hcs : .string "" ∉ cs := fun h => hne (List.mem_cons_of_mem _ h)
    obtain ⟨hdone, hnull2⟩ := intern_done p c hc hnull
    obtain ⟨q, hq, hinv, hfl, hst, hve⟩ :=
      ih (interned p c) hnull2 (pools_distinct_intern p c hc hnull hp) hcs
    obtain ⟨⟨ef, hef⟩, ⟨es, hes⟩, ⟨ev, hev⟩⟩ := intern_appends p c hc hnull
    obtain ⟨hnf, hns, hnv⟩ := intern_holds p hnull
    have hrun : intern_all p (c :: cs) = .done q := by
      rw [intern_all, hdone, bind_done, hq]
    refine ⟨q, hrun, hinv, ?_, ?_, ?_⟩
    · intro d h
      apply hfl d
      rcases h with ⟨hmem, hd⟩ | h
      · rcases List.mem_cons.mp hmem with heq | hin
        · right
          rw [← heq]
          exact hnf d hd
        · exact Or.inl ⟨hin, hd⟩
      · right
        rw [hef, List.countP_append]
        omega
    · intro s h
      apply hst s
      rcases h with hmem | h
      · rcases List.mem_cons.mp hmem with heq | hin
        · right
          rw [← heq]
          exact hns s (fun e => hc (by rw [← heq, e]))
        · exact Or.inl hin
      · right
        rw [hes, List.countP_append]
        omega
    · intro w h
      apply hve w
      rcases h with hmem | h
      · rcases List.mem_cons.mp hmem with heq | hin
        · right
          rw [← heq]
          exact hnv w
        · exact Or.inl hin
      · right
        rw [hev, List.countP_append]
        omega

/-- C12 (amended): starting from empty pools, every sequence of
`parser_const_float`, `parser_const_string` and `parser_const_vector` calls
without the empty string returns, and afterwards no pool has two entries that
are equal under the comparison of its lookup (`==` for floats, byte equality
for strings, equality of the three bit patterns for vectors), and every
interned string, every interned vector and every interned float that compares
equal to itself has exactly one node in its pool. -/
theorem pools_hold_literals_once (parser : parser_t) (calls : List const_call)
    (hne : .string "" ∉ calls) :
    ∃ q, intern_all (empty_pools parser) calls = .done q ∧
    pools_distinct q ∧
    (∀ d, .float d ∈ calls → double_eq d d = true →
      q.imm_float.countP (holds_float d) = 1) ∧
    (∀ s, .string s ∈ calls → q.imm_string.countP (holds_string s) = 1) ∧
    (∀ w, .vec w ∈ calls → q.imm_vector.countP (holds_vector w) = 1) := by
  have hempty : pools_distinct (empty_pools parser) :=
    ⟨List.Pairwise.nil, List.Pairwise.nil, List.Pairwise.nil⟩
  have hnull : no_null_string (empty_pools parser) := by
    intro v hv
    cases hv
  obtain ⟨q, hq, hinv, hfl, hst, hve⟩ :=
    intern_all_invariant calls (empty_pools parser) hnull hempty hne
  obtain ⟨hpf, hps, hpv⟩ := hinv
  refine ⟨q, hq, ⟨hpf, hps, hpv⟩, ?_, ?_, ?_⟩
  · intro d hmem hd
    have h1 := hfl d (Or.inl ⟨hmem, hd⟩)
    have h2 : q.imm_float.countP (holds_float d) ≤ 1 := by
      apply countP_le_one
      refine List.Pairwise.imp ?_ hpf
      intro a b hab hboth
      rw [same_float_of_holds d a b hboth.1 hboth.2] at hab
      cases hab
    omega
  · intro s hmem
    have h1 := hst s (Or.inl hmem)
    have h2 : q.imm_string.countP (holds_string s) ≤ 1 := by
      apply countP_le_one
      refine List.Pairwise.imp ?_ hps
      intro a b hab hboth
      exact hab (((holds_string_iff s a).mp hboth.1).trans ((holds_string_iff s b).mp hboth.2).symm)
    omega
  · intro w hmem
    have h1 := hve w (Or.inl hmem)
    have h2 : q.imm_vector.countP (holds_vector w) ≤ 1 := by
      apply countP_le_one
      refine List.Pairwise.imp ?_ hpv
      intro a b hab hboth
      exact hab (((holds_vector_iff w a).mp hboth.1).trans ((holds_vector_iff w b).mp hboth.2).symm)
    omega

/-- C12 (amended), at a concrete input: from the empty pools the calls for
`"a"`, `1.0`, `"b"`, `"a"` return and leave one float and two strings. -/
theorem pools_hold_literals_once_witness :
    const_call.string "" ∉ [const_call.string "a", .float ⟨0x3FF0000000000000⟩, .string "b",
        .string "a"] ∧
      (∃ q, intern_all (empty_pools (clean_state []))
          [.string "a", .float ⟨0x3FF0000000000000⟩, .string "b", .string "a"] = .done q ∧
        pools_distinct q ∧
        (∀ d, .float d ∈ [const_call.string "a", .float ⟨0x3FF0000000000000⟩, .string "b",
            .string "a"] → double_eq d d = true → q.imm_float.countP (holds_float d) = 1) ∧
        (∀ s, .string s ∈ [const_call.string "a", .float ⟨0x3FF0000000000000⟩, .string "b",
            .string "a"] → q.imm_string.countP (holds_string s) = 1) ∧
        (∀ w, .vec w ∈ [const_call.string "a", .float ⟨0x3FF0000000000000⟩, .string "b",
            .string "a"] → q.imm_vector.countP (holds_vector w) = 1)) ∧
      pools_of (intern_all (empty_pools (clean_state []))
          [.string "a", .float ⟨0x3FF0000000000000⟩, .string "b", .string "a"]) =
        some ([.vfloat ⟨0x3FF0000000000000⟩], [.vstring "a", .vstring "b"], []) :=
  ⟨by decide,
    pools_hold_literals_once (clean_state [])
      [.string "a", .float ⟨0x3FF0000000000000⟩, .string "b", .string "a"] (by decide),
    by decide!⟩

/-- C12, counterexample: after interning the vectors `(+0.0, 0, 0)` and
`(-0.0, 0, 0)` the vector pool has two nodes whose payloads are equal
component by component; after interning one NaN twice the float pool has two
nodes with that payload. -/
theorem pool_holds_equal_vectors :
    pools_of (intern_all (clean_state []) [.vec ⟨0, 0, 0⟩, .vec ⟨2 ^ 31, 0, 0⟩]) =
        some ([], [], [.vvec ⟨0, 0, 0⟩, .vvec ⟨2 ^ 31, 0, 0⟩]) ∧
      vector_componentwise_eq ⟨0, 0, 0⟩ ⟨2 ^ 31, 0, 0⟩ = true ∧
      pools_of (intern_all (clean_state []) [.float double_nan, .float double_nan]) =
        some ([.vfloat double_nan, .vfloat double_nan], [], []) := by
  exact ⟨by decide!, by decide!, by decide!⟩

/-! ## Initializers -/

/-- Changing the last entry of a list. -/
theorem modify_last {α : Type} (f : α → α) (l : List α) (a : α) :
    List.modify f l.length (l ++ [a]) = l ++ [f a] := by
  induction l with
  | nil => rfl
  | cons b l ih => simp [ih]

/-- The Function that `variable_register` creates for a function-typed
declarator, and the Value it is bound to. -/
theorem register_function (p1 : parser_t) (lb : Option ast_expression) (ctx c : lex_ctx)
    (t : qc_type) (ps : List ast_expression) :
    (variable_register p1 lb ctx (.value c "<unnamed>" t none ps false .none) true).var =
        .value ctx (parser_tokval p1) TYPE_FUNCTION
          (some (.value c (parser_tokval p1) t none [] false .none)) ps false .none ∧
      (variable_register p1 lb ctx (.value c "<unnamed>" t none ps false .none) true).func =
        some p1.functions.length ∧
      (variable_register p1 lb ctx (.value c "<unnamed>" t none ps false .none)
        true).parser.functions =
        p1.functions ++ [⟨ctx, parser_tokval p1,
          .value ctx (parser_tokval p1) TYPE_FUNCTION
            (some (.value c (parser_tokval p1) t none [] false .none)) ps false .none,
          0, []⟩] := by
  unfold variable_register
  cases lb <;> simp [ast_value_set_name, function_value, ast_expression.name, ast_function_new]

/-- For a declarator that is no function `variable_register` creates no
Function. -/
theorem register_no_function (p1 : parser_t) (lb : Option ast_expression) (ctx : lex_ctx)
    (var0 : ast_expression) :
    (variable_register p1 lb ctx var0 false).func = none ∧
      (variable_register p1 lb ctx var0 false).parser.functions = p1.functions := by
  unfold variable_register
  cases lb <;> simp

/-- Registering a declarator adds no error. -/
theorem register_errors (p1 : parser_t) (lb : Option ast_expression) (ctx : lex_ctx)
    (var0 : ast_expression) (isfunc : Bool) :
    (variable_register p1 lb ctx var0 isfunc).parser.errors = p1.errors := by
  unfold variable_register
  cases isfunc <;> cases lb <;> rfl

/-- One round of the loop of `parser_variable` up to the initializer `= #`:
the declarator is registered and the builtin number is read by
`variable_builtin`; after an error the declaration fails, otherwise a `;`
ends it and a `,` starts the next round. -/
theorem variable_loop_builtin_step (fuel : Nat) (parser : parser_t)
    (lb : Option ast_expression) (basetype : qc_type) (var0 : ast_expression) (isfunc : Bool)
    (p1 : parser_t)
    (hn : (parser_next parser).1 = true)
    (ht : parser_parse_type (parser_next parser).2 basetype = .done (some var0, isfunc, p1))
    (hid : p1.tok = TOKEN_IDENT)
    (hglobal : lb.isNone = true → parser_find_global p1 (parser_tokval p1) = none)
    (hlocal : lb.isSome = true →
      parser_find_local p1 (parser_tokval p1) p1.blocklocal = .done none)
    (heq : (parser_next p1).2.tok = ch '=')
    (hhash : (parser_next (parser_next p1).2).2.tok = ch '#')
    (d : declarator)
    (hd : d = variable_register p1 lb (parser_ctx (parser_next parser).2) var0 isfunc)
    (after : Bool × parser_t)
    (hafter : after = variable_builtin (parser_next (parser_next d.parser).2).2 lb d.func) :
    (after.1 = false →
      variable_loop (fuel + 1) parser lb basetype = .done (false, d.localblock, after.2)) ∧
    (after.1 = true → (parser_next after.2).2.tok = ch ';' →
      variable_loop (fuel + 1) parser lb basetype =
        .done (true, d.localblock, (parser_next (parser_next after.2).2).2)) ∧
    (after.1 = true → (parser_next after.2).2.tok = ch ',' →
      variable_loop (fuel + 1) parser lb basetype =
        variable_loop fuel (parser_next after.2).2 d.localblock basetype) := by
  have hlex := parser_next_lex _ _ (register_lex p1 lb (parser_ctx (parser_next parser).2) var0 isfunc)
  rw [← hd] at hlex
  have h1 := hlex.2.1.trans heq
  have h1ok := parser_next_ok _ _ h1
  have hlex2 := parser_next_lex _ _ hlex.2.2
  have h2 := hlex2.2.1.trans hhash
  have h2ok := parser_next_ok _ _ h2
  have hne1 : ch '=' ≠ ch ';' := by decide
  have hne2 : ch '=' ≠ ch ',' := by decide
  have hne3 : ch '#' ≠ ch '{' := by decide
  refine ⟨?_, ?_, ?_⟩
  · intro ha
    rw [variable_loop]
    cases lb with
    | none =>
      have hgl := hglobal rfl
      simp only [hn, ht, hid, hgl, Outcome.bind]
      simp [← hd, h1, h1ok, h2, h2ok, hne1, hne2, hne3, ← hafter, ha]
    | some b =>
      have hlo := hlocal rfl
      simp only [hn, ht, hid, hlo, Outcome.bind]
      simp [← hd, h1, h1ok, h2, h2ok, hne1, hne2, hne3, ← hafter, ha]
  · intro ha hsemi
    have h3ok := parser_next_ok _ _ hsemi
    rw [variable_loop]
    cases lb with
    | none =>
      have hgl := hglobal rfl
      simp only [hn, ht, hid, hgl, Outcome.bind]
      simp [← hd, h1, h1ok, h2, h2ok, hne1, hne2, hne3, ← hafter, ha, hsemi, h3ok]
    | some b =>
      have hlo := hlocal rfl
      simp only [hn, ht, hid, hlo, Outcome.bind]
      simp [← hd, h1, h1ok, h2, h2ok, hne1, hne2, hne3, ← hafter, ha, hsemi, h3ok]
  · intro ha hcomma
    have h3ok := parser_next_ok _ _ hcomma
    rw [variable_loop]
    cases lb with
    | none =>
      have hgl := hglobal rfl
      simp only [hn, ht, hid, hgl, Outcome.bind]
      simp [← hd, h1, h1ok, h2, h2ok, hne1, hne2, hne3, ← hafter, ha, hcomma, h3ok]
    | some b =>
      have hlo := hlocal rfl
      simp only [hn, ht, hid, hlo, Outcome.bind]
      simp [← hd, h1, h1ok, h2, h2ok, hne1, hne2, hne3, ← hafter, ha, hcomma, h3ok]

/-- Reading the next token of a given input. -/
theorem parser_next_cons (p : parser_t) (t : token) (ts : List token)
    (h : p.lex.input = t :: ts) :
    (parser_next p).2.tok = t.ttype ∧ (parser_next p).2.lex.tok = t ∧
      (parser_next p).2.lex.input = ts ∧
      (parser_next p).1 = !(t.ttype == TOKEN_EOF || t.ttype.is_error) ∧
      same_scope p (parser_next p).2 ∧ (parser_next p).2.errors = p.errors := by
  unfold parser_next lex_do
  simp [h, same_scope]

/-- C15: a round of `parser_variable` at top level that has read a
function-typed declarator `name` followed by `= # N ;` with an integer
constant `N > 0` returns true; it has appended to the globals one entry
`name` whose Value has type function, the parsed parameter list and the
parsed Value of the base type as return type, and to the functions one
Function bound to that Value, with builtin index `-N` and no blocks. -/
theorem builtin_recorded (fuel : Nat) (parser : parser_t) (basetype : qc_type)
    (var0 : ast_expression) (p1 : parser_t) (teq thash tint tsemi : token) (rest : List token)
    (hn : (parser_next parser).1 = true)
    (ht : parser_parse_type (parser_next parser).2 basetype = .done (some var0, true, p1))
    (hid : p1.tok = TOKEN_IDENT)
    (hglobal : parser_find_global p1 (parser_tokval p1) = none)
    (hinput : p1.lex.input = teq :: thash :: tint :: tsemi :: rest)
    (heq : teq.ttype = ch '=') (hhash : thash.ttype = ch '#')
    (hint : tint.ttype = TOKEN_INTCONST) (hpos : 0 < tint.constval_i)
    (hsemi : tsemi.ttype = ch ';') :
    ∃ fval q, variable_loop (fuel + 1) parser none basetype = .done (true, none, q) ∧
      fval.name = parser_tokval p1 ∧ fval.vtype = TYPE_FUNCTION ∧
      fval.params = var0.params ∧
      (∃ r, fval.next = some r ∧ r.vtype = basetype ∧ r.params = []) ∧
      q.globals = parser.globals ++ [⟨parser_tokval p1, fval⟩] ∧
      q.functions = parser.functions ++
        [⟨parser_ctx (parser_next parser).2, parser_tokval p1, fval, -tint.constval_i, []⟩] ∧
      q.errors = p1.errors := by
  obtain ⟨hs, hv⟩ := (parse_type_frame _).1 _ _ _ _ _ ht
  obtain ⟨c, ps, rfl⟩ := hv var0 rfl
  obtain ⟨hg, -, -, hfs, -⟩ := hs
  simp only [(same_scope_next parser).1] at hg
  simp only [(same_scope_next parser).2.2.2.1] at hfs
  obtain ⟨hvar, hfunc, hfuns⟩ :=
    register_function p1 none (parser_ctx (parser_next parser).2) c basetype ps
  obtain ⟨-, -, hglob, -, hblock⟩ :=
    register_scope p1 none (parser_ctx (parser_next parser).2) c basetype ps true
  have hdlex := register_lex p1 none (parser_ctx (parser_next parser).2)
    (.value c "<unnamed>" basetype none ps false .none) true
  have herr := register_errors p1 none (parser_ctx (parser_next parser).2)
    (.value c "<unnamed>" basetype none ps false .none) true
  generalize hd : variable_register p1 none (parser_ctx (parser_next parser).2)
    (.value c "<unnamed>" basetype none ps false .none) true = d at *
  -- the tokens `=`, `#`, `N`, `;`
  obtain ⟨a1, -, a3, -, a5, a6⟩ := parser_next_cons p1 _ _ hinput
  obtain ⟨b1, -, b3, -, -, -⟩ := parser_next_cons (parser_next p1).2 _ _ a3
  obtain ⟨c1, -, c3, -, c5, c6⟩ := parser_next_cons d.parser _ _ ((congrArg lex_file.input hdlex).trans hinput)
  obtain ⟨e1, -, e3, -, e5, e6⟩ := parser_next_cons (parser_next d.parser).2 _ _ c3
  obtain ⟨f1, f2, f3, f4, f5, f6⟩ :=
    parser_next_cons (parser_next (parser_next d.parser).2).2 _ _ e3
  have hbuilt : variable_builtin (parser_next (parser_next d.parser).2).2 none d.func =
      (true, { (parser_next (parser_next (parser_next d.parser).2).2).2 with
        functions := set_builtin (parser_next (parser_next (parser_next d.parser).2).2).2.functions
          p1.functions.length (-tint.constval_i) }) := by
    unfold variable_builtin
    have hnotle : ¬ tint.constval_i ≤ 0 := by omega
    simp [hfunc, f1, f2, f4, hint, hnotle, tok_type.is_error]
  obtain ⟨-, hstep, -⟩ := variable_loop_builtin_step fuel parser none basetype _ true p1 hn ht hid
    (fun _ => hglobal) (fun h => by cases h) (a1.trans heq) (b1.trans hhash) d hd.symm _ rfl
  rw [hbuilt] at hstep
  have hnext : (parser_next { (parser_next (parser_next (parser_next d.parser).2).2).2 with
      functions := set_builtin (parser_next (parser_next (parser_next d.parser).2).2).2.functions
        p1.functions.length (-tint.constval_i) }).2.tok = ch ';' := by
    have := (parser_next_cons { (parser_next (parser_next (parser_next d.parser).2).2).2 with
      functions := set_builtin (parser_next (parser_next (parser_next d.parser).2).2).2.functions
        p1.functions.length (-tint.constval_i) } tsemi rest f3).1
    exact this.trans hsemi
  have hres := hstep rfl hnext
  have hfunsd : (parser_next (parser_next (parser_next d.parser).2).2).2.functions =
      d.parser.functions := by
    rw [f5.2.2.2.1, e5.2.2.2.1, c5.2.2.2.1]
  have hglobd : (parser_next (parser_next (parser_next d.parser).2).2).2.globals =
      d.parser.globals := by
    rw [f5.1, e5.1, c5.1]
  refine ⟨d.var, (parser_next (parser_next
    { (parser_next (parser_next (parser_next d.parser).2).2).2 with
      functions := set_builtin (parser_next (parser_next (parser_next d.parser).2).2).2.functions
        p1.functions.length (-tint.constval_i) }).2).2, ?_, ?_, ?_, ?_, ?_, ?_, ?_, ?_⟩
  · rw [hres, hblock]
    rfl
  · rw [hvar]
    rfl
  · rw [hvar]
    rfl
  · rw [hvar]
    rfl
  · rw [hvar]
    exact ⟨_, rfl, rfl, rfl⟩
  · show (parser_next (parser_next (parser_next d.parser).2).2).2.globals = _
    rw [hglobd, hglob, hg]
    simp [var_entries, hvar, ast_expression.vtype, ast_expression.name]
  · show set_builtin (parser_next (parser_next (parser_next d.parser).2).2).2.functions
      p1.functions.length (-tint.constval_i) = _
    rw [hfunsd, hfuns, hfs]
    unfold set_builtin
    rw [modify_last, hvar]
  · show (parser_next (parser_next (parser_next d.parser).2).2).2.errors = _
    rw [f6, e6, c6, herr]

/-- C15, at a concrete input: the declaration `void(string) bprint = #1;`
gives a global `bprint` of type function with one unnamed string parameter,
and a Function with builtin index `-1` and no blocks. -/
theorem builtin_recorded_witness :
    (parser_next bprint_state).1 = true ∧
      parser_parse_type (parser_next bprint_state).2 TYPE_VOID =
        .done (some (.value pos0 "<unnamed>" TYPE_VOID none
          [ast_value_new pos0 "<unnamed>" TYPE_STRING] false .none), true, bprint_ident_state) ∧
      bprint_ident_state.tok = TOKEN_IDENT ∧
      parser_find_global bprint_ident_state (parser_tokval bprint_ident_state) = none ∧
      bprint_ident_state.lex.input = tk_ch '=' :: tk_ch '#' :: tk_int "1" 1 :: tk_ch ';' :: [] ∧
      ∃ fval q, variable_loop (0 + 1) bprint_state none TYPE_VOID = .done (true, none, q) ∧
        fval.name = parser_tokval bprint_ident_state ∧ fval.vtype = TYPE_FUNCTION ∧
        fval.params = (ast_expression.value pos0 "<unnamed>" TYPE_VOID none
          [ast_value_new pos0 "<unnamed>" TYPE_STRING] false .none).params ∧
        (∃ r, fval.next = some r ∧ r.vtype = TYPE_VOID ∧ r.params = []) ∧
        q.globals = bprint_state.globals ++ [⟨parser_tokval bprint_ident_state, fval⟩] ∧
        q.functions = bprint_state.functions ++
          [⟨parser_ctx (parser_next bprint_state).2, parser_tokval bprint_ident_state, fval,
            -(tk_int "1" 1).constval_i, []⟩] ∧
        q.errors = bprint_ident_state.errors :=
  ⟨rfl, rfl, rfl, rfl, rfl,
    builtin_recorded 0 bprint_state TYPE_VOID _ bprint_ident_state (tk_ch '=') (tk_ch '#')
      (tk_int "1" 1) (tk_ch ';') [] rfl rfl rfl rfl rfl rfl rfl rfl (by decide) rfl⟩

/-- C17, evaluated: inside a function body the initializer `= {` is rejected
with an error (`void() f = { float() g = { } }` does not compile), but at top
level `float x = { }` is not rejected: the block is parsed with no active
function and is then added to the Function of `x`, which is NULL. -/
theorem body_of_non_function_not_rejected :
    compiled (parser_compile parser_cleared (body_open tk_void "f" ++
        [tk_float, tk_ch '(', tk_ch ')', tk_ident "g", tk_ch '=', tk_ch '{', tk_ch '}',
          tk_ch '}'])) = some (false, 2, ["f"], [(0, []), (0, [])]) ∧
      is_undefined (parser_compile parser_cleared [tk_float, tk_ident "x", tk_ch '=', tk_ch '{', tk_ch '}']) =
        true ∧
      is_undefined (parser_variable
        (parser_next (clean_state [tk_float, tk_ident "x", tk_ch '=', tk_ch '{', tk_ch '}'])).2
        none) = true := by
  exact ⟨by decide!, by decide!, by decide!⟩

/-- C18, evaluated: with float variables `a`, `b`, `c`, `parser_expression`
returns NULL with one error for `a - b - c ;`, for `a + b + c ;` and for
`a * b + c ;`: the arriving operator reduces the one on the stack, the stack
is then empty, and the reduction is tried once more.  Below a pending `=`
the same chain is reduced to the left: `a = a - b - c ;` gives a Store of
`SUB_F(SUB_F(a, b), c)`. -/
theorem arithmetic_chain_fails :
    returned_null (parser_expression (call_state
        [tk_ident "a", tk_op "-", tk_ident "b", tk_op "-", tk_ident "c", tk_ch ';', tk_ch '}']))
        = true ∧
      errors_after (parser_expression (call_state
        [tk_ident "a", tk_op "-", tk_ident "b", tk_op "-", tk_ident "c", tk_ch ';', tk_ch '}']))
        = some 1 ∧
      returned_null (parser_expression (call_state
        [tk_ident "a", tk_op "+", tk_ident "b", tk_op "+", tk_ident "c", tk_ch ';', tk_ch '}']))
        = true ∧
      returned_null (parser_expression (call_state
        [tk_ident "a", tk_op "*", tk_ident "b", tk_op "+", tk_ident "c", tk_ch ';', tk_ch '}']))
        = true ∧
      left_chain (parser_expression (call_state
        [tk_ident "a", tk_op "=", tk_ident "a", tk_op "-", tk_ident "b", tk_op "-", tk_ident "c",
          tk_ch ';', tk_ch '}'])) = some [INSTR_STORE_F, INSTR_SUB_F, INSTR_SUB_F] := by
  exact ⟨by decide!, by decide!, by decide!, by decide!, by decide!⟩

/-! ## Frames of the expression parser -/

/-- A returned value has the property. -/
theorem sat_done {α : Type} (P : α → Prop) (a : α) : (Outcome.done a).sat P ↔ P a :=
  Iff.rfl

/-- Sequencing: the first call establishes `Q`, under which the rest
establishes `P`. -/
theorem sat_bind {α β : Type} (x : Outcome α) (f : α → Outcome β) (Q : α → Prop)
    (P : β → Prop) (hx : x.sat Q) (hf : ∀ a, Q a → (f a).sat P) : (x.bind f).sat P := by
  cases x with
  | done a => exact hf a hx
  | undefined => trivial
  | timeout => trivial

/-- Sequencing after a call whose result is not constrained. -/
theorem sat_bind_all {α β : Type} (x : Outcome α) (f : α → Outcome β) (P : β → Prop)
    (hf : ∀ a, (f a).sat P) : (x.bind f).sat P := by
  cases x with
  | done a => exact hf a
  | undefined => trivial
  | timeout => trivial

/-- What holds of every returned result holds of the one returned. -/
theorem sat_elim {α : Type} {P : α → Prop} {x : Outcome α} {a : α} (h : x.sat P)
    (hx : x = .done a) : P a := by
  subst hx
  exact h

/-- Reducing an operator keeps the scopes. -/
theorem sy_pop_scope (p : parser_t) (sy : shunt) :
    (parser_sy_pop p sy).sat (fun r => same_scope p r.2.1) := by
  unfold parser_sy_pop
  split
  · exact same_scope_error _
  · split
    · exact same_scope_error _
    · apply sat_bind_all
      intro op
      split
      · exact same_scope_error _
      · simp only
        split
        · trivial
        · split
          · exact same_scope_error _
          · unfold sy_pop_switch
            split
            · split
              · split
                · exact same_scope_refl _
                · split
                  · exact same_scope_refl _
                  · exact same_scope_error _
              · trivial
            · exact same_scope_error _

/-- The checks of a call keep the scopes. -/
theorem close_call_finish_scope (p : parser_t) (sy : shunt) (fid : Nat)
    (func call : ast_expression) (n : Nat) :
    same_scope p (close_call_finish p sy fid func call n).2.1 := by
  unfold close_call_finish
  simp only
  split
  · exact same_scope_error _
  · split
    · exact same_scope_error _
    · split
      · exact same_scope_error _
      · exact same_scope_refl _

/-- Closing a call keeps the scopes. -/
theorem close_call_scope (p : parser_t) (sy : shunt) :
    (parser_close_call p sy).sat (fun r => same_scope p r.2.1) := by
  unfold parser_close_call
  split
  · trivial
  · simp only
    split
    · exact same_scope_error _
    · split
      · trivial
      · split
        · exact close_call_finish_scope _ _ _ _ _ _
        · split
          · split
            · trivial
            · split
              · split
                · trivial
                · exact close_call_finish_scope _ _ _ _ _ _
              · exact close_call_finish_scope _ _ _ _ _ _
          · exact same_scope_error _

/-- A property that follows from the one established holds as well. -/
theorem sat_mono {α : Type} {P Q : α → Prop} {x : Outcome α} (h : x.sat P)
    (hpq : ∀ a, P a → Q a) : x.sat Q := by
  cases x with
  | done a => exact hpq a h
  | undefined => trivial
  | timeout => trivial

/-- One round of the loop that closes a paren. -/
theorem close_paren_loop_eq (fo : Bool) (fuel : Nat) (p : parser_t) (sy : shunt) :
    close_paren_loop fo fuel p sy =
      match sy.ops.getLast? with
      | none => .done (true, p, sy)
      | some top =>
        if top.paren = PAREN_CALL then parser_close_call p sy
        else if top.paren = 1 then .done (!fo, p, { sy with ops := sy.ops.dropLast })
        else
          match fuel with
          | 0 => .timeout
          | fuel + 1 =>
            (parser_sy_pop p sy).bind fun r =>
              if r.1 then close_paren_loop fo fuel r.2.1 r.2.2
              else .done (false, r.2.1, r.2.2) := by
  cases fuel with
  | zero =>
    delta close_paren_loop
    simp only [Nat.rec_zero]
  | succ n =>
    delta close_paren_loop
    simp only [Nat.rec_add_one]

/-- The loop that closes a paren keeps the scopes. -/
theorem close_paren_loop_scope (fo : Bool) (fuel : Nat) :
    ∀ p sy, (close_paren_loop fo fuel p sy).sat (fun r => same_scope p r.2.1) := by
  induction fuel with
  | zero =>
    intro p sy
    rw [close_paren_loop_eq]
    split
    · exact same_scope_refl _
    · split
      · exact close_call_scope _ _
      · split
        · exact same_scope_refl _
        · trivial
  | succ n ih =>
    intro p sy
    rw [close_paren_loop_eq]
    split
    · exact same_scope_refl _
    · split
      · exact close_call_scope _ _
      · split
        · exact same_scope_refl _
        · apply sat_bind _ _ _ _ (sy_pop_scope p sy)
          intro r hr
          split
          · exact sat_mono (ih r.2.1 r.2.2) (fun a ha => same_scope_trans hr ha)
          · exact hr

/-- Closing a paren keeps the scopes. -/
theorem close_paren_scope (p : parser_t) (sy : shunt) (fo : Bool) :
    (parser_close_paren p sy fo).sat (fun r => same_scope p r.2.1) := by
  unfold parser_close_paren
  split
  · exact same_scope_error _
  · split
    · exact same_scope_error _
    · exact close_paren_loop_scope _ _ _ _

/-- The reductions an arriving operator asks for keep the scopes. -/
theorem expression_reduce_scope (op : oper_info) (fuel : Nat) :
    ∀ p sy olast, (expression_reduce op fuel p sy olast).sat (fun r => same_scope p r.2.1) := by
  induction fuel with
  | zero =>
    intro p sy olast
    unfold expression_reduce
    split
    · exact same_scope_refl _
    · split
      · trivial
      · exact same_scope_refl _
  | succ n ih =>
    intro p sy olast
    unfold expression_reduce
    split
    · exact same_scope_refl _
    · split
      · apply sat_bind _ _ _ _ (sy_pop_scope p sy)
        intro r hr
        split
        · apply sat_bind_all
          intro o
          exact sat_mono (ih r.2.1 r.2.2 o) (fun a ha => same_scope_trans hr ha)
        · exact hr
      · exact same_scope_refl _

/-- The reductions at the terminator keep the scopes. -/
theorem sy_pop_all_scope (fuel : Nat) :
    ∀ p sy, (sy_pop_all fuel p sy).sat (fun r => same_scope p r.2.1) := by
  induction fuel with
  | zero =>
    intro p sy
    unfold sy_pop_all
    split
    · exact same_scope_refl _
    · trivial
  | succ n ih =>
    intro p sy
    unfold sy_pop_all
    split
    · exact same_scope_refl _
    · apply sat_bind _ _ _ _ (sy_pop_scope p sy)
      intro r hr
      split
      · exact sat_mono (ih r.2.1 r.2.2) (fun a ha => same_scope_trans hr ha)
      · exact hr

/-- Setting the lexer flag keeps the scopes. -/
theorem same_scope_noops (p : parser_t) (b : Bool) : same_scope p (set_noops p b) :=
  ⟨rfl, rfl, rfl, rfl, rfl⟩

/-- The end of an expression keeps the scopes. -/
theorem expression_finish_scope (p : parser_t) (sy : shunt) :
    (expression_finish p sy).sat (fun r => same_scope p r.2) := by
  unfold expression_finish
  simp only
  split
  · exact ⟨rfl, rfl, rfl, rfl, rfl⟩
  · apply sat_bind _ _ _ _ (sy_pop_all_scope _ (parser_next p).2 sy)
    intro r hr
    have h0 : same_scope p r.2.1 := same_scope_trans (same_scope_next p) hr
    split
    · exact same_scope_trans h0 (same_scope_noops _ _)
    · split
      · exact same_scope_trans h0 ⟨rfl, rfl, rfl, rfl, rfl⟩
      · split
        · exact same_scope_trans h0 (same_scope_noops _ _)
        · exact same_scope_trans h0 (same_scope_noops _ _)

/-- Interning a float keeps the scopes. -/
theorem const_float_scope (p : parser_t) (d : qc_double) :
    same_scope p (parser_const_float p d).2 := by
  unfold parser_const_float
  split
  · exact same_scope_refl _
  · exact ⟨rfl, rfl, rfl, rfl, rfl⟩

/-- Interning a string keeps the scopes. -/
theorem const_string_scope (p : parser_t) (s : String) :
    (parser_const_string p s).sat (fun r => same_scope p r.2) := by
  unfold parser_const_string
  apply sat_bind_all
  intro found
  cases found with
  | some v => exact same_scope_refl _
  | none => exact ⟨rfl, rfl, rfl, rfl, rfl⟩

/-- Interning a vector keeps the scopes. -/
theorem const_vector_scope (p : parser_t) (v : vector) :
    same_scope p (parser_const_vector p v).2 := by
  unfold parser_const_vector
  split
  · exact same_scope_refl _
  · exact ⟨rfl, rfl, rfl, rfl, rfl⟩

/-- Accepting an operand keeps the scopes. -/
theorem expression_operand_scope (p : parser_t) (sy : shunt) :
    (expression_operand p sy).sat (fun r => same_scope p r.2.1) := by
  unfold expression_operand
  simp only
  split
  · apply sat_bind_all
    intro v
    split
    · exact same_scope_error _
    · exact same_scope_refl _
  · split
    · exact const_float_scope _ _
    · split
      · exact const_float_scope _ _
      · split
        · exact sat_bind _ _ _ _ (const_string_scope _ _) (fun r hr => hr)
        · split
          · exact const_vector_scope _ _
          · split
            · exact same_scope_refl _
            · split
              · apply sat_bind _ _ _ _ (close_paren_scope p sy true)
                intro r hr
                split
                · exact hr
                · exact hr
              · exact same_scope_error _

/-- Accepting an operator keeps the scopes. -/
theorem expression_operator_scope (p : parser_t) (sy : shunt) :
    (expression_operator p sy).sat (fun r => same_scope p r.2.1) := by
  unfold expression_operator
  simp only
  split
  · exact same_scope_refl _
  · split
    · apply sat_bind _ _ _ _ (close_paren_scope p sy false)
      intro r hr
      split
      · exact hr
      · exact hr
    · split
      · exact same_scope_error _
      · split
        · exact same_scope_refl _
        · apply sat_bind_all
          intro op
          apply sat_bind_all
          intro olast
          apply sat_bind _ _ _ _ (expression_reduce_scope op _ p sy olast)
          intro r hr
          split
          · exact hr
          · exact hr

/-- The main loop of the expression parser keeps the scopes. -/
theorem expression_loop_scope (fuel : Nat) :
    ∀ p sy w, (expression_loop fuel p sy w).sat (fun r => same_scope p r.2) := by
  induction fuel with
  | zero =>
    intro p sy w
    unfold expression_loop
    trivial
  | succ n ih =>
    intro p sy w
    unfold expression_loop
    split
    · apply sat_bind _ _ _ _ (expression_operand_scope p sy)
      intro r hr
      split
      · exact same_scope_trans hr (same_scope_noops _ _)
      · simp only
        have hn : same_scope p (parser_next (set_noops r.2.1 (!‹Bool›))).2 :=
          same_scope_trans hr ⟨rfl, rfl, rfl, rfl, rfl⟩
        split
        · exact same_scope_trans hn (same_scope_noops _ _)
        · split
          · exact sat_mono (expression_finish_scope _ _) (fun a ha => same_scope_trans hn ha)
          · exact sat_mono (ih _ _ _) (fun a ha => same_scope_trans hn ha)
    · apply sat_bind _ _ _ _ (expression_operator_scope p sy)
      intro r hr
      split
      · exact same_scope_trans hr (same_scope_noops _ _)
      · exact sat_mono (expression_finish_scope _ _) (fun a ha => same_scope_trans hr ha)
      · simp only
        have hn : same_scope p (parser_next (set_noops r.2.1 true)).2 :=
          same_scope_trans hr ⟨rfl, rfl, rfl, rfl, rfl⟩
        split
        · exact same_scope_trans hn (same_scope_noops _ _)
        · split
          · exact sat_mono (expression_finish_scope _ _) (fun a ha => same_scope_trans hn ha)
          · exact sat_mono (ih _ _ _) (fun a ha => same_scope_trans hn ha)

/-- The expression parser changes neither the globals, the locals, the
Function nodes nor the active function. -/
theorem parser_expression_scope (p : parser_t) :
    (parser_expression p).sat (fun r => same_scope p r.2) :=
  expression_loop_scope _ _ _ _

/-- The `return` statement keeps the scopes. -/
theorem parse_return_scope (p : parser_t) (block : Option ast_expression) :
    (parse_return p block).sat (fun r => same_scope p r.parser) := by
  unfold parse_return
  split
  · trivial
  · simp only
    split
    · exact ⟨rfl, rfl, rfl, rfl, rfl⟩
    · split
      · apply sat_bind _ _ _ _ (parser_expression_scope _)
        intro r hr
        have h0 : same_scope p r.2 := same_scope_trans (same_scope_next p) hr
        split
        · exact h0
        · split
          · trivial
          · split
            · exact same_scope_trans h0 (same_scope_error _)
            · exact h0
      · split
        · split
          · trivial
          · split
            · exact ⟨rfl, rfl, rfl, rfl, rfl⟩
            · exact ⟨rfl, rfl, rfl, rfl, rfl⟩
        · exact ⟨rfl, rfl, rfl, rfl, rfl⟩

/-! ## Function nodes -/

/-- Every state grows from itself. -/
theorem grow_refl (p : parser_t) : functions_grow p p :=
  ⟨[], by simp, rfl⟩

/-- Growth composes. -/
theorem grow_trans {p q r : parser_t} (h1 : functions_grow p q) (h2 : functions_grow q r) :
    functions_grow p r := by
  obtain ⟨e1, h1, k1⟩ := h1
  obtain ⟨e2, h2, k2⟩ := h2
  refine ⟨e1 ++ e2, ?_, ?_⟩
  · rw [h2, h1, List.append_assoc]
  · rw [List.all_append, k1, k2]
    rfl

/-- A state with the Function nodes of a grown state has grown. -/
theorem grow_eq {p q r : parser_t} (h1 : functions_grow p q) (h : r.functions = q.functions) :
    functions_grow p r := by
  obtain ⟨e1, h1, k1⟩ := h1
  exact ⟨e1, h.trans h1, k1⟩

/-- Keeping the scopes is growth by nothing. -/
theorem grow_scope {p q : parser_t} (h : same_scope p q) : functions_grow p q :=
  ⟨[], by simp [h.2.2.2.1], rfl⟩

/-- A branch on a condition: both arms establish the property. -/
theorem sat_ite {α : Type} {c : Prop} [Decidable c] {x y : Outcome α} {P : α → Prop}
    (hx : c → x.sat P) (hy : ¬c → y.sat P) : (if c then x else y).sat P := by
  by_cases h : c
  · rw [if_pos h]
    exact hx h
  · rw [if_neg h]
    exact hy h

/-- Registering a declarator adds at most a node as `ast_function_new`
leaves it, and that node is the one `func` points to. -/
theorem register_node (p1 : parser_t) (lb : Option ast_expression) (ctx : lex_ctx)
    (var0 : ast_expression) (isfunc : Bool) :
    ((variable_register p1 lb ctx var0 isfunc).func = none ∧
        (variable_register p1 lb ctx var0 isfunc).parser.functions = p1.functions) ∨
      ((variable_register p1 lb ctx var0 isfunc).func = some p1.functions.length ∧
        ∃ f, node_fresh f = true ∧
          (variable_register p1 lb ctx var0 isfunc).parser.functions = p1.functions ++ [f]) := by
  unfold variable_register
  cases isfunc
  · left
    cases lb <;> simp
  · right
    cases lb <;> simp [ast_function_new, node_fresh]

/-- Registering a declarator is growth. -/
theorem register_grow (p1 : parser_t) (lb : Option ast_expression) (ctx : lex_ctx)
    (var0 : ast_expression) (isfunc : Bool) :
    functions_grow p1 (variable_register p1 lb ctx var0 isfunc).parser := by
  rcases register_node p1 lb ctx var0 isfunc with h | h
  · exact ⟨[], by simp [h.2], rfl⟩
  · obtain ⟨_, f, hf, h⟩ := h
    exact ⟨[f], h, by simp [hf]⟩

/-- The type parser keeps the scopes. -/
theorem parse_type_scope (p : parser_t) (t : qc_type) :
    (parser_parse_type p t).sat (fun r => same_scope p r.2.2) := by
  unfold parser_parse_type
  cases h : parse_type (p.lex.input.length + 2) p t with
  | done r =>
    obtain ⟨v, b, q⟩ := r
    exact ((parse_type_frame _).1 p t v b q h).1
  | undefined => trivial
  | timeout => trivial

/-- Inside a block none of `variable_builtin` is reached successfully. -/
theorem variable_builtin_local (st : parser_t) (b : ast_expression) (func : Option Nat) :
    variable_builtin st (some b) func = (false, parseerror st) := by
  simp [variable_builtin]

/-- Statements, blocks and the declarations inside a block leave the
Function nodes there are untouched and add only nodes as `ast_function_new`
leaves them. -/
theorem statement_grow (fuel : Nat) :
    (∀ p b, (parse_statement fuel p b).sat (fun r => functions_grow p r.parser)) ∧
    (∀ p b, (parse_block_loop fuel p b).sat (fun r => functions_grow p r.2)) ∧
    (∀ p, (parse_block fuel p).sat (fun r => functions_grow p r.2)) ∧
    (∀ p b t, (variable_loop fuel p (some b) t).sat (fun r => functions_grow p r.2.2)) := by
  induction fuel with
  | zero =>
    refine ⟨?_, ?_, ?_, ?_⟩
    · intro p b
      unfold parse_statement
      trivial
    · intro p b
      unfold parse_block_loop
      trivial
    · intro p
      unfold parse_block
      trivial
    · intro p b t
      unfold variable_loop
      trivial
  | succ n ih =>
    obtain ⟨ihs, ihl, ihb, ihv⟩ := ih
    refine ⟨?_, ?_, ?_, ?_⟩
    · intro p b
      unfold parse_statement
      split
      · split
        · exact grow_scope (same_scope_error _)
        · apply sat_bind _ _ _ _ (ihv _ _ _)
          intro r hr
          split
          · exact hr
          · exact hr
      · split
        · split
          · exact sat_mono (parse_return_scope _ _) (fun a ha => grow_scope ha)
          · exact grow_scope (same_scope_error _)
        · split
          · apply sat_bind _ _ _ _ (ihb _)
            intro r hr
            split
            · exact hr
            · exact hr
          · apply sat_bind _ _ _ _ (parser_expression_scope _)
            intro r hr
            split
            · exact grow_scope hr
            · exact grow_scope hr
    · intro p b
      rw [parse_block_loop]
      split
      · apply sat_bind _ _ _ _ (ihs _ _)
        intro r hr
        split
        · exact hr
        · split
          · exact sat_mono (ihl _ _) (fun a ha => grow_trans hr ha)
          · exact sat_mono (ihl _ _) (fun a ha => grow_trans hr ha)
          · trivial
      · split
        · exact grow_refl _
        · exact grow_refl _
    · intro p
      rw [parse_block]
      simp only []
      split
      · exact grow_refl _
      · apply sat_bind _ _ _ _ (ihl _ _)
        intro r hr
        exact grow_eq hr rfl
    · intro p b t
      rw [variable_loop]
      simp only [Option.isNone_some, Option.isSome_some, Bool.false_eq_true, false_and,
        if_false, if_true]
      have h0 : functions_grow p (parser_next p).2 := grow_eq (grow_refl p) rfl
      refine sat_ite (fun _ => grow_eq h0 rfl) (fun _ => ?_)
      apply sat_bind _ _ _ _ (parse_type_scope _ _)
      intro tr htr
      have h1 : functions_grow p tr.2.2 := grow_trans h0 (grow_scope htr)
      obtain ⟨v, isfunc, p1⟩ := tr
      cases v with
      | none => exact h1
      | some var0 =>
        simp only []
        refine sat_ite (fun _ => grow_eq h1 rfl) (fun _ => ?_)
        apply sat_bind_all
        intro dup
        refine sat_ite (fun _ => grow_eq h1 rfl) (fun _ => ?_)
        have hg : functions_grow p (variable_register p1 (some b)
            (parser_ctx (parser_next p).2) var0 isfunc).parser :=
          grow_trans h1 (register_grow _ _ _ _ _)
        have hlb : (variable_register p1 (some b)
            (parser_ctx (parser_next p).2) var0 isfunc).localblock =
            some (ast_block_locals_add b (variable_register p1 (some b)
              (parser_ctx (parser_next p).2) var0 isfunc).var) := rfl
        rw [hlb]
        generalize variable_register p1 (some b)
          (parser_ctx (parser_next p).2) var0 isfunc = d at hg ⊢
        refine sat_ite (fun _ => grow_eq hg rfl) (fun _ => ?_)
        refine sat_ite (fun _ => sat_ite (fun _ => grow_eq hg rfl) (fun _ => grow_eq hg rfl))
          (fun _ => ?_)
        refine sat_ite
          (fun _ => sat_mono (ihv _ _ _) (fun a ha => grow_trans (grow_eq hg rfl) ha))
          (fun _ => ?_)
        refine sat_ite (fun _ => grow_eq hg rfl) (fun _ => ?_)
        refine sat_ite (fun _ => grow_eq hg rfl) (fun _ => ?_)
        refine sat_ite (fun _ => grow_eq hg rfl) (fun _ => ?_)
        by_cases hh : (parser_next (parser_next d.parser).2).2.tok = ch '#'
        · simp only [hh, if_true, variable_builtin_local, Bool.not_false]
          exact grow_eq hg rfl
        · simp only [hh, if_false, Bool.not_true, Bool.false_eq_true]
          refine sat_ite (fun _ => grow_eq hg rfl) (fun _ => ?_)
          refine sat_ite
            (fun _ => sat_mono (ihv _ _ _) (fun a ha => grow_trans (grow_eq hg rfl) ha))
            (fun _ => ?_)
          exact sat_ite (fun _ => grow_eq hg rfl) (fun _ => grow_eq hg rfl)

/-- A node as `ast_function_new` leaves it is a node the declarations may
leave. -/
theorem node_fresh_ok (f : ast_function) (h : node_fresh f = true) : node_ok f = true := by
  unfold node_fresh at h
  unfold node_ok
  simp only [Bool.and_eq_true, beq_iff_eq, List.isEmpty_iff] at h
  simp [h.1, h.2]

/-- Growth keeps every node well-formed. -/
theorem nodes_grow {p q : parser_t} (h : functions_grow p q)
    (hp : p.functions.all node_ok = true) : q.functions.all node_ok = true := by
  obtain ⟨extra, hq, he⟩ := h
  rw [hq, List.all_append, hp, Bool.true_and]
  rw [List.all_eq_true] at he ⊢
  exact fun f hf => node_fresh_ok f (he f hf)

/-- Changing the node at the position of `a`. -/
theorem modify_mid {α : Type} (f : α → α) (l r : List α) (a : α) :
    List.modify f l.length (l ++ a :: r) = l ++ f a :: r := by
  induction l with
  | nil => rfl
  | cons b l ih => simp [ih]

/-- A body attached to a node that was as `ast_function_new` left it gives a
node with builtin index 0 and one block. -/
theorem add_block_nodes (P extra : List ast_function) (f : ast_function) (b : ast_expression)
    (hP : P.all node_ok = true) (hf : node_fresh f = true)
    (he : extra.all node_fresh = true) :
    (add_block (P ++ [f] ++ extra) P.length b).all node_ok = true := by
  unfold add_block
  rw [List.append_assoc, List.singleton_append, modify_mid, List.all_append, hP, Bool.true_and,
    List.all_cons]
  have he2 : extra.all node_ok = true := by
    rw [List.all_eq_true] at he ⊢
    exact fun g hg => node_fresh_ok g (he g hg)
  rw [he2, Bool.and_true]
  unfold node_fresh at hf
  simp only [Bool.and_eq_true, beq_iff_eq, List.isEmpty_iff] at hf
  unfold node_ok
  simp [hf.1, hf.2]

/-- The initializer `= # N` leaves every node well-formed: it fails, or it
gives the node created for the declarator a negative builtin index. -/
theorem variable_builtin_nodes (st : parser_t) (lb : Option ast_expression) (func : Option Nat)
    (P : List ast_function) (hst : st.functions.all node_ok = true)
    (hlink : ∀ i, func = some i →
      ∃ f, node_fresh f = true ∧ st.functions = P ++ [f] ∧ i = P.length ∧
        P.all node_ok = true) :
    (variable_builtin st lb func).2.functions.all node_ok = true := by
  unfold variable_builtin
  split
  · exact hst
  · split
    · exact hst
    · rename_i i
      obtain ⟨f, hf, hfs, hi, hP⟩ := hlink i rfl
      simp only []
      split
      · exact hst
      · split
        · exact hst
        · split
          · exact hst
          · rename_i hk
            have hn : (parser_next st).2.functions = P ++ [f] := hfs
            simp only [hn, hi, set_builtin, modify_last, List.all_append, hP, Bool.true_and,
              List.all_cons, List.all_nil, Bool.and_true]
            unfold node_fresh at hf
            simp only [Bool.and_eq_true, beq_iff_eq, List.isEmpty_iff] at hf
            unfold node_ok
            have hk2 : -(parser_next st).2.lex.tok.constval_i < 0 := by omega
            simp [hf.2, hk2]

/-- A global declaration leaves every Function node with builtin index 0 and
at most one block, or with a negative builtin index and no block. -/
theorem variable_loop_nodes (fuel : Nat) :
    ∀ p t, p.functions.all node_ok = true →
      (variable_loop fuel p none t).sat (fun r => r.2.2.functions.all node_ok = true) := by
  induction fuel with
  | zero =>
    intro p t _
    unfold variable_loop
    trivial
  | succ n ih =>
    intro p t hp
    rw [variable_loop]
    simp only [Option.isNone_none, Option.isSome_none, Bool.false_eq_true, true_and,
      if_false, bind_done]
    refine sat_ite (fun _ => hp) (fun _ => ?_)
    apply sat_bind _ _ _ _ (parse_type_scope _ _)
    intro tr htr
    obtain ⟨v, isfunc, p1⟩ := tr
    have h1 : p1.functions.all node_ok = true := by
      have := htr.2.2.2.1
      simp only [] at this
      rw [this]
      exact hp
    cases v with
    | none => exact h1
    | some var0 =>
      simp only []
      refine sat_ite (fun _ => h1) (fun _ => ?_)
      refine sat_ite (fun _ => h1) (fun _ => ?_)
      have hreg := register_node p1 none (parser_ctx (parser_next p).2) var0 isfunc
      have hd : (variable_register p1 none (parser_ctx (parser_next p).2) var0
          isfunc).parser.functions.all node_ok = true :=
        nodes_grow (register_grow _ _ _ _ _) h1
      have hlb : (variable_register p1 none (parser_ctx (parser_next p).2) var0
          isfunc).localblock = none := rfl
      rw [hlb]
      generalize variable_register p1 none (parser_ctx (parser_next p).2) var0 isfunc = d
        at hreg hd ⊢
      have hlink : ∀ i, d.func = some i →
          ∃ f, node_fresh f = true ∧ d.parser.functions = p1.functions ++ [f] ∧
            i = p1.functions.length ∧ p1.functions.all node_ok = true := by
        intro i hi
        rcases hreg with h | h
        · rw [h.1] at hi
          cases hi
        · rw [h.1] at hi
          cases hi
          obtain ⟨f, hf, hfs⟩ := h.2
          exact ⟨f, hf, hfs, rfl, h1⟩
      refine sat_ite (fun _ => hd) (fun _ => ?_)
      refine sat_ite (fun _ => sat_ite (fun _ => hd) (fun _ => hd)) (fun _ => ?_)
      refine sat_ite (fun _ => ih _ _ hd) (fun _ => ?_)
      refine sat_ite (fun _ => hd) (fun _ => ?_)
      refine sat_ite (fun _ => hd) (fun _ => ?_)
      refine sat_ite (fun _ => ?_) (fun _ => ?_)
      · apply sat_bind _ _ _ _ ((statement_grow n).2.2.1 _)
        intro br hbr
        obtain ⟨bo, bq⟩ := br
        cases bo with
        | none => exact nodes_grow hbr hd
        | some block =>
          simp only []
          cases hfunc : d.func with
          | none => trivial
          | some i =>
            obtain ⟨f, hf, hfs, hi, hP⟩ := hlink i hfunc
            obtain ⟨extra, hq, he⟩ := hbr
            have hq2 : bq.functions = p1.functions ++ [f] ++ extra := by
              rw [hq]
              exact congrArg (fun l => l ++ extra) hfs
            simp only [hq2, hi]
            exact add_block_nodes _ _ _ _ hP hf he
      · have hafter : (if (parser_next (parser_next d.parser).2).2.tok = ch '#' then
              variable_builtin (parser_next (parser_next d.parser).2).2 none d.func
            else (true, parseerror (parser_next (parser_next d.parser).2).2)).2.functions.all
              node_ok = true := by
          split
          · exact variable_builtin_nodes _ _ _ p1.functions hd hlink
          · exact hd
        generalize (if (parser_next (parser_next d.parser).2).2.tok = ch '#' then
              variable_builtin (parser_next (parser_next d.parser).2).2 none d.func
            else (true, parseerror (parser_next (parser_next d.parser).2).2)) = after
          at hafter ⊢
        refine sat_ite (fun _ => hafter) (fun _ => ?_)
        refine sat_ite (fun _ => hafter) (fun _ => ?_)
        refine sat_ite (fun _ => ih _ _ hafter) (fun _ => ?_)
        exact sat_ite (fun _ => hafter) (fun _ => hafter)

/-- One top-level declaration leaves every Function node well-formed. -/
theorem parser_do_nodes (p : parser_t) (hp : p.functions.all node_ok = true) :
    (parser_do p).sat (fun r => r.2.functions.all node_ok = true) := by
  unfold parser_do
  refine sat_ite (fun _ => ?_) (fun _ => ?_)
  · apply sat_bind _ _ _ _ (variable_loop_nodes _ p _ hp)
    intro r hr
    exact hr
  · exact sat_ite (fun _ => hp) (fun _ => sat_ite (fun _ => hp) (fun _ => hp))

/-- The declaration loop leaves every Function node well-formed. -/
theorem compile_loop_nodes (fuel : Nat) :
    ∀ p, p.functions.all node_ok = true →
      (compile_loop fuel p).sat (fun r => r.2.functions.all node_ok = true) := by
  induction fuel with
  | zero =>
    intro p _
    unfold compile_loop
    trivial
  | succ n ih =>
    intro p hp
    unfold compile_loop
    refine sat_ite (fun _ => ?_) (fun _ => hp)
    apply sat_bind _ _ _ _ (parser_do_nodes p hp)
    intro r hr
    exact sat_ite (fun _ => hr) (fun _ => ih _ hr)

/-- C14 (amended): a parse keeps the Function nodes well-formed.  From
every parser state in which every Function node of the function list has
either builtin index 0 and at most one body block, or a negative builtin
index and no body block, the declaration loop of `parser_compile`, when it
returns, successful or not, leaves every Function node so, and so does
`parser_compile` on every token stream; an empty function list is such a
list.  So a node with builtin index below 0 has zero body blocks, and a node
with a body block has builtin index 0 and that one block; a node with builtin
index 0 may have no block.  `parser_init` leaves the function list as the
allocated block held it.  For
`void() f = { } void(string) bprint = #1; float() g;` the nodes have the
builtin indices 0, -1, 0 and 1, 0, 0 body blocks. -/
theorem function_nodes_well_formed :
    (∀ fuel p, p.functions.all node_ok = true →
      (compile_loop fuel p).sat (fun r => r.2.functions.all node_ok = true)) ∧
    (∀ parser input, parser.functions.all node_ok = true →
      (parser_compile parser input).sat (fun r => r.2.functions.all node_ok = true)) ∧
    (∀ parser : parser_t, parser.functions = [] → parser.functions.all node_ok = true) ∧
    (∀ mem, (parser_init mem).functions = mem.functions) ∧
    function_summary (parser_compile parser_cleared
      [tk_void, tk_ch '(', tk_ch ')', tk_ident "f", tk_ch '=', tk_ch '{', tk_ch '}',
        tk_void, tk_ch '(', tk_string, tk_ch ')', tk_ident "bprint", tk_ch '=', tk_ch '#',
        tk_int "1" 1, tk_ch ';',
        tk_float, tk_ch '(', tk_ch ')', tk_ident "g", tk_ch ';']) =
      some [(0, 1), (-1, 0), (0, 0)] := by
  refine ⟨fun fuel p hp => compile_loop_nodes fuel p hp, ?_, ?_, fun mem => rfl, by decide!⟩
  · intro parser input hp
    unfold parser_compile
    simp only []
    exact sat_ite (fun _ => compile_loop_nodes _ _ hp) (fun _ => hp)
  · intro parser h
    rw [h]
    rfl

/-- C14, as stated, fails on a forward declaration: `float() f;` compiles
without error and leaves the Function `f` with builtin index 0 and no body
block, which is not a node as the claim describes it. -/
theorem forward_declaration_has_no_block :
    compiled (parser_compile parser_cleared forward_declaration) = some (true, 0, ["f"], [(0, [])]) ∧
      function_summary (parser_compile parser_cleared forward_declaration) = some [(0, 0)] ∧
      (functions_of (parser_compile parser_cleared forward_declaration)).all node_as_claimed = false ∧
      (functions_of (parser_compile parser_cleared forward_declaration)).all node_ok = true := by
  exact ⟨by decide!, by decide!, by decide!, by decide!⟩

/-! ## Steps of the expression parser -/

/-- Setting the lexer flag and reading the next token of the input. -/
theorem noops_next_cons (p : parser_t) (b : Bool) (t : token) (ts : List token)
    (h : p.lex.input = t :: ts) :
    (parser_next (set_noops p b)).2.tok = t.ttype ∧
      (parser_next (set_noops p b)).2.lex.tok = t ∧
      (parser_next (set_noops p b)).2.lex.input = ts ∧
      (parser_next (set_noops p b)).1 = !(t.ttype == TOKEN_EOF || t.ttype.is_error) ∧
      same_scope p (parser_next (set_noops p b)).2 ∧
      (parser_next (set_noops p b)).2.errors = p.errors :=
  parser_next_cons (set_noops p b) t ts h

/-- The lookup of a name depends on the scopes only. -/
theorem find_var_scope (p q : parser_t) (name : String) (h : same_scope p q) :
    parser_find_var q name = parser_find_var p name := by
  obtain ⟨hg, hl, _, hfs, hf⟩ := h
  unfold parser_find_var parser_find_local parser_find_global
  rw [hg, hl, hfs, hf]

/-- A round of the main loop on an identifier that names a variable: the
variable goes onto the operand stack and an operator is expected next, or
the expression ends at a `;`. -/
theorem expression_loop_ident (fuel : Nat) (p : parser_t) (sy : shunt) (v : ast_expression)
    (t : token) (ts : List token) (htok : p.tok = TOKEN_IDENT)
    (hv : parser_find_var p (parser_tokval p) = .done (some v))
    (hin : p.lex.input = t :: ts)
    (hok : (t.ttype == TOKEN_EOF || t.ttype.is_error) = false) :
    expression_loop (fuel + 1) p sy false =
      if t.ttype = ch ';' then
        expression_finish (parser_next (set_noops p false)).2
          { sy with out := sy.out ++ [syexp (parser_ctx p) v] }
      else
        expression_loop fuel (parser_next (set_noops p false)).2
          { sy with out := sy.out ++ [syexp (parser_ctx p) v] } true := by
  obtain ⟨h1, _, _, h4, _, _⟩ := noops_next_cons p false t ts hin
  rw [expression_loop]
  simp only [expression_operand, htok, hv, Outcome.bind, if_true, Bool.not_false,
    Bool.false_eq_true, if_false, Bool.not_true, h1, h4, hok]

/-- A round of the main loop on an infix operator that has nothing to
reduce: the operator goes onto the operator stack and an operand is expected
next. -/
theorem expression_loop_push (fuel : Nat) (p : parser_t) (sy : shunt) (o : Nat)
    (op : oper_info) (olast : Option oper_info) (t : token) (ts : List token)
    (htok : p.tok = TOKEN_OPERATOR)
    (hfind : find_operator operators (parser_tokval p) = some o)
    (hop : operator_at (o + 1) = .done op)
    (hlast : update_olast sy none = .done olast)
    (hred : expression_reduce op (sy.ops.length + 1) p sy olast = .done (true, p, sy))
    (hin : p.lex.input = t :: ts)
    (hok : (t.ttype == TOKEN_EOF || t.ttype.is_error) = false) :
    expression_loop (fuel + 1) p sy true =
      if t.ttype = ch ';' then
        expression_finish (parser_next (set_noops p true)).2
          { sy with ops := sy.ops ++ [syop (parser_ctx p) o] }
      else
        expression_loop fuel (parser_next (set_noops p true)).2
          { sy with ops := sy.ops ++ [syop (parser_ctx p) o] } false := by
  obtain ⟨h1, _, _, h4, _, _⟩ := noops_next_cons p true t ts hin
  rw [expression_loop]
  simp [expression_operator, htok, hfind, hop, hlast, hred, Outcome.bind, h1, h4, hok]

/-- The table entry of the operator `=`. -/
theorem operator_at_assign :
    operator_at 5 = .done ⟨"=", 2, opid1 '=', ASSOC_RIGHT, 2, 0⟩ :=
  rfl

/-- An arriving `=` reduces nothing while the last operator is a `=`. -/
theorem assign_reduces_nothing (fuel : Nat) (q : parser_t) (sy : shunt) :
    expression_reduce ⟨"=", 2, opid1 '=', ASSOC_RIGHT, 2, 0⟩ fuel q sy
      (some ⟨"=", 2, opid1 '=', ASSOC_RIGHT, 2, 0⟩) = .done (true, q, sy) := by
  cases fuel <;> simp [expression_reduce]

/-- Reducing a `=` over two operands gives the Store of the right one to the
left one, whatever their types. -/
theorem sy_pop_assign (q : parser_t) (outs ops : List sy_elem) (c c0 c1 : lex_ctx)
    (x y : ast_expression) :
    parser_sy_pop q { out := outs ++ [syexp c0 x, syexp c1 y], ops := ops ++ [syop c 4] } =
      .done (true, q,
        { out := outs ++ [syexp c (.store c x.vtype (type_store_instr x.vtype) x y)],
          ops := ops }) := by
  rw [sy_pop_two q outs ops (syop c 4) (syexp c0 x) (syexp c1 y) _ rfl operator_at_assign]
  simp [sy_pop_switch, sy_apply, syexp, syop, block_is_empty, opid1, ast_store_new]

/-- C19: with identifiers `a`, `b`, `c` that name the variables `va`, `vb`,
`vc` (of one type or not), `parser_expression` on `a = b = c ;`, followed by
a further token as inside a function body, returns
`Store(va, Store(vb, vc))`, each Store with the opcode and the type of its
destination, counts no error and stops behind the `;`.  The second `=` does
not reduce the first one when it arrives. -/
theorem assignment_right_associative (p : parser_t) (va vb vc : ast_expression)
    (e1 tb e2 tc semi nxt : token) (rest : List token)
    (htok : p.tok = TOKEN_IDENT)
    (hin : p.lex.input = e1 :: tb :: e2 :: tc :: semi :: nxt :: rest)
    (he1 : e1.ttype = TOKEN_OPERATOR) (he1v : e1.value = "=")
    (htb : tb.ttype = TOKEN_IDENT)
    (he2 : e2.ttype = TOKEN_OPERATOR) (he2v : e2.value = "=")
    (htc : tc.ttype = TOKEN_IDENT) (hsemi : semi.ttype = ch ';')
    (hnxt : (nxt.ttype == TOKEN_EOF || nxt.ttype.is_error) = false)
    (ha : parser_find_var p (parser_tokval p) = .done (some va))
    (hb : parser_find_var p tb.value = .done (some vb))
    (hc : parser_find_var p tc.value = .done (some vc)) :
    (∃ q, parser_expression p =
        .done (some (.store e1.ctx va.vtype (type_store_instr va.vtype) va
          (.store e2.ctx vb.vtype (type_store_instr vb.vtype) vb vc)), q) ∧
      q.tok = nxt.ttype ∧ q.lex.input = rest ∧ q.errors = p.errors ∧ same_scope p q) ∧
    ∀ fuel q sy, expression_reduce ⟨"=", 2, opid1 '=', ASSOC_RIGHT, 2, 0⟩ fuel q sy
      (some ⟨"=", 2, opid1 '=', ASSOC_RIGHT, 2, 0⟩) = .done (true, q, sy) := by
  refine ⟨?_, assign_reduces_nothing⟩
  unfold parser_expression
  rw [hin]
  simp only [List.length_cons]
  rw [expression_loop_ident _ p _ va e1 _ htok ha hin (by simp [he1, tok_type.is_error])]
  rw [if_neg (by rw [he1]; decide)]
  obtain ⟨t1, l1, i1, _, s1, r1⟩ := noops_next_cons p false e1 _ hin
  generalize (parser_next (set_noops p false)).2 = p1 at t1 l1 i1 s1 r1 ⊢
  have hf1 : find_operator operators (parser_tokval p1) = some 4 := by
    unfold parser_tokval
    rw [l1, he1v]
    rfl
  simp only [List.nil_append]
  rw [expression_loop_push _ p1 ⟨[syexp (parser_ctx p) va], []⟩ 4 _ none tb _ (t1.trans he1) hf1
    operator_at_assign rfl rfl i1
    (by simp [htb, tok_type.is_error])]
  rw [if_neg (by rw [htb]; decide)]
  obtain ⟨t2, l2, i2, _, s2, r2⟩ := noops_next_cons p1 true tb _ i1
  generalize (parser_next (set_noops p1 true)).2 = p2 at t2 l2 i2 s2 r2 ⊢
  have hb2 : parser_find_var p2 (parser_tokval p2) = .done (some vb) := by
    rw [find_var_scope p p2 _ (same_scope_trans s1 s2)]
    unfold parser_tokval
    rw [l2]
    exact hb
  simp only [List.nil_append]
  rw [expression_loop_ident _ p2 ⟨[syexp (parser_ctx p) va], [syop (parser_ctx p1) 4]⟩ vb e2 _
    (t2.trans htb) hb2 i2
    (by simp [he2, tok_type.is_error])]
  rw [if_neg (by rw [he2]; decide)]
  obtain ⟨t3, l3, i3, _, s3, r3⟩ := noops_next_cons p2 false e2 _ i2
  generalize (parser_next (set_noops p2 false)).2 = p3 at t3 l3 i3 s3 r3 ⊢
  have hf3 : find_operator operators (parser_tokval p3) = some 4 := by
    unfold parser_tokval
    rw [l3, he2v]
    rfl
  simp only [List.singleton_append]
  rw [expression_loop_push _ p3
    ⟨[syexp (parser_ctx p) va, syexp (parser_ctx p2) vb], [syop (parser_ctx p1) 4]⟩ 4 _
    (some ⟨"=", 2, opid1 '=', ASSOC_RIGHT, 2, 0⟩) tc _
    (t3.trans he2) hf3 operator_at_assign rfl (assign_reduces_nothing _ _ _) i3
    (by simp [htc, tok_type.is_error])]
  rw [if_neg (by rw [htc]; decide)]
  obtain ⟨t4, l4, i4, _, s4, r4⟩ := noops_next_cons p3 true tc _ i3
  generalize (parser_next (set_noops p3 true)).2 = p4 at t4 l4 i4 s4 r4 ⊢
  have hc4 : parser_find_var p4 (parser_tokval p4) = .done (some vc) := by
    rw [find_var_scope p p4 _
      (same_scope_trans (same_scope_trans (same_scope_trans s1 s2) s3) s4)]
    unfold parser_tokval
    rw [l4]
    exact hc
  simp only [List.singleton_append]
  rw [expression_loop_ident _ p4
    ⟨[syexp (parser_ctx p) va, syexp (parser_ctx p2) vb],
      [syop (parser_ctx p1) 4, syop (parser_ctx p3) 4]⟩ vc semi _ (t4.trans htc) hc4 i4
    (by simp [hsemi, tok_type.is_error])]
  rw [if_pos hsemi]
  obtain ⟨t5, l5, i5, _, s5, r5⟩ := noops_next_cons p4 false semi _ i4
  generalize (parser_next (set_noops p4 false)).2 = p5 at t5 l5 i5 s5 r5 ⊢
  obtain ⟨t6, l6, i6, o6, s6, r6⟩ := parser_next_cons p5 nxt _ i5
  simp only [List.cons_append, List.nil_append]
  have hc1 : parser_ctx p1 = e1.ctx := by
    unfold parser_ctx
    rw [l1]
  have hc3 : parser_ctx p3 = e2.ctx := by
    unfold parser_ctx
    rw [l3]
  refine ⟨set_noops (parser_next p5).2 true, ?_, t6, i6, ?_, ?_⟩
  · have hpop1 := sy_pop_assign (parser_next p5).2 [syexp (parser_ctx p) va]
      [syop (parser_ctx p1) 4] (parser_ctx p3) (parser_ctx p2) (parser_ctx p4) vb vc
    have hpop2 := sy_pop_assign (parser_next p5).2 [] [] (parser_ctx p1) (parser_ctx p)
      (parser_ctx p3) va (.store (parser_ctx p3) vb.vtype (type_store_instr vb.vtype) vb vc)
    simp only [List.cons_append, List.nil_append] at hpop1 hpop2
    unfold expression_finish
    simp only [o6, hnxt, Bool.not_false, Bool.not_true, Bool.false_eq_true, if_false,
      List.length_cons, List.length_nil]
    rw [sy_pop_all]
    simp only [hpop1, bind_done, List.length_cons, List.length_nil, if_true]
    rw [sy_pop_all]
    simp only [hpop2, bind_done, List.length_cons, List.length_nil, if_true]
    rw [sy_pop_all]
    simp [Outcome.bind, syexp, hc1, hc3]
  · exact r6.trans (r5.trans (r4.trans (r3.trans (r2.trans r1))))
  · exact same_scope_trans (same_scope_trans (same_scope_trans (same_scope_trans
      (same_scope_trans s1 s2) s3) s4) s5) (same_scope_trans s6 (same_scope_noops _ _))

/-- C19, at a concrete input: `a = b = c ;` over three float globals gives
`STORE_F(a, STORE_F(b, c))`. -/
theorem assignment_right_associative_witness :
    assign_chain_state.tok = TOKEN_IDENT ∧
      assign_chain_state.lex.input =
        [tk_op "=", tk_ident "b", tk_op "=", tk_ident "c", tk_ch ';', tk_ch '}'] ∧
      parser_find_var assign_chain_state (parser_tokval assign_chain_state) =
        .done (some (var_of "a" TYPE_FLOAT)) ∧
      parser_find_var assign_chain_state "b" = .done (some (var_of "b" TYPE_FLOAT)) ∧
      parser_find_var assign_chain_state "c" = .done (some (var_of "c" TYPE_FLOAT)) ∧
      ∃ q, parser_expression assign_chain_state =
          .done (some (.store pos0 TYPE_FLOAT INSTR_STORE_F (var_of "a" TYPE_FLOAT)
            (.store pos0 TYPE_FLOAT INSTR_STORE_F (var_of "b" TYPE_FLOAT)
              (var_of "c" TYPE_FLOAT))), q) ∧
        q.tok = ch '}' ∧ q.lex.input = [] ∧ q.errors = assign_chain_state.errors ∧
        same_scope assign_chain_state q :=
  ⟨rfl, rfl, rfl, rfl, rfl,
    (assignment_right_associative assign_chain_state (var_of "a" TYPE_FLOAT)
      (var_of "b" TYPE_FLOAT) (var_of "c" TYPE_FLOAT) (tk_op "=") (tk_ident "b") (tk_op "=")
      (tk_ident "c") (tk_ch ';') (tk_ch '}') [] rfl rfl rfl rfl rfl rfl rfl rfl rfl rfl rfl
      rfl rfl).1⟩

/-! ## Parentheses -/

/-- C22, evaluated: with float globals `a`, `b`, `c`, `parser_expression`
returns NULL with one error for `a = ( b ) ;`, where `a = b ;` gives
`STORE_F(a, b)`: at the `)` the marker of the `(` is on top of the operator
stack, and `parser_close_paren` takes that for an empty parenthesis, also
when an operator is expected.  A paren is closed only over at least one
operator: `a = ( b + c ) ;` gives `STORE_F(a, ADD_F(b, c))`. -/
theorem group_of_one_operand_rejected :
    returned_null (parser_expression (body_state TYPE_VOID
        [tk_ident "a", tk_op "=", tk_ch '(', tk_ident "b", tk_ch ')', tk_ch ';', tk_ch '}']))
        = true ∧
      errors_after (parser_expression (body_state TYPE_VOID
        [tk_ident "a", tk_op "=", tk_ch '(', tk_ident "b", tk_ch ')', tk_ch ';', tk_ch '}']))
        = some 1 ∧
      returned_shape (parser_expression (body_state TYPE_VOID
        [tk_ident "a", tk_op "=", tk_ident "b", tk_ch ';', tk_ch '}']))
        = some ["STORE_F", "a", "b"] ∧
      reduced (parser_close_paren (body_state TYPE_VOID [tk_ch ')', tk_ch ';', tk_ch '}'])
        ⟨[syexp pos0 (var_of "a" TYPE_FLOAT), syexp pos0 (var_of "b" TYPE_FLOAT)],
          [syop pos0 4, syparen pos0 1 0]⟩ false) = false ∧
      returned_shape (parser_expression (body_state TYPE_VOID
        [tk_ident "a", tk_op "=", tk_ch '(', tk_ident "b", tk_op "+", tk_ident "c", tk_ch ')',
          tk_ch ';', tk_ch '}'])) = some ["STORE_F", "a", "ADD_F", "b", "c"] := by
  exact ⟨by decide!, by decide!, by decide!, by decide!, by decide!⟩

/-- C23, evaluated: `parser_expression` accepts `( a + b ) c ;` and
`f1 ( a ) b ;` without an error and returns `ADD_F(a, b)` and the Call of
`f1`: after a `)` that closes a paren it expects an operand, so the second
operand goes onto the operand stack, and at the terminator the bottom
operand of a stack of two is returned. -/
theorem second_operand_dropped :
    returned_shape (parser_expression (body_state TYPE_VOID
        [tk_ch '(', tk_ident "a", tk_op "+", tk_ident "b", tk_ch ')', tk_ident "c", tk_ch ';',
          tk_ch '}'])) = some ["ADD_F", "a", "b"] ∧
      errors_after (parser_expression (body_state TYPE_VOID
        [tk_ch '(', tk_ident "a", tk_op "+", tk_ident "b", tk_ch ')', tk_ident "c", tk_ch ';',
          tk_ch '}'])) = some 0 ∧
      returned_shape (parser_expression (body_state TYPE_VOID
        [tk_ident "f1", tk_ch '(', tk_ident "a", tk_ch ')', tk_ident "b", tk_ch ';', tk_ch '}']))
        = some ["call", "f1", "(", "a", ")"] ∧
      errors_after (parser_expression (body_state TYPE_VOID
        [tk_ident "f1", tk_ch '(', tk_ident "a", tk_ch ')', tk_ident "b", tk_ch ';', tk_ch '}']))
        = some 0 ∧
      returned_shape (expression_finish (body_state TYPE_VOID [tk_ch ';', tk_ch '}'])
        ⟨[syexp pos0 (var_of "a" TYPE_FLOAT), syexp pos0 (var_of "c" TYPE_FLOAT)], []⟩)
        = some ["a"] ∧
      returned_null (expression_finish (body_state TYPE_VOID [tk_ch ';', tk_ch '}'])
        ⟨[], []⟩) = true := by
  exact ⟨by decide!, by decide!, by decide!, by decide!, by decide!, by decide!⟩

/-- C24, evaluated: for `return ;` followed by the closing brace, in a
function that returns float, `parser_parse_statement` returns true without
an error and without assigning `*out`: no Return node is built.  The return
type is looked at only when no token follows the `;`, and then two errors
are counted.  The block parser reads the unassigned `*out`: compiling
`float() f = { return ; }` is undefined. -/
theorem return_without_value_unchecked :
    statement_summary (parser_parse_statement
        (body_state TYPE_FLOAT [tk_keyword "return", tk_ch ';', tk_ch '}'])
        (some (ast_block_new pos0))) = some (true, none, 0) ∧
      statement_summary (parser_parse_statement
        (body_state TYPE_VOID [tk_keyword "return", tk_ch ';', tk_ch '}'])
        (some (ast_block_new pos0))) = some (true, none, 0) ∧
      statement_summary (parser_parse_statement
        (body_state TYPE_FLOAT [tk_keyword "return", tk_ch ';'])
        (some (ast_block_new pos0))) = some (true, none, 2) ∧
      statement_summary (parser_parse_statement
        (body_state TYPE_VOID [tk_keyword "return", tk_ch ';'])
        (some (ast_block_new pos0))) = some (true, none, 1) ∧
      is_undefined (parser_compile parser_cleared ([tk_float, tk_ch '(', tk_ch ')', tk_ident "f", tk_ch '=',
        tk_ch '{', tk_keyword "return", tk_ch ';', tk_ch '}'])) = true := by
  exact ⟨by decide!, by decide!, by decide!, by decide!, by decide!⟩

/-! ## Argument types of calls -/

/-- Closing a call with one plain operand above the callee goes to the
checks of callee type, return type and parameter count with that operand as
the one argument. -/
theorem close_call_one (parser : parser_t) (outs ops : List sy_elem) (top callee a : sy_elem)
    (func e : ast_expression) (hoff : top.off = outs.length) (hf : callee.out = some func)
    (hb : a.block = none) (he : a.out = some e) :
    parser_close_call parser { out := outs ++ [callee, a], ops := ops ++ [top] } =
      .done (close_call_finish parser { out := outs ++ [callee], ops := ops } outs.length func
        (ast_call_set_params (ast_call_new top.ctx func) [e]) 1) := by
  unfold parser_close_call
  have hl : (outs ++ [callee, a]).getLast? = some a := by
    rw [show outs ++ [callee, a] = (outs ++ [callee]) ++ [a] by simp]
    exact List.getLast?_concat _
  have hd : (outs ++ [callee, a]).dropLast = outs ++ [callee] := by
    rw [show outs ++ [callee, a] = (outs ++ [callee]) ++ [a] by simp]
    exact List.dropLast_concat
  simp [hoff, hf, hb, he, hl, hd, callee_elem]

/-- Closing a call with a comma Block above the callee goes to the checks
with the expressions of the Block as the arguments. -/
theorem close_call_block (parser : parser_t) (outs ops : List sy_elem) (top callee a : sy_elem)
    (func blk : ast_expression) (hoff : top.off = outs.length) (hf : callee.out = some func)
    (hb : a.block = some blk) :
    parser_close_call parser { out := outs ++ [callee, a], ops := ops ++ [top] } =
      .done (close_call_finish parser { out := outs ++ [callee], ops := ops } outs.length func
        (ast_call_set_params (ast_call_new top.ctx func) blk.exprs) blk.exprs.length) := by
  unfold parser_close_call
  have hl : (outs ++ [callee, a]).getLast? = some a := by
    rw [show outs ++ [callee, a] = (outs ++ [callee]) ++ [a] by simp]
    exact List.getLast?_concat _
  have hd : (outs ++ [callee, a]).dropLast = outs ++ [callee] := by
    rw [show outs ++ [callee, a] = (outs ++ [callee]) ++ [a] by simp]
    exact List.dropLast_concat
  simp [hoff, hf, hb, hl, hd, callee_elem]

/-- C26 (amended): `parser_close_call` accepts a call whenever the callee
`func` has type function, has a return type and is given as many arguments
as it has parameters, whatever the types of the arguments and of the
parameters are: one argument `e` of any type for a callee with one
parameter, and the expressions `xs` of a comma Block, of any types, for a
callee with `xs.length` parameters.  The callee is replaced by the Call with
those arguments and no error is counted. -/
theorem close_call_ignores_types (parser : parser_t) (outs ops : List sy_elem)
    (top callee : sy_elem) (func : ast_expression)
    (hoff : top.off = outs.length) (hf : callee.out = some func)
    (hfun : func.vtype = TYPE_FUNCTION) (hret : func.next.isSome = true) :
    (∀ c e, func.params.length = 1 →
      parser_close_call parser { out := outs ++ [callee, syexp c e], ops := ops ++ [top] } =
        .done (true, parser,
          { out := outs ++ [syexp top.ctx (ast_call_set_params (ast_call_new top.ctx func) [e])],
            ops := ops })) ∧
    (∀ c c1 t ls xs, func.params.length = xs.length →
      parser_close_call parser
          { out := outs ++ [callee, syblock c (.block c1 t ls xs)], ops := ops ++ [top] } =
        .done (true, parser,
          { out := outs ++ [syexp top.ctx (ast_call_set_params (ast_call_new top.ctx func) xs)],
            ops := ops })) := by
  constructor
  · intro c e hlen
    rw [close_call_one parser outs ops top callee (syexp c e) func e hoff hf rfl rfl,
      close_call_finish_eq]
    simp [hfun, hret, hlen, ast_call_new, ast_call_set_params, ast_expression.context]
  · intro c c1 t ls xs hlen
    rw [close_call_block parser outs ops top callee (syblock c (.block c1 t ls xs)) func
      (.block c1 t ls xs) hoff hf rfl, close_call_finish_eq]
    simp [hfun, hret, hlen, ast_call_new, ast_call_set_params, ast_expression.context,
      ast_expression.exprs]

/-- C26, at a concrete input: the call of `f1(float p)` with the string
variable `s` as its argument is accepted. -/
theorem close_call_ignores_types_witness :
    (syparen pos0 PAREN_CALL 0).off = ([] : List sy_elem).length ∧
      (fn_value "f1" TYPE_FLOAT [var_of "p" TYPE_FLOAT]).vtype = TYPE_FUNCTION ∧
      (fn_value "f1" TYPE_FLOAT [var_of "p" TYPE_FLOAT]).params.length = 1 ∧
      (var_of "s" TYPE_STRING).vtype ≠ (var_of "p" TYPE_FLOAT).vtype ∧
      parser_close_call (clean_state [])
          { out := [] ++ [syexp pos0 (fn_value "f1" TYPE_FLOAT [var_of "p" TYPE_FLOAT]),
              syexp pos0 (var_of "s" TYPE_STRING)],
            ops := [] ++ [syparen pos0 PAREN_CALL 0] } =
        .done (true, clean_state [],
          { out := [] ++ [syexp (syparen pos0 PAREN_CALL 0).ctx
              (ast_call_set_params (ast_call_new (syparen pos0 PAREN_CALL 0).ctx
                (fn_value "f1" TYPE_FLOAT [var_of "p" TYPE_FLOAT])) [var_of "s" TYPE_STRING])],
            ops := [] }) :=
  ⟨rfl, rfl, rfl, by decide,
    (close_call_ignores_types (clean_state []) [] [] (syparen pos0 PAREN_CALL 0)
      (syexp pos0 (fn_value "f1" TYPE_FLOAT [var_of "p" TYPE_FLOAT]))
      (fn_value "f1" TYPE_FLOAT [var_of "p" TYPE_FLOAT]) rfl rfl rfl rfl).1 pos0
      (var_of "s" TYPE_STRING) rfl⟩

/-- C26, as stated, fails: with the string global `s` and the function
`f1(float p)`, `parser_expression` accepts the call `f1 ( s ) ;` without an
error and returns the Call of `f1` with the argument `s`; so it does for a
string constant as the argument. -/
theorem call_with_string_argument_accepted :
    returned_shape (parser_expression (body_state TYPE_VOID
        [tk_ident "f1", tk_ch '(', tk_ident "s", tk_ch ')', tk_ch ';', tk_ch '}']))
        = some ["call", "f1", "(", "s", ")"] ∧
      errors_after (parser_expression (body_state TYPE_VOID
        [tk_ident "f1", tk_ch '(', tk_ident "s", tk_ch ')', tk_ch ';', tk_ch '}'])) = some 0 ∧
      returned_shape (parser_expression (body_state TYPE_VOID
        [tk_ident "f1", tk_ch '(', mk_token TOKEN_STRINGCONST "text", tk_ch ')', tk_ch ';',
          tk_ch '}'])) = some ["call", "f1", "(", "#IMMEDIATE", ")"] := by
  exact ⟨by decide!, by decide!, by decide!⟩

/-- C27 (amended): on the parser that `parser_init` leaves when the
allocated block holds no functions, no interned constants and the error
counter 0, `parser_compile` on the token stream of
`float x; float y; void() foo = { x = y + 1; }` returns true with zero
errors and produces exactly: the globals `x` and `y` of
type float and `foo` of type function, one interned float constant 1.0 and
no other constant, and one function `foo` returning void, without
parameters, with builtin index 0 and one body block whose single statement
is `STORE_F(x, ADD_F(y, 1.0))`, with the interned constant as the right
operand. -/
theorem scenario_store_of_sum :
    globals_after (parser_compile parser_cleared scenario_qc_style) =
        some (true, 0, [("x", TYPE_FLOAT), ("y", TYPE_FLOAT), ("foo", TYPE_FUNCTION)]) ∧
      pools_after (parser_compile parser_cleared scenario_qc_style) =
        some ([.vfloat ⟨0x3FF0000000000000⟩], [], []) ∧
      functions_after (parser_compile parser_cleared scenario_qc_style) = some [("foo", TYPE_VOID, 0, 0)] ∧
      bodies_after (parser_compile parser_cleared scenario_qc_style) =
        some [[[["STORE_F", "x", "ADD_F", "y", "#IMMEDIATE"]]]] := by
  exact ⟨by decide!, by decide!, by decide!, by decide!⟩

/-- C27, as stated, fails: on the token stream of
`float x; float y; void foo() { x = y + 1; }` the declaration of `foo` stops
at the `(` after the name, `parser_compile` returns false with two errors,
and there is no function and no constant; `foo` is left as a global of type
void. -/
theorem scenario_c_style_rejected :
    globals_after (parser_compile parser_cleared scenario_c_style) =
        some (false, 2, [("x", TYPE_FLOAT), ("y", TYPE_FLOAT), ("foo", TYPE_VOID)]) ∧
      pools_after (parser_compile parser_cleared scenario_c_style) = some ([], [], []) ∧
      functions_after (parser_compile parser_cleared scenario_c_style) = some [] := by
  exact ⟨by decide!, by decide!, by decide!⟩

/-! ## Lookup of locals from a watermark -/

/-- The search of the locals from the top down to `upto` finds the last
entry of the name when that entry is at `upto` or above. -/
theorem find_local_entry_from (before after : List varentry_t) (e : varentry_t)
    (name : String) (upto : Nat) (hup : upto ≤ before.length) (he : e.name = name)
    (hafter : ∀ x ∈ after, x.name ≠ name) :
    find_local_entry (before ++ e :: after) name upto = some e := by
  unfold find_local_entry
  rw [List.drop_append_of_le_length hup]
  simp only [List.reverse_append, List.reverse_cons, List.append_assoc]
  rw [List.find?_append]
  have h1 : List.find? (fun x => x.name == name) after.reverse = none := by
    rw [List.find?_eq_none]
    intro x hx
    simpa using hafter x (List.mem_reverse.mp hx)
  simp [h1, he]

/-- The search of the locals from the top down to `upto` finds nothing when
no entry at `upto` or above has the name. -/
theorem find_local_entry_above (locals : List varentry_t) (name : String) (upto : Nat)
    (h : ∀ x ∈ locals.drop upto, x.name ≠ name) :
    find_local_entry locals name upto = none := by
  unfold find_local_entry
  rw [List.find?_eq_none]
  intro x hx
  simpa using h x (List.mem_reverse.mp hx)

/-- C30 (amended): with an active function `f`, `parser_find_local(name,
from)` looks at the locals entries with index `from` and above only, from
the top of the locals stack downwards, and returns the highest-index such
entry named `name` if there is one; if there is none it goes on to the
parameters of `f`, whatever `from` is, and returns the first parameter named
`name`, or nothing when no parameter has the name.  So a name that exists
only below the watermark and is no parameter is not found, and the name of a
parameter is always found. -/
theorem find_local_from (parser : parser_t) (name : String) (upto i : Nat) (f : ast_function)
    (hfun : parser.function = some i) (hf : parser.functions.get? i = some f) :
    (∀ before after e, parser.locals = before ++ e :: after → upto ≤ before.length →
      e.name = name → (∀ x ∈ after, x.name ≠ name) →
      parser_find_local parser name upto = .done (some e.var)) ∧
    ((∀ x ∈ parser.locals.drop upto, x.name ≠ name) →
      parser_find_local parser name upto =
        .done (f.vtype.params.find? (fun v => v.name == name))) ∧
    ((∀ x ∈ parser.locals.drop upto, x.name ≠ name) →
      (∀ v ∈ f.vtype.params, v.name ≠ name) →
      parser_find_local parser name upto = .done none) ∧
    (∀ before after v, (∀ x ∈ parser.locals.drop upto, x.name ≠ name) →
      f.vtype.params = before ++ v :: after → v.name = name →
      (∀ x ∈ before, x.name ≠ name) →
      parser_find_local parser name upto = .done (some v)) := by
  have hnone : (∀ x ∈ parser.locals.drop upto, x.name ≠ name) →
      parser_find_local parser name upto =
        .done (f.vtype.params.find? (fun v => v.name == name)) := by
    intro h
    unfold parser_find_local
    rw [find_local_entry_above _ _ _ h, hfun]
    simp only []
    rw [hf]
  refine ⟨?_, hnone, ?_, ?_⟩
  · intro before after e hl hup he hafter
    unfold parser_find_local
    rw [hl, find_local_entry_from before after e name upto hup he hafter]
  · intro h hp
    rw [hnone h]
    congr 1
    rw [List.find?_eq_none]
    intro v hv
    simpa using hp v hv
  · intro before after v h hps hv hbefore
    rw [hnone h, hps, List.find?_append]
    have h1 : List.find? (fun x => x.name == name) before = none := by
      rw [List.find?_eq_none]
      intro x hx
      simpa using hbefore x hx
    simp [h1, hv]

/-- C30, at a concrete input: in the body of `h(string x)` with the locals
`x` (float) and `x` (vector), the lookup of `x` from the watermark 2, above
both locals, returns the parameter. -/
theorem find_local_from_witness :
    scope_state.function = some 0 ∧
      scope_state.functions.get? 0 =
        some (ast_function_new pos0 "h" (fn_value "h" TYPE_VOID [var_of "x" TYPE_STRING])) ∧
      (∀ x ∈ scope_state.locals.drop 2, x.name ≠ "x") ∧
      parser_find_local scope_state "x" 2 = .done (some (var_of "x" TYPE_STRING)) :=
  ⟨rfl, rfl, by simp [scope_state],
    (find_local_from scope_state "x" 2 0
      (ast_function_new pos0 "h" (fn_value "h" TYPE_VOID [var_of "x" TYPE_STRING])) rfl
      rfl).2.2.2 [] [] (var_of "x" TYPE_STRING) (by simp [scope_state]) rfl rfl (by simp)⟩

/-- C30, as stated, fails: a name that exists only as a parameter of the
active function is returned by `parser_find_local` for every `from`, here
from the watermark 2 with no local at or above it; so `parser_variable`
reports the local `a` of `void(float a) f = { float a; }` as a
redeclaration, in the body and in a nested block alike, and the compile
fails. -/
theorem parameter_found_from_watermark :
    found (parser_find_local scope_state "x" 2) = some ("x", TYPE_STRING) ∧
      found (parser_find_local scope_state "x" 7) = some ("x", TYPE_STRING) ∧
      compiled (parser_compile parser_cleared parameter_redeclared) = some (false, 2, ["f"], [(0, [])]) ∧
      compiled (parser_compile parser_cleared parameter_redeclared_nested) =
        some (false, 2, ["f"], [(0, [])]) := by
  exact ⟨by decide!, by decide!, by decide!, by decide!⟩

/-! ## Order of code generation -/

/-- The calls of a loop over Values are made in the order of the list: all
of them when the loop succeeds, those up to the failing one otherwise. -/
theorem finish_globals_calls {σ : Type} (m : ir_model σ) (vs : List ast_expression) :
    ∀ ir, (finish_globals m vs ir).2.2 <+: vs.map .global_codegen ∧
      ((finish_globals m vs ir).1 = true →
        (finish_globals m vs ir).2.2 = vs.map .global_codegen) := by
  induction vs with
  | nil =>
    intro ir
    exact ⟨List.prefix_refl _, fun _ => rfl⟩
  | cons v vs ih =>
    intro ir
    unfold finish_globals
    simp only []
    split
    · refine ⟨?_, fun h => by cases h⟩
      exact ⟨vs.map .global_codegen, rfl⟩
    · obtain ⟨h1, h2⟩ := ih (m.global_codegen v ir).2
      refine ⟨?_, fun h => ?_⟩
      · simp only [List.map_cons]
        exact (List.prefix_cons_inj _).2 h1
      · simp only [List.map_cons]
        rw [h2 h]

/-- The calls of the loop over the functions are made in the order of the
list, code generation before finalization. -/
theorem finish_functions_calls {σ : Type} (m : ir_model σ) (fs : List ast_function) :
    ∀ ir, (finish_functions m fs ir).2.2 <+:
        fs.flatMap (fun f => [.function_codegen f, .function_finalize f]) ∧
      ((finish_functions m fs ir).1 = true →
        (finish_functions m fs ir).2.2 =
          fs.flatMap (fun f => [.function_codegen f, .function_finalize f])) := by
  induction fs with
  | nil =>
    intro ir
    exact ⟨List.prefix_refl _, fun _ => rfl⟩
  | cons f fs ih =>
    intro ir
    unfold finish_functions
    simp only []
    split
    · refine ⟨?_, fun h => by cases h⟩
      exact ⟨.function_finalize f ::
        fs.flatMap (fun f => [.function_codegen f, .function_finalize f]), rfl⟩
    · split
      · refine ⟨?_, fun h => by cases h⟩
        exact ⟨fs.flatMap (fun f => [.function_codegen f, .function_finalize f]), rfl⟩
      · obtain ⟨h1, h2⟩ := ih (m.function_finalize f (m.function_codegen f ir).2).2
        refine ⟨?_, fun h => ?_⟩
        · simp only [List.flatMap_cons, List.cons_append, List.nil_append]
          exact (List.prefix_cons_inj _).2 ((List.prefix_cons_inj _).2 h1)
        · simp only [List.flatMap_cons, List.cons_append, List.nil_append]
          rw [h2 h]

/-- A beginning of a list is a beginning of the list with more appended. -/
theorem prefix_first {α : Type} {a b : List α} (c : List α) (h : a <+: b) : a <+: b ++ c :=
  h.trans (List.prefix_append _ _)

/-- A beginning of the second part, after the whole first part. -/
theorem prefix_after {α : Type} (a : List α) {b c : List α} (h : b <+: c) :
    a ++ b <+: a ++ c :=
  (List.prefix_append_right_inj a).2 h

/-- Every call succeeds on the accepting builder: a loop over Values. -/
theorem finish_globals_accepting (vs : List ast_expression) :
    finish_globals ir_accepting vs () = (true, (), vs.map .global_codegen) := by
  induction vs with
  | nil => rfl
  | cons v vs ih =>
    have h : ir_accepting.global_codegen v () = (true, ()) := rfl
    simp only [finish_globals, h, ih, Bool.not_true, Bool.false_eq_true, if_false, List.map_cons]

/-- Every call succeeds on the accepting builder: the loop over the
functions. -/
theorem finish_functions_accepting (fs : List ast_function) :
    finish_functions ir_accepting fs () =
      (true, (), fs.flatMap (fun f => [.function_codegen f, .function_finalize f])) := by
  induction fs with
  | nil => rfl
  | cons f fs ih =>
    have h : ir_accepting.function_codegen f () = (true, ()) := rfl
    have h1 : ir_accepting.function_finalize f () = (true, ()) := rfl
    simp only [finish_functions, h, h1, ih, Bool.not_true, Bool.false_eq_true, if_false,
      List.flatMap_cons, List.cons_append, List.nil_append]

/-- C28: the calls that `parser_finish` makes on the IR builder are, in
this order, `ast_global_codegen` on the interned float constants, on the
interned string constants and on the interned vector constants, each pool in
the order of its list, then on the globals that are Values in the order of
the globals list, then `ast_function_codegen` and `ir_function_finalize` on
each function in the order of the functions list, then the dump and the
output: the calls made are always a beginning of that sequence, they are the
whole sequence when `parser_finish` returns true, and on a builder that
accepts every call a parser without errors makes the whole sequence.  So no
global is handed over before an interned constant: for
`float x; float y; void() foo = { x = y + 1; }` the constant 1.0 comes
first; the Member aliases of a vector are passed over. -/
theorem finish_emission_order {σ : Type} (m : ir_model σ) (parser : parser_t) :
    (parser_finish m parser).2 <+: emission_order parser ∧
      ((parser_finish m parser).1 = true →
        (parser_finish m parser).2 = emission_order parser) ∧
      (parser.errors = 0 →
        parser_finish ir_accepting parser = (true, emission_order parser)) ∧
      emitted (parser_compile parser_cleared scenario_qc_style) =
        some (true, ["#IMMEDIATE", "x", "y", "foo", "codegen foo", "finalize foo", "dump",
          "generate"]) ∧
      emitted (parser_compile parser_cleared [tk_vector, tk_ident "v", tk_ch ';']) =
        some (true, ["v", "dump", "generate"]) := by
  refine ⟨?_, ?_, ?_, by decide!, by decide!⟩
  · unfold parser_finish emission_order
    split
    · exact List.nil_prefix
    · split
      · exact List.nil_prefix
      · rename_i ir _
        simp only []
        obtain ⟨p1, e1⟩ := finish_globals_calls m parser.imm_float ir
        split
        · exact prefix_first _ (prefix_first _ (prefix_first _ (prefix_first _ (prefix_first _ p1))))
        · rename_i h1
          rw [e1 (by simpa using h1)]
          obtain ⟨p2, e2⟩ := finish_globals_calls m parser.imm_string
            (finish_globals m parser.imm_float ir).2.1
          split
          · exact prefix_first _ (prefix_first _ (prefix_first _ (prefix_first _
              (prefix_after _ p2))))
          · rename_i h2
            rw [e2 (by simpa using h2)]
            obtain ⟨p3, e3⟩ := finish_globals_calls m parser.imm_vector
              (finish_globals m parser.imm_string (finish_globals m parser.imm_float ir).2.1).2.1
            split
            · exact prefix_first _ (prefix_first _ (prefix_first _ (prefix_after _ p3)))
            · rename_i h3
              rw [e3 (by simpa using h3)]
              obtain ⟨p4, e4⟩ := finish_globals_calls m (global_values parser)
                (finish_globals m parser.imm_vector (finish_globals m parser.imm_string
                  (finish_globals m parser.imm_float ir).2.1).2.1).2.1
              split
              · exact prefix_first _ (prefix_first _ (prefix_after _ p4))
              · rename_i h4
                rw [e4 (by simpa using h4)]
                obtain ⟨p5, e5⟩ := finish_functions_calls m parser.functions
                  (finish_globals m (global_values parser) (finish_globals m parser.imm_vector
                    (finish_globals m parser.imm_string
                      (finish_globals m parser.imm_float ir).2.1).2.1).2.1).2.1
                split
                · exact prefix_first _ (prefix_after _ p5)
                · rename_i h5
                  rw [e5 (by simpa using h5)]
  · unfold parser_finish emission_order
    split
    · intro h
      cases h
    · split
      · intro h
        cases h
      · rename_i ir _
        simp only []
        split
        · intro h
          cases h
        · rename_i h1
          split
          · intro h
            cases h
          · rename_i h2
            split
            · intro h
              cases h
            · rename_i h3
              split
              · intro h
                cases h
              · rename_i h4
                split
                · intro h
                  cases h
                · rename_i h5
                  intro _
                  rw [(finish_globals_calls m parser.imm_float ir).2 (by simpa using h1),
                    (finish_globals_calls m parser.imm_string _).2 (by simpa using h2),
                    (finish_globals_calls m parser.imm_vector _).2 (by simpa using h3),
                    (finish_globals_calls m (global_values parser) _).2 (by simpa using h4),
                    (finish_functions_calls m parser.functions _).2 (by simpa using h5)]
  · intro h
    have hb : ir_accepting.builder_new = some () := rfl
    have hg : ∀ s, ir_accepting.builder_generate s = true := fun _ => rfl
    unfold parser_finish emission_order
    simp [h, hb, hg, finish_globals_accepting, finish_functions_accepting]

/-! ## Success and the error counter -/

/-- The declaration loop returns true only with the error counter at zero. -/
theorem compile_loop_true (fuel : Nat) :
    ∀ p, (compile_loop fuel p).sat (fun r => r.1 = true → r.2.errors = 0) := by
  induction fuel with
  | zero =>
    intro p
    unfold compile_loop
    trivial
  | succ n ih =>
    intro p
    unfold compile_loop
    refine sat_ite (fun _ => ?_) (fun _ => ?_)
    · apply sat_bind_all
      intro r
      refine sat_ite (fun _ => ?_) (fun _ => ih _)
      intro h
      cases h
    · intro h
      simpa using h

/-- The state `clean_state input` is the state in which `parser_compile`
reads the first token when it is given the parser that `parser_init` leaves
on a cleared block. -/
theorem clean_state_eq (input : List token) :
    ({ parser_cleared with lex := { lex_open input with noops := true } } : parser_t) =
      clean_state input :=
  rfl

/-- The function `parser_compile` returns true only with the error counter
at zero. -/
theorem parser_compile_true (parser : parser_t) (input : List token) :
    (parser_compile parser input).sat (fun r => r.1 = true → r.2.errors = 0) := by
  unfold parser_compile
  simp only []
  refine sat_ite (fun _ => compile_loop_true _ _) (fun _ => ?_)
  intro h
  simpa using h

/-- C29: `parser_compile` returns true only if the error counter is zero at
the end; a round of its declaration loop that returns true has dispatched a
declaration that succeeded and gone on from the state that declaration left;
when a declaration fails the loop counts one more error and returns false at
once, without a further round; and `parser_finish` with a nonzero error
counter returns false without a call on the IR builder.  For
`float x; y; float z;` the compile stops at `y`: `z` is not declared. -/
theorem success_needs_zero_errors :
    (∀ parser input q, parser_compile parser input = .done (true, q) → q.errors = 0) ∧
      (∀ fuel p r, p.tok ≠ TOKEN_EOF → p.tok.is_error = false →
        compile_loop (fuel + 1) p = .done (true, r) →
        ∃ q, parser_do p = .done (true, q) ∧ compile_loop fuel q = .done (true, r)) ∧
      (∀ fuel p q, p.tok ≠ TOKEN_EOF → p.tok.is_error = false →
        parser_do p = .done (false, q) →
        compile_loop (fuel + 1) p = .done (false, parseerror q)) ∧
      (∀ (σ : Type) (m : ir_model σ) p, p.errors ≠ 0 → parser_finish m p = (false, [])) ∧
      compiled (parser_compile parser_cleared [tk_float, tk_ident "x", tk_ch ';', tk_ident "y", tk_ch ';',
        tk_float, tk_ident "z", tk_ch ';']) = some (false, 2, ["x"], []) := by
  refine ⟨?_, ?_, ?_, ?_, by decide!⟩
  · intro parser input q h
    have hs := parser_compile_true parser input
    rw [h] at hs
    exact hs rfl
  · intro fuel p r h1 h2 h
    rw [compile_loop] at h
    simp only [h1, h2, ne_eq, not_false_eq_true, Bool.not_false, and_self, if_true] at h
    cases hd : parser_do p with
    | done x =>
      rw [hd] at h
      simp only [Outcome.bind] at h
      obtain ⟨ok, q⟩ := x
      cases ok with
      | false => simp at h
      | true => exact ⟨q, rfl, by simpa using h⟩
    | undefined =>
      rw [hd] at h
      simp [Outcome.bind] at h
    | timeout =>
      rw [hd] at h
      simp [Outcome.bind] at h
  · intro fuel p q h1 h2 hd
    rw [compile_loop]
    simp [h1, h2, hd, Outcome.bind]
  · intro σ m p h
    unfold parser_finish
    simp [h]

/-! ## The error counter in the expression parser -/

/-- C35, evaluated: with float globals `a`, `b`, on `b = ( a = ) ;`, a
token stream that the lexer delivers to its end, `parser_expression` returns
NULL and counts no error.  At the `)`, met where an operand is expected,
`parser_close_paren` runs in functions-only mode, reduces the inner `=` over
`b` and `a`, reaches the marker of the `(` and returns false without a
diagnostic.  The other failures of a closing paren are counted: `( ) ;` and
`a ) ;` count one error each. -/
theorem silent_failure_at_closing_paren :
    returned_null (parser_expression (body_state TYPE_VOID
        [tk_ident "b", tk_op "=", tk_ch '(', tk_ident "a", tk_op "=", tk_ch ')', tk_ch ';',
          tk_ch '}'])) = true ∧
      errors_after (parser_expression (body_state TYPE_VOID
        [tk_ident "b", tk_op "=", tk_ch '(', tk_ident "a", tk_op "=", tk_ch ')', tk_ch ';',
          tk_ch '}'])) = some 0 ∧
      reduced (parser_close_paren (body_state TYPE_VOID [tk_ch ')', tk_ch ';', tk_ch '}'])
        ⟨[syexp pos0 (var_of "b" TYPE_FLOAT), syexp pos0 (var_of "a" TYPE_FLOAT)],
          [syop pos0 4, syparen pos0 1 0, syop pos0 4]⟩ true) = false ∧
      errors_after (parser_expression (body_state TYPE_VOID
        [tk_ch '(', tk_ch ')', tk_ch ';', tk_ch '}'])) = some 1 ∧
      errors_after (parser_expression (body_state TYPE_VOID
        [tk_ident "a", tk_ch ')', tk_ch ';', tk_ch '}'])) = some 1 := by
  exact ⟨by decide!, by decide!, by decide!, by decide!, by decide!⟩

/-- C36, evaluated: with the float function `f1(float p)`, the function
`f0()` and float globals `a`, `b`, `c`, `parser_expression` returns NULL
with one error for `a = f1 ( b ) + c ;`: the `)` of a call with an argument
is met where an operator is expected, and after it the loop expects an
operand, so the `+` is rejected.  The `)` of `f0 ( )` is met where an
operand is expected, and `a = f0 ( ) + c ;` gives
`STORE_F(a, ADD_F(Call(f0), c))`. -/
theorem call_result_not_an_operand :
    returned_null (parser_expression (call_state
        [tk_ident "a", tk_op "=", tk_ident "f1", tk_ch '(', tk_ident "b", tk_ch ')', tk_op "+",
          tk_ident "c", tk_ch ';', tk_ch '}'])) = true ∧
      errors_after (parser_expression (call_state
        [tk_ident "a", tk_op "=", tk_ident "f1", tk_ch '(', tk_ident "b", tk_ch ')', tk_op "+",
          tk_ident "c", tk_ch ';', tk_ch '}'])) = some 1 ∧
      returned_shape (parser_expression (call_state
        [tk_ident "a", tk_op "=", tk_ident "f0", tk_ch '(', tk_ch ')', tk_op "+",
          tk_ident "c", tk_ch ';', tk_ch '}'])) =
        some ["STORE_F", "a", "ADD_F", "call", "f0", "(", ")", "c"] ∧
      returned_shape (parser_expression (call_state
        [tk_ident "a", tk_op "=", tk_ident "f1", tk_ch '(', tk_ident "b", tk_ch ')', tk_ch ';',
          tk_ch '}'])) = some ["STORE_F", "a", "call", "f1", "(", "b", ")"] := by
  exact ⟨by decide!, by decide!, by decide!, by decide!⟩

/-! ## Scope bookkeeping -/

/-- A state has its own watermark and active function. -/
theorem frame_refl (p : parser_t) : same_frame p p :=
  ⟨rfl, rfl⟩

/-- Keeping the watermark and the active function composes. -/
theorem frame_trans {p q r : parser_t} (h1 : same_frame p q) (h2 : same_frame q r) :
    same_frame p r :=
  ⟨h2.1.trans h1.1, h2.2.trans h1.2⟩

/-- Keeping the scopes keeps the watermark and the active function. -/
theorem frame_scope {p q : parser_t} (h : same_scope p q) : same_frame p q :=
  ⟨h.2.2.1, h.2.2.2.2⟩

/-- Registering a declarator keeps the watermark and the active function. -/
theorem register_frame (p1 : parser_t) (lb : Option ast_expression) (ctx : lex_ctx)
    (var0 : ast_expression) (isfunc : Bool) :
    same_frame p1 (variable_register p1 lb ctx var0 isfunc).parser := by
  unfold variable_register
  cases isfunc <;> cases lb <;> exact ⟨rfl, rfl⟩

/-- The initializer `= # N` keeps the watermark and the active function. -/
theorem variable_builtin_frame (st : parser_t) (lb : Option ast_expression)
    (func : Option Nat) : same_frame st (variable_builtin st lb func).2 := by
  unfold variable_builtin
  split
  · exact ⟨rfl, rfl⟩
  · split
    · exact ⟨rfl, rfl⟩
    · simp only []
      split
      · exact ⟨rfl, rfl⟩
      · split
        · exact ⟨rfl, rfl⟩
        · split
          · exact ⟨rfl, rfl⟩
          · exact ⟨rfl, rfl⟩

/-- Statements, blocks and declarations return with the block watermark and
the active function they were entered with, whether they succeed or not. -/
theorem statement_frame (fuel : Nat) :
    (∀ p b, (parse_statement fuel p b).sat (fun r => same_frame p r.parser)) ∧
    (∀ p b, (parse_block_loop fuel p b).sat (fun r => same_frame p r.2)) ∧
    (∀ p, (parse_block fuel p).sat (fun r => same_frame p r.2)) ∧
    (∀ p lb t, (variable_loop fuel p lb t).sat (fun r => same_frame p r.2.2)) := by
  induction fuel with
  | zero =>
    refine ⟨?_, ?_, ?_, ?_⟩
    · intro p b
      unfold parse_statement
      trivial
    · intro p b
      unfold parse_block_loop
      trivial
    · intro p
      unfold parse_block
      trivial
    · intro p lb t
      unfold variable_loop
      trivial
  | succ n ih =>
    obtain ⟨ihs, ihl, ihb, ihv⟩ := ih
    refine ⟨?_, ?_, ?_, ?_⟩
    · intro p b
      unfold parse_statement
      split
      · split
        · exact ⟨rfl, rfl⟩
        · apply sat_bind _ _ _ _ (ihv _ _ _)
          intro r hr
          split
          · exact hr
          · exact hr
      · split
        · split
          · exact sat_mono (parse_return_scope _ _) (fun a ha => frame_scope ha)
          · exact ⟨rfl, rfl⟩
        · split
          · apply sat_bind _ _ _ _ (ihb _)
            intro r hr
            split
            · exact hr
            · exact hr
          · apply sat_bind _ _ _ _ (parser_expression_scope _)
            intro r hr
            split
            · exact frame_scope hr
            · exact frame_scope hr
    · intro p b
      rw [parse_block_loop]
      split
      · apply sat_bind _ _ _ _ (ihs _ _)
        intro r hr
        split
        · exact hr
        · split
          · exact sat_mono (ihl _ _) (fun a ha => frame_trans hr ha)
          · exact sat_mono (ihl _ _) (fun a ha => frame_trans hr ha)
          · trivial
      · split
        · exact frame_refl _
        · exact ⟨rfl, rfl⟩
    · intro p
      rw [parse_block]
      simp only []
      split
      · exact ⟨rfl, rfl⟩
      · apply sat_bind _ _ _ _ (ihl _ _)
        intro r hr
        exact ⟨rfl, hr.2⟩
    · intro p lb t
      rw [variable_loop]
      simp only []
      refine sat_ite (fun _ => ⟨rfl, rfl⟩) (fun _ => ?_)
      apply sat_bind _ _ _ _ (parse_type_scope _ _)
      intro tr htr
      have h1 : same_frame p tr.2.2 := frame_trans ⟨rfl, rfl⟩ (frame_scope htr)
      obtain ⟨v, isfunc, p1⟩ := tr
      cases v with
      | none => exact h1
      | some var0 =>
        simp only []
        have h1e : same_frame p (parseerror p1) := frame_trans h1 ⟨rfl, rfl⟩
        refine sat_ite (fun _ => h1e) (fun _ => ?_)
        refine sat_ite (fun _ => h1e) (fun _ => ?_)
        apply sat_bind_all
        intro dup
        refine sat_ite (fun _ => h1e) (fun _ => ?_)
        have hd : same_frame p (variable_register p1 lb (parser_ctx (parser_next p).2) var0
            isfunc).parser := frame_trans h1 (register_frame _ _ _ _ _)
        generalize variable_register p1 lb (parser_ctx (parser_next p).2) var0 isfunc = d
          at hd ⊢
        have hd1 : same_frame p (parser_next d.parser).2 := frame_trans hd ⟨rfl, rfl⟩
        have hd2 : same_frame p (parser_next (parser_next d.parser).2).2 :=
          frame_trans hd1 ⟨rfl, rfl⟩
        refine sat_ite (fun _ => hd1) (fun _ => ?_)
        refine sat_ite (fun _ => sat_ite (fun _ => frame_trans hd1 ⟨rfl, rfl⟩)
          (fun _ => frame_trans hd1 ⟨rfl, rfl⟩)) (fun _ => ?_)
        refine sat_ite (fun _ => sat_mono (ihv _ _ _) (fun a ha => frame_trans hd1 ha))
          (fun _ => ?_)
        refine sat_ite (fun _ => frame_trans hd1 ⟨rfl, rfl⟩) (fun _ => ?_)
        refine sat_ite (fun _ => hd2) (fun _ => ?_)
        refine sat_ite (fun _ => ?_) (fun _ => ?_)
        · refine sat_ite (fun _ => frame_trans hd2 ⟨rfl, rfl⟩) (fun _ => ?_)
          apply sat_bind _ _ _ _ (ihb _)
          intro br hbr
          have hb : same_frame p { br.2 with
              function := (parser_next (parser_next d.parser).2).2.function } :=
            ⟨hbr.1.trans hd2.1, hd2.2⟩
          obtain ⟨bo, bq⟩ := br
          cases bo with
          | none => exact hb
          | some block =>
            simp only []
            split
            · trivial
            · exact hb
        · have hafter : same_frame p
              (if (parser_next (parser_next d.parser).2).2.tok = ch '#' then
                variable_builtin (parser_next (parser_next d.parser).2).2 lb d.func
              else (true, parseerror (parser_next (parser_next d.parser).2).2)).2 := by
            split
            · exact frame_trans hd2
                (variable_builtin_frame (parser_next (parser_next d.parser).2).2 lb d.func)
            · exact frame_trans hd2 ⟨rfl, rfl⟩
          generalize (if (parser_next (parser_next d.parser).2).2.tok = ch '#' then
                variable_builtin (parser_next (parser_next d.parser).2).2 lb d.func
              else (true, parseerror (parser_next (parser_next d.parser).2).2)) = after
            at hafter ⊢
          have ha1 : same_frame p (parser_next after.2).2 := frame_trans hafter ⟨rfl, rfl⟩
          refine sat_ite (fun _ => hafter) (fun _ => ?_)
          refine sat_ite (fun _ => ha1) (fun _ => ?_)
          refine sat_ite (fun _ => sat_mono (ihv _ _ _) (fun a ha => frame_trans ha1 ha))
            (fun _ => ?_)
          exact sat_ite (fun _ => frame_trans ha1 ⟨rfl, rfl⟩)
            (fun _ => frame_trans ha1 ⟨rfl, rfl⟩)

/-- C34: after `parser_parse_block` returns, with a Block or with NULL, the
block watermark has the value it had before the call, and so has the active
function; after `parser_variable` returns, true or false, from a global or a
local declaration, with or without a `= {` body, the active function has
the value it had before the call, and so has the watermark.  For
`void() f = { { float x; } }` and for the failing `void() f = { x; }` the
compile ends with watermark 0 and no active function. -/
theorem bookkeeping_restored :
    (∀ p, (parser_parse_block p).sat
      (fun r => r.2.blocklocal = p.blocklocal ∧ r.2.function = p.function)) ∧
    (∀ p lb, (parser_variable p lb).sat
      (fun r => r.2.2.function = p.function ∧ r.2.2.blocklocal = p.blocklocal)) ∧
    frame_after (parser_compile parser_cleared (body_open tk_void "f" ++
      [tk_ch '{', tk_float, tk_ident "x", tk_ch ';', tk_ch '}', tk_ch '}'])) =
      some (true, 0, none) ∧
    frame_after (parser_compile parser_cleared (body_open tk_void "f" ++
      [tk_ident "x", tk_ch ';', tk_ch '}'])) = some (false, 0, none) := by
  refine ⟨?_, ?_, by decide!, by decide!⟩
  · intro p
    exact (statement_frame _).2.2.1 p
  · intro p lb
    exact sat_mono ((statement_frame _).2.2.2 p lb _) (fun a ha => ⟨ha.2, ha.1⟩)

/-! ## Function-typed declarators -/

/-- C33: a declarator accepted by `parser_variable` (in any round of its
loop, global or inside a block) whose parsed type is a function type is
registered under its name as a Value of type function whose return type is
the parsed Value of the base type, now under the declared name and without
parameters, and which carries the parsed parameters; one Function node bound
to that Value, with builtin index 0 and no block, is appended to the
functions.  For a declarator that is no function the functions are
unchanged.  This is the state in which a declaration ending in `;` returns
and in which the next round starts after a `,`. -/
theorem function_declarator_bound (fuel : Nat) (parser : parser_t)
    (lb : Option ast_expression) (basetype : qc_type) (var0 : ast_expression) (isfunc : Bool)
    (p1 : parser_t)
    (hn : (parser_next parser).1 = true)
    (ht : parser_parse_type (parser_next parser).2 basetype = .done (some var0, isfunc, p1))
    (hid : p1.tok = TOKEN_IDENT)
    (hglobal : lb.isNone = true → parser_find_global p1 (parser_tokval p1) = none)
    (hlocal : lb.isSome = true →
      parser_find_local p1 (parser_tokval p1) p1.blocklocal = .done none) :
    ∃ c ps, var0 = .value c "<unnamed>" basetype none ps false .none ∧
      ∀ fval, fval = ast_expression.value (parser_ctx (parser_next parser).2) (parser_tokval p1)
          TYPE_FUNCTION (some (.value c (parser_tokval p1) basetype none [] false .none)) ps
          false .none →
        (isfunc = true →
          ((parser_next p1).2.tok = ch ';' →
            ∃ ok q, variable_loop (fuel + 1) parser lb basetype =
                .done (ok, lb.map (fun b => ast_block_locals_add b fval), q) ∧
              q.functions = parser.functions ++
                [⟨parser_ctx (parser_next parser).2, parser_tokval p1, fval, 0, []⟩] ∧
              (lb.isNone = true → q.globals = parser.globals ++ [⟨parser_tokval p1, fval⟩]) ∧
              (lb.isSome = true → q.locals = parser.locals ++ [⟨parser_tokval p1, fval⟩])) ∧
          ((parser_next p1).2.tok = ch ',' →
            ∃ q, variable_loop (fuel + 1) parser lb basetype =
                variable_loop fuel q (lb.map (fun b => ast_block_locals_add b fval)) basetype ∧
              q.functions = parser.functions ++
                [⟨parser_ctx (parser_next parser).2, parser_tokval p1, fval, 0, []⟩] ∧
              (lb.isNone = true → q.globals = parser.globals ++ [⟨parser_tokval p1, fval⟩]) ∧
              (lb.isSome = true → q.locals = parser.locals ++ [⟨parser_tokval p1, fval⟩]))) ∧
        (isfunc = false →
          ((parser_next p1).2.tok = ch ';' →
            ∃ ok b q, variable_loop (fuel + 1) parser lb basetype = .done (ok, b, q) ∧
              q.functions = parser.functions) ∧
          ((parser_next p1).2.tok = ch ',' →
            ∃ b q, variable_loop (fuel + 1) parser lb basetype =
                variable_loop fuel q b basetype ∧
              q.functions = parser.functions)) := by
  obtain ⟨hs, hv⟩ := (parse_type_frame _).1 _ _ _ _ _ ht
  obtain ⟨c, ps, rfl⟩ := hv var0 rfl
  obtain ⟨hg, hl, -, hfs, -⟩ := hs
  simp only [(same_scope_next parser).1] at hg
  simp only [(same_scope_next parser).2.1] at hl
  simp only [(same_scope_next parser).2.2.2.1] at hfs
  obtain ⟨hsemi, hcomma⟩ :=
    variable_loop_step fuel parser lb basetype _ isfunc p1 hn ht hid hglobal hlocal
  refine ⟨c, ps, rfl, ?_⟩
  intro fval hfval
  constructor
  · intro hfunc
    subst hfunc
    obtain ⟨hvar, -, hfuns⟩ :=
      register_function p1 lb (parser_ctx (parser_next parser).2) c basetype ps
    obtain ⟨-, -, hglob, hloc, hblock⟩ :=
      register_scope p1 lb (parser_ctx (parser_next parser).2) c basetype ps true
    rw [hvar] at hglob hloc hblock
    rw [← hfval] at hglob hloc hblock hfuns
    have hent : var_entries fval = [⟨parser_tokval p1, fval⟩] := by
      rw [hfval]
      simp [var_entries, ast_expression.vtype, ast_expression.name]
    rw [hent] at hglob hloc
    constructor
    · intro h
      rw [hsemi h, hblock]
      refine ⟨_, _, rfl, ?_, ?_, ?_⟩
      · exact hfuns.trans (by rw [hfs])
      · intro hnone
        exact hglob.trans (by rw [if_pos hnone, hg])
      · intro hsome
        have hne : ¬ lb.isNone = true := by
          cases lb <;> simp at hsome ⊢
        exact hloc.trans (by rw [if_neg hne, hl])
    · intro h
      rw [hcomma h, hblock]
      refine ⟨_, rfl, ?_, ?_, ?_⟩
      · exact hfuns.trans (by rw [hfs])
      · intro hnone
        exact hglob.trans (by rw [if_pos hnone, hg])
      · intro hsome
        have hne : ¬ lb.isNone = true := by
          cases lb <;> simp at hsome ⊢
        exact hloc.trans (by rw [if_neg hne, hl])
  · intro hfunc
    subst hfunc
    obtain ⟨-, hfuns⟩ := register_no_function p1 lb (parser_ctx (parser_next parser).2)
      (.value c "<unnamed>" basetype none ps false .none)
    constructor
    · intro h
      rw [hsemi h]
      exact ⟨_, _, _, rfl, hfuns.trans hfs⟩
    · intro h
      rw [hcomma h]
      exact ⟨_, _, rfl, hfuns.trans hfs⟩

theorem function_declarator_bound_witness :
    (parser_next prototype_state).1 = true ∧
      parser_parse_type (parser_next prototype_state).2 TYPE_FLOAT =
        .done (some (.value pos0 "<unnamed>" TYPE_FLOAT none
          [ast_value_new pos0 "a" TYPE_FLOAT] false .none), true, prototype_ident_state) ∧
      prototype_ident_state.tok = TOKEN_IDENT ∧
      parser_find_global prototype_ident_state (parser_tokval prototype_ident_state) = none ∧
      (parser_next prototype_ident_state).2.tok = ch ';' ∧
      ∃ c ps, ast_expression.value pos0 "<unnamed>" TYPE_FLOAT none
          [ast_value_new pos0 "a" TYPE_FLOAT] false .none =
          .value c "<unnamed>" TYPE_FLOAT none ps false .none ∧
        ∀ fval, fval = ast_expression.value (parser_ctx (parser_next prototype_state).2)
            (parser_tokval prototype_ident_state) TYPE_FUNCTION
            (some (.value c (parser_tokval prototype_ident_state) TYPE_FLOAT none [] false .none))
            ps false .none →
          (true = true →
            ((parser_next prototype_ident_state).2.tok = ch ';' →
              ∃ ok q, variable_loop (0 + 1) prototype_state none TYPE_FLOAT =
                  .done (ok, (none : Option ast_expression).map
                    (fun b => ast_block_locals_add b fval), q) ∧
                q.functions = prototype_state.functions ++
                  [⟨parser_ctx (parser_next prototype_state).2,
                    parser_tokval prototype_ident_state, fval, 0, []⟩] ∧
                ((none : Option ast_expression).isNone = true →
                  q.globals = prototype_state.globals ++
                    [⟨parser_tokval prototype_ident_state, fval⟩]) ∧
                ((none : Option ast_expression).isSome = true →
                  q.locals = prototype_state.locals ++
                    [⟨parser_tokval prototype_ident_state, fval⟩])) ∧
            ((parser_next prototype_ident_state).2.tok = ch ',' →
              ∃ q, variable_loop (0 + 1) prototype_state none TYPE_FLOAT =
                  variable_loop 0 q ((none : Option ast_expression).map
                    (fun b => ast_block_locals_add b fval)) TYPE_FLOAT ∧
                q.functions = prototype_state.functions ++
                  [⟨parser_ctx (parser_next prototype_state).2,
                    parser_tokval prototype_ident_state, fval, 0, []⟩] ∧
                ((none : Option ast_expression).isNone = true →
                  q.globals = prototype_state.globals ++
                    [⟨parser_tokval prototype_ident_state, fval⟩]) ∧
                ((none : Option ast_expression).isSome = true →
                  q.locals = prototype_state.locals ++
                    [⟨parser_tokval prototype_ident_state, fval⟩]))) ∧
          (true = false →
            ((parser_next prototype_ident_state).2.tok = ch ';' →
              ∃ ok b q, variable_loop (0 + 1) prototype_state none TYPE_FLOAT =
                  .done (ok, b, q) ∧
                q.functions = prototype_state.functions) ∧
            ((parser_next prototype_ident_state).2.tok = ch ',' →
              ∃ b q, variable_loop (0 + 1) prototype_state none TYPE_FLOAT =
                  variable_loop 0 q b TYPE_FLOAT ∧
                q.functions = prototype_state.functions)) :=
  ⟨rfl, rfl, rfl, rfl, rfl,
    function_declarator_bound 0 prototype_state none TYPE_FLOAT _ true prototype_ident_state
      rfl rfl rfl (fun _ => rfl) (fun h => by cases h)⟩

/-! ## The statements of a block -/

/-- Two returned results are related as `R` says. -/
theorem rel_done {α β : Type} (R : α → β → Prop) (a : α) (b : β) :
    Outcome.rel R (.done a) (.done b) ↔ R a b :=
  Iff.rfl

/-- Both calls branch on the same condition. -/
theorem rel_ite {α β : Type} {R : α → β → Prop} {c : Prop} [Decidable c]
    {x x2 : Outcome α} {y y2 : Outcome β}
    (h1 : c → Outcome.rel R x y) (h2 : ¬c → Outcome.rel R x2 y2) :
    Outcome.rel R (if c then x else x2) (if c then y else y2) := by
  by_cases h : c
  · rw [if_pos h, if_pos h]
    exact h1 h
  · rw [if_neg h, if_neg h]
    exact h2 h

/-- Both calls continue after the same call. -/
theorem rel_bind_same {α β γ : Type} {R : β → γ → Prop} (x : Outcome α)
    (f : α → Outcome β) (g : α → Outcome γ) (h : ∀ a, Outcome.rel R (f a) (g a)) :
    Outcome.rel R (x.bind f) (x.bind g) := by
  cases x with
  | done a => exact h a
  | undefined => trivial
  | timeout => trivial

/-- Both calls continue after calls that end alike. -/
theorem rel_bind {α α2 β γ : Type} {Q : α → α2 → Prop} {R : β → γ → Prop}
    {x : Outcome α} {y : Outcome α2} (f : α → Outcome β) (g : α2 → Outcome γ)
    (hxy : Outcome.rel Q x y) (h : ∀ a b, Q a b → Outcome.rel R (f a) (g b)) :
    Outcome.rel R (x.bind f) (y.bind g) := by
  cases x <;> cases y <;> first | exact h _ _ hxy | trivial

/-- Inside a block a declarator is registered in the same way whatever the
block holds: the block only receives the variable. -/
theorem register_local (p1 : parser_t) (b : ast_expression) (ctx : lex_ctx)
    (var0 : ast_expression) (isfunc : Bool) :
    variable_register p1 (some b) ctx var0 isfunc =
      ⟨(variable_register p1 (some (ast_block_new pos0)) ctx var0 isfunc).var,
        (variable_register p1 (some (ast_block_new pos0)) ctx var0 isfunc).func,
        some (ast_block_locals_add b
          (variable_register p1 (some (ast_block_new pos0)) ctx var0 isfunc).var),
        (variable_register p1 (some (ast_block_new pos0)) ctx var0 isfunc).parser⟩ := by
  unfold variable_register
  cases isfunc <;> rfl

/-- A declaration inside a block handles the block it is given in one way
only: it appends the declared variables to its locals. -/
theorem variable_loop_graft (c : lex_ctx) (t : qc_type) (ls xs : List ast_expression)
    (c2 : lex_ctx) (t2 : qc_type) (xs2 : List ast_expression) (fuel : Nat) :
    ∀ p l0 bt, Outcome.rel
      (fun a b => a.1 = b.1 ∧ a.2.2 = b.2.2 ∧ grafted c t ls xs c2 t2 xs2 a.2.1 b.2.1)
      (variable_loop fuel p (some (.block c t (ls ++ l0) xs)) bt)
      (variable_loop fuel p (some (.block c2 t2 l0 xs2)) bt) := by
  induction fuel with
  | zero =>
    intro p l0 bt
    unfold variable_loop
    trivial
  | succ n ih =>
    intro p l0 bt
    have leaf : ∀ (ok : Bool) (q : parser_t), Outcome.rel
        (fun a b => a.1 = b.1 ∧ a.2.2 = b.2.2 ∧ grafted c t ls xs c2 t2 xs2 a.2.1 b.2.1)
        (.done (ok, some (.block c t (ls ++ l0) xs), q))
        (.done (ok, some (.block c2 t2 l0 xs2), q)) :=
      fun ok q => ⟨rfl, rfl, l0, rfl, rfl⟩
    rw [variable_loop, variable_loop]
    simp only []
    refine rel_ite (fun _ => leaf _ _) (fun _ => ?_)
    apply rel_bind_same
    intro tr
    obtain ⟨v, isfunc, p1⟩ := tr
    cases v with
    | none => exact leaf _ _
    | some var0 =>
      simp only []
      refine rel_ite (fun _ => leaf _ _) (fun _ => ?_)
      refine rel_ite (fun _ => leaf _ _) (fun _ => ?_)
      apply rel_bind_same
      intro dup
      refine rel_ite (fun _ => leaf _ _) (fun _ => ?_)
      rw [register_local p1 (.block c t (ls ++ l0) xs), register_local p1 (.block c2 t2 l0 xs2)]
      generalize variable_register p1 (some (ast_block_new pos0)) (parser_ctx (parser_next p).2)
        var0 isfunc = d
      simp only [ast_block_locals_add, List.append_assoc]
      have leaf2 : ∀ (ok : Bool) (q : parser_t), Outcome.rel
          (fun a b => a.1 = b.1 ∧ a.2.2 = b.2.2 ∧ grafted c t ls xs c2 t2 xs2 a.2.1 b.2.1)
          (.done (ok, some (.block c t (ls ++ (l0 ++ [d.var])) xs), q))
          (.done (ok, some (.block c2 t2 (l0 ++ [d.var]) xs2), q)) :=
        fun ok q => ⟨rfl, rfl, l0 ++ [d.var], rfl, rfl⟩
      refine rel_ite (fun _ => leaf2 _ _) (fun _ => ?_)
      refine rel_ite (fun _ => rel_ite (fun _ => leaf2 _ _) (fun _ => leaf2 _ _)) (fun _ => ?_)
      refine rel_ite (fun _ => ih _ _ _) (fun _ => ?_)
      refine rel_ite (fun _ => leaf2 _ _) (fun _ => ?_)
      refine rel_ite (fun _ => leaf2 _ _) (fun _ => ?_)
      refine rel_ite (fun _ => ?_) (fun _ => ?_)
      · refine rel_ite (fun _ => leaf2 _ _) (fun h => absurd rfl h)
      · rw [variable_builtin_local, variable_builtin_local]
        generalize (if (parser_next (parser_next d.parser).2).2.tok = ch '#'
          then (false, parseerror (parser_next (parser_next d.parser).2).2)
          else (true, parseerror (parser_next (parser_next d.parser).2).2)) = after
        refine rel_ite (fun _ => leaf2 _ _) (fun _ => ?_)
        refine rel_ite (fun _ => leaf2 _ _) (fun _ => ?_)
        refine rel_ite (fun _ => ih _ _ _) (fun _ => ?_)
        refine rel_ite (fun _ => leaf2 _ _) (fun _ => leaf2 _ _)

/-- The `return` statement hands the block it is given back as it is. -/
theorem parse_return_block (p : parser_t) (b1 b2 : Option ast_expression) :
    Outcome.rel
      (fun a b => a.ok = b.ok ∧ a.out = b.out ∧ a.parser = b.parser ∧
        a.block = b1 ∧ b.block = b2)
      (parse_return p b1) (parse_return p b2) := by
  unfold parse_return
  cases (p.function.bind fun i => p.functions.get? i) with
  | none => trivial
  | some f =>
    simp only []
    refine rel_ite (fun _ => ⟨rfl, rfl, rfl, rfl, rfl⟩) (fun _ => ?_)
    refine rel_ite (fun _ => ?_) (fun _ => ?_)
    · apply rel_bind_same
      intro r
      obtain ⟨e, q⟩ := r
      cases e with
      | none => exact ⟨rfl, rfl, rfl, rfl, rfl⟩
      | some exp =>
        simp only []
        cases f.vtype.next with
        | none => trivial
        | some rt => exact ⟨rfl, rfl, rfl, rfl, rfl⟩
    · refine rel_ite (fun _ => ?_) (fun _ => ⟨rfl, rfl, rfl, rfl, rfl⟩)
      cases f.vtype.next with
      | none => trivial
      | some rt => exact ⟨rfl, rfl, rfl, rfl, rfl⟩

/-- A statement handles the block it is given in one way only: a declaration
appends the declared variables to its locals, every other statement hands it
back as it is. -/
theorem statement_graft (c : lex_ctx) (t : qc_type) (ls xs : List ast_expression)
    (c2 : lex_ctx) (t2 : qc_type) (xs2 : List ast_expression) (fuel : Nat) (p : parser_t)
    (l0 : List ast_expression) :
    Outcome.rel
      (fun a b => a.ok = b.ok ∧ a.out = b.out ∧ a.parser = b.parser ∧
        grafted c t ls xs c2 t2 xs2 a.block b.block)
      (parse_statement fuel p (some (.block c t (ls ++ l0) xs)))
      (parse_statement fuel p (some (.block c2 t2 l0 xs2))) := by
  cases fuel with
  | zero =>
    unfold parse_statement
    trivial
  | succ n =>
    unfold parse_statement
    simp only []
    have leaf : ∀ (ok : Bool) (o : Option (Option ast_expression)) (q : parser_t), Outcome.rel
        (fun (a b : stmt_result) => a.ok = b.ok ∧ a.out = b.out ∧ a.parser = b.parser ∧
          grafted c t ls xs c2 t2 xs2 a.block b.block)
        (.done ⟨ok, some (.block c t (ls ++ l0) xs), o, q⟩)
        (.done ⟨ok, some (.block c2 t2 l0 xs2), o, q⟩) :=
      fun ok o q => ⟨rfl, rfl, rfl, l0, rfl, rfl⟩
    refine rel_ite (fun _ => ?_) (fun _ => ?_)
    · refine rel_bind _ _ (variable_loop_graft c t ls xs c2 t2 xs2 n p l0 _) ?_
      intro a b hab
      obtain ⟨h1, h2, h3⟩ := hab
      rw [h1, h2]
      refine rel_ite (fun _ => ⟨rfl, rfl, rfl, h3⟩) (fun _ => ⟨rfl, rfl, rfl, h3⟩)
    · refine rel_ite (fun _ => ?_) (fun _ => ?_)
      · refine rel_ite (fun _ => ?_) (fun _ => leaf _ _ _)
        have h := parse_return_block p (some (.block c t (ls ++ l0) xs))
          (some (.block c2 t2 l0 xs2))
        cases h1 : parse_return p (some (.block c t (ls ++ l0) xs)) <;>
          cases h2 : parse_return p (some (.block c2 t2 l0 xs2)) <;>
          rw [h1, h2] at h <;> first | exact h.elim | trivial | skip
        obtain ⟨e1, e2, e3, e4, e5⟩ := h
        exact ⟨e1, e2, e3, l0, e4, e5⟩
      · refine rel_ite (fun _ => ?_) (fun _ => ?_)
        · apply rel_bind_same
          intro r
          obtain ⟨e, q⟩ := r
          cases e with
          | none => exact leaf _ _ _
          | some inner => exact leaf _ _ _
        · apply rel_bind_same
          intro r
          obtain ⟨e, q⟩ := r
          cases e with
          | none => exact leaf _ _ _
          | some inner => exact leaf _ _ _

/-- The Block that the statement loop of `parser_parse_block` returns is the
Block it was entered with, extended by what the statements of
`statements_in_order` declared and stored, in their order; all of them
succeeded. -/
theorem block_loop_trace (fuel : Nat) :
    ∀ p c t ls xs, (parse_block_loop fuel p (.block c t ls xs)).sat (fun r =>
      ∀ b, r.1 = some b → ∃ rs, statements_in_order fuel p = .done rs ∧
        (∀ x ∈ rs, x.ok = true) ∧
        b = .block c t (ls ++ rs.flatMap stmt_result.declared)
          (xs ++ rs.filterMap stmt_result.node)) := by
  induction fuel with
  | zero =>
    intro p c t ls xs
    unfold parse_block_loop
    trivial
  | succ n ih =>
    intro p c t ls xs
    rw [parse_block_loop, statements_in_order]
    by_cases hc : p.tok ≠ TOKEN_EOF ∧ (!p.tok.is_error) = true ∧ p.tok ≠ ch '}'
    · rw [if_pos hc, if_pos hc]
      have h := statement_graft c t ls xs (parser_ctx p) TYPE_VOID [] n p []
      simp only [List.append_nil] at h
      unfold ast_block_new
      cases h1 : parse_statement n p (some (.block c t ls xs)) <;>
        cases h2 : parse_statement n p (some (.block (parser_ctx p) TYPE_VOID [] [])) <;>
        rw [h1, h2] at h <;> first | exact h.elim | trivial | skip
      rename_i r1 r2
      obtain ⟨ok1, blk1, out1, q1⟩ := r1
      obtain ⟨ok2, blk2, out2, q2⟩ := r2
      obtain ⟨e1, e2, e3, vs, e4, e5⟩ := h
      simp only [] at e1 e2 e3 e4 e5
      subst e1 e2 e3 e4 e5
      simp only [bind_done]
      cases ok1 with
      | false =>
        intro b hb
        cases hb
      | true =>
        simp only [Bool.not_true, Bool.false_eq_true, if_false]
        cases out1 with
        | none => trivial
        | some o =>
          cases o with
          | none =>
            simp only []
            refine sat_mono (ih q1 c t (ls ++ vs) xs) ?_
            intro r hr b hb
            obtain ⟨rs, hrs, hok, hblock⟩ := hr b hb
            refine ⟨⟨true, some (.block (parser_ctx p) TYPE_VOID vs []), some none, q1⟩ :: rs,
              ?_, ?_, ?_⟩
            · rw [hrs]
              rfl
            · intro x hx
              cases hx with
              | head => rfl
              | tail _ hx => exact hok x hx
            · rw [hblock]
              simp [stmt_result.declared, stmt_result.node, ast_expression.locals]
          | some e =>
            simp only [ast_block_exprs_add]
            refine sat_mono (ih q1 c t (ls ++ vs) (xs ++ [e])) ?_
            intro r hr b hb
            obtain ⟨rs, hrs, hok, hblock⟩ := hr b hb
            refine ⟨⟨true, some (.block (parser_ctx p) TYPE_VOID vs []), some (some e), q1⟩ :: rs,
              ?_, ?_, ?_⟩
            · rw [hrs]
              rfl
            · intro x hx
              cases hx with
              | head => rfl
              | tail _ hx => exact hok x hx
            · rw [hblock]
              simp [stmt_result.declared, stmt_result.node, ast_expression.locals]
    · rw [if_neg hc, if_neg hc]
      by_cases hb : p.tok ≠ ch '}'
      · rw [if_pos hb]
        intro b h
        cases h
      · rw [if_neg hb]
        intro b h
        cases h
        refine ⟨[], rfl, ?_, ?_⟩
        · intro x hx
          cases hx
        · simp

/-- C31: when `parser_parse_block` returns a Block, the statements between
`{` and the matching `}`, parsed one by one from the token after `{`, all
succeeded, and the Block is the empty Block created at that token whose
locals are the variables these statements declared and whose statements are
their non-null results, both in source order; a statement that starts with a
typename outside any block fails with one error.  For the body
`{ float x; x = a; vector v; { float y; y = b; } return a; }` the Block has
the locals `x`, `v` and three statements; `y` belongs to the nested Block. -/
theorem block_holds_statements_in_order :
    (∀ p, (parser_parse_block p).sat (fun r => ∀ b, r.1 = some b →
      ∃ rs, statements_in_order (3 * p.lex.input.length + 2)
          (block_entry p) = .done rs ∧
        (∀ x ∈ rs, x.ok = true) ∧
        b = .block (parser_ctx (block_entry p)) TYPE_VOID (rs.flatMap stmt_result.declared)
          (rs.filterMap stmt_result.node))) ∧
    (∀ p, p.tok = TOKEN_TYPENAME →
      parser_parse_statement p none = .done ⟨false, none, none, parseerror p⟩) ∧
    block_summary (parser_parse_block (body_state TYPE_FLOAT body_with_locals)) =
      some (["x", "v"], [["STORE_F", "x", "a"], ["\x7b", "STORE_F", "y", "b", "\x7d"],
        ["return", "a"]]) ∧
    trace_summary (statements_in_order (3 * body_with_locals.length)
      (block_entry (body_state TYPE_FLOAT body_with_locals))) =
      some [(true, ["x"], []), (true, [], ["STORE_F", "x", "a"]), (true, ["v"], []),
        (true, [], ["\x7b", "STORE_F", "y", "b", "\x7d"]), (true, [], ["return", "a"])] ∧
    statement_summary (parser_parse_statement
      (body_state TYPE_FLOAT [tk_float, tk_ident "x", tk_ch ';', tk_ch '}']) none) =
      some (false, none, 1) := by
  refine ⟨?_, ?_, by decide!, by decide!, by decide!⟩
  · intro p
    unfold parser_parse_block parse_budget block_entry
    rw [show 3 * p.lex.input.length + 3 = (3 * p.lex.input.length + 2) + 1 from rfl,
      parse_block]
    simp only []
    split
    · intro b hb
      cases hb
    · refine sat_bind _ _ _ _ (block_loop_trace _ _ _ _ [] []) ?_
      intro r hr b hb
      obtain ⟨rs, h1, h2, h3⟩ := hr b hb
      exact ⟨rs, h1, h2, by simpa using h3⟩
  · intro p hp
    unfold parser_parse_statement parse_budget
    rw [show 3 * p.lex.input.length + 3 = (3 * p.lex.input.length + 2) + 1 from rfl]
    unfold parse_statement
    rw [if_pos hp]

/-! ## Parameter lists -/

/-- Reading a token that the lexer hands out. -/
theorem next_advance (p : parser_t) (t : token) (rest : List token)
    (h : p.lex.input = t :: rest) (ht : t.readable = true) :
    parser_next p = (true, advance p t rest) := by
  unfold token.readable at ht
  unfold parser_next lex_do advance
  simp only [h, ht]

/-- The loop over a well-formed parameter list returns the Values of its
parameters, appended in source order, with the closing paren as current
token. -/
theorem parse_type_params_list (decls : List param_decl) :
    ∀ (fuel : Nat) (p : parser_t) (acc : List ast_expression) (rest : List token),
      well_formed_params decls = true → decls.length + 1 ≤ fuel →
      p.lex.input = decls.flatMap param_decl.tokens ++ rest →
      ∃ close, close.ttype = ch ')' ∧ parse_type_params fuel p acc =
        .done (some (acc ++ decls.map param_decl.value), advance p close rest) := by
  induction decls with
  | nil =>
    intro fuel p acc rest hwf
    simp [well_formed_params] at hwf
  | cons d ds ih =>
    intro fuel p acc rest hwf hfuel hin
    obtain ⟨typ, name, sep⟩ := d
    have htyp : typ.ttype = TOKEN_TYPENAME ∧ name.all (fun n => n.ttype == TOKEN_IDENT) = true ∧
        (sep.ttype = ch ')' ∧ ds = [] ∨
          sep.ttype = ch ',' ∧ well_formed_params ds = true) := by
      cases ds with
      | nil =>
        simp only [well_formed_params, Bool.and_eq_true, beq_iff_eq] at hwf
        exact ⟨hwf.1.1, hwf.1.2, Or.inl ⟨hwf.2, rfl⟩⟩
      | cons d2 ds2 =>
        simp only [well_formed_params, Bool.and_eq_true, beq_iff_eq] at hwf
        exact ⟨hwf.1.1.1, hwf.1.1.2, Or.inr ⟨hwf.1.2, hwf.2⟩⟩
    obtain ⟨h1, h2, h3⟩ := htyp
    have hsepr : sep.readable = true := by
      unfold token.readable
      rcases h3 with ⟨h, -⟩ | ⟨h, -⟩ <;> rw [h] <;> rfl
    have hsepp : sep.ttype ≠ ch '(' := by
      rcases h3 with ⟨h, -⟩ | ⟨h, -⟩ <;> rw [h] <;> decide
    have hsepi : sep.ttype ≠ TOKEN_IDENT := by
      rcases h3 with ⟨h, -⟩ | ⟨h, -⟩ <;> rw [h] <;> decide
    have htypr : typ.readable = true := by
      unfold token.readable
      rw [h1]
      rfl
    obtain ⟨f1, rfl⟩ : ∃ f1, fuel = f1 + 1 := ⟨fuel - 1, by omega⟩
    obtain ⟨f2, rfl⟩ : ∃ f2, f1 = f2 + 1 := ⟨f1 - 1, by simp at hfuel; omega⟩
    simp only [List.flatMap_cons, param_decl.tokens, List.cons_append, List.append_assoc,
      List.nil_append, List.singleton_append] at hin
    have hlen : ds.length + 1 ≤ f2 + 1 := by
      simp only [List.length_cons] at hfuel
      omega
    have e2 : ¬ (TOKEN_TYPENAME = ch ')') := by decide
    have e3 : ¬ (TOKEN_IDENT = ch '(') := by decide
    rw [parse_type_params]
    cases name with
    | none =>
      simp only [Option.toList_none, List.nil_append] at hin
      have hn := next_advance p typ _ hin htypr
      have hn2 := next_advance (advance p typ (sep :: (ds.flatMap param_decl.tokens ++ rest)))
        sep (ds.flatMap param_decl.tokens ++ rest) rfl hsepr
      have e1 : (advance p typ (sep :: (ds.flatMap param_decl.tokens ++ rest))).tok
          = typ.ttype := rfl
      have e4 : (advance (advance p typ (sep :: (ds.flatMap param_decl.tokens ++ rest))) sep
          (ds.flatMap param_decl.tokens ++ rest)) =
          advance p sep (ds.flatMap param_decl.tokens ++ rest) := rfl
      have e5 : (advance p sep (ds.flatMap param_decl.tokens ++ rest)).tok = sep.ttype := rfl
      simp only [hn, hn2, e1, h1, e2, e4, e5, parse_type, hsepp, hsepi, Bool.not_true,
        Bool.false_eq_true, if_false, bind_done]
      rcases h3 with ⟨hs, hds⟩ | ⟨hs, hds⟩
      · subst hds
        have e6 : ¬ (ch ')' = ch ',') := by decide
        simp only [hs, e6, if_false, if_true]
        exact ⟨sep, hs, rfl⟩
      · simp only [hs, if_true]
        obtain ⟨close, hc, hr⟩ := ih (f2 + 1)
          (advance p sep (ds.flatMap param_decl.tokens ++ rest))
          (acc ++ [ast_value_new (parser_ctx (advance p sep
            (ds.flatMap param_decl.tokens ++ rest))) "<unnamed>"
            (advance p typ (sep :: (ds.flatMap param_decl.tokens ++ rest))).lex.tok.constval_t])
          rest hds hlen rfl
        refine ⟨close, hc, ?_⟩
        rw [hr]
        simp [param_decl.value, ast_value_new, parser_ctx, advance]
    | some nm =>
      simp only [Option.toList_some, List.singleton_append] at hin
      have hnm : nm.ttype = TOKEN_IDENT := by
        simpa using h2
      have hnmr : nm.readable = true := by
        unfold token.readable
        rw [hnm]
        rfl
      have hn := next_advance p typ _ hin htypr
      have hn2 := next_advance (advance p typ (nm :: sep :: (ds.flatMap param_decl.tokens ++ rest)))
        nm (sep :: (ds.flatMap param_decl.tokens ++ rest)) rfl hnmr
      have hn3 := next_advance (advance p nm (sep :: (ds.flatMap param_decl.tokens ++ rest)))
        sep (ds.flatMap param_decl.tokens ++ rest) rfl hsepr
      have e1 : (advance p typ (nm :: sep :: (ds.flatMap param_decl.tokens ++ rest))).tok
          = typ.ttype := rfl
      have e4 : (advance (advance p typ (nm :: sep :: (ds.flatMap param_decl.tokens ++ rest))) nm
          (sep :: (ds.flatMap param_decl.tokens ++ rest))) =
          advance p nm (sep :: (ds.flatMap param_decl.tokens ++ rest)) := rfl
      have e5 : (advance p nm (sep :: (ds.flatMap param_decl.tokens ++ rest))).tok = nm.ttype := rfl
      have e7 : (advance (advance p nm (sep :: (ds.flatMap param_decl.tokens ++ rest))) sep
          (ds.flatMap param_decl.tokens ++ rest)) =
          advance p sep (ds.flatMap param_decl.tokens ++ rest) := rfl
      have e8 : (advance p sep (ds.flatMap param_decl.tokens ++ rest)).tok = sep.ttype := rfl
      simp only [hn, hn2, e1, h1, e2, e4, e5, parse_type, hnm, e3, Bool.not_true,
        Bool.false_eq_true, if_false, if_true, bind_done, hn3, e7, e8]
      rcases h3 with ⟨hs, hds⟩ | ⟨hs, hds⟩
      · subst hds
        have e6 : ¬ (ch ')' = ch ',') := by decide
        simp only [hs, e6, if_false, if_true]
        exact ⟨sep, hs, rfl⟩
      · simp only [hs, if_true]
        obtain ⟨close, hc, hr⟩ := ih (f2 + 1)
          (advance p sep (ds.flatMap param_decl.tokens ++ rest))
          (acc ++ [ast_value_set_name (ast_value_new (parser_ctx (advance p nm
            (sep :: (ds.flatMap param_decl.tokens ++ rest)))) "<unnamed>"
            (advance p typ (nm :: sep :: (ds.flatMap param_decl.tokens ++ rest))).lex.tok.constval_t)
            (parser_tokval (advance p nm (sep :: (ds.flatMap param_decl.tokens ++ rest))))])
          rest hds hlen rfl
        refine ⟨close, hc, ?_⟩
        rw [hr]
        simp [param_decl.value, ast_value_new, ast_value_set_name, parser_ctx, parser_tokval,
          advance]

/-- A written parameter list has at least one token per parameter. -/
theorem param_tokens_length (decls : List param_decl) :
    decls.length ≤ (decls.flatMap param_decl.tokens).length := by
  induction decls with
  | nil => simp
  | cons d ds ih =>
    simp only [List.flatMap_cons, List.length_append, List.length_cons, param_decl.tokens]
    omega

/-- C32: `parser_parse_type`, called on the token after the base typename,
returns the flag `isfunc` as true exactly when that token is `(`.  Without a
`(` it returns a Value of the base type named `<unnamed>` without
parameters and reads no token.  At a `(` followed by a well-formed list
`T1 [n1] , ... , Tk [nk] )` of typenames with optional identifiers, and by a
token that the lexer hands out, it returns a Value of the base type whose
parameters are, in source order, one plain Value per written parameter, of
type `Ti` and name `ni` (`<unnamed>` without an identifier), with the token
after `)` as current token; so it does for `( )`.  For
`( float a , vector , string s ) g` the parameters are `float a`,
`vector <unnamed>`, `string s`, and the current token is `g`; a parameter
may itself have a parameter list. -/
theorem parse_type_parameter_list :
    (∀ p bt, (parser_parse_type p bt).sat (fun r => r.2.1 = true ↔ p.tok = ch '(')) ∧
    (∀ p bt, p.tok ≠ ch '(' →
      parser_parse_type p bt =
        .done (some (.value (parser_ctx p) "<unnamed>" bt none [] false .none), false, p)) ∧
    (∀ p bt (decls : List param_decl) (after : token) (rest : List token),
      p.tok = ch '(' → well_formed_params decls = true → after.readable = true →
      p.lex.input = decls.flatMap param_decl.tokens ++ after :: rest →
      parser_parse_type p bt =
        .done (some (.value (parser_ctx p) "<unnamed>" bt none (decls.map param_decl.value)
          false .none), true, advance p after rest) ∧
      (decls.map param_decl.value).length = decls.length ∧
      (decls.map param_decl.value).map ast_expression.vtype =
        decls.map (fun d => d.typ.constval_t) ∧
      (decls.map param_decl.value).map ast_expression.name =
        decls.map (fun d => match d.name with
          | some n => n.value
          | none => "<unnamed>")) ∧
    (∀ p bt (close after : token) (rest : List token),
      p.tok = ch '(' → close.ttype = ch ')' → after.readable = true →
      p.lex.input = close :: after :: rest →
      parser_parse_type p bt =
        .done (some (.value (parser_ctx p) "<unnamed>" bt none [] false .none), true,
          advance p after rest)) ∧
    type_summary (parser_parse_type param_list_state TYPE_VOID) = some (true, TYPE_VOID, "g") ∧
    params_summary (parser_parse_type param_list_state TYPE_VOID) =
      some [(TYPE_FLOAT, "a", 0), (TYPE_VECTOR, "<unnamed>", 0), (TYPE_STRING, "s", 0)] ∧
    params_summary (parser_parse_type (parser_next (clean_state [tk_ch '(', tk_float, tk_ch '(',
        tk_string, tk_ch ')', tk_ident "cb", tk_ch ')', tk_ident "g", tk_ch ';'])).2 TYPE_VOID) =
      some [(TYPE_FLOAT, "cb", 1)] ∧
    type_summary (parser_parse_type (parser_next (clean_state [tk_ident "g", tk_ch ';'])).2
        TYPE_FLOAT) = some (false, TYPE_FLOAT, "g") := by
  refine ⟨?_, ?_, ?_, ?_, by decide!, by decide!, by decide!, by decide!⟩
  · intro p bt
    unfold parser_parse_type
    rw [parse_type]
    simp only []
    split
    · rename_i h
      apply sat_bind_all
      intro r
      cases r.1 with
      | none => exact ⟨fun _ => h, fun _ => rfl⟩
      | some params =>
        simp only []
        split
        · exact ⟨fun _ => h, fun _ => rfl⟩
        · exact ⟨fun _ => h, fun _ => rfl⟩
    · rename_i h
      exact ⟨fun h2 => Bool.noConfusion h2, fun h2 => absurd h2 h⟩
  · intro p bt h
    unfold parser_parse_type
    rw [parse_type]
    simp only [h, if_false, ast_value_new]
  · intro p bt decls after rest hp hwf hafter hin
    refine ⟨?_, by simp, ?_, ?_⟩
    · have hlen : decls.length + 1 ≤ p.lex.input.length + 1 := by
        have := param_tokens_length decls
        rw [hin, List.length_append]
        omega
      obtain ⟨close, hc, hr⟩ := parse_type_params_list decls (p.lex.input.length + 1) p []
        (after :: rest) hwf hlen hin
      have hcr : close.readable = true := by
        unfold token.readable
        rw [hc]
        rfl
      have hn := next_advance (advance p close (after :: rest)) after rest rfl hafter
      unfold parser_parse_type
      rw [parse_type]
      simp only [hp, if_true, hr, bind_done, hn, Bool.not_true, Bool.false_eq_true, if_false,
        List.nil_append]
      rfl
    · simp only [List.map_map]
      apply List.map_congr_left
      intro d _
      obtain ⟨typ, name, sep⟩ := d
      cases name <;> rfl
    · simp only [List.map_map]
      apply List.map_congr_left
      intro d _
      obtain ⟨typ, name, sep⟩ := d
      cases name <;> rfl
  · intro p bt close after rest hp hc hafter hin
    have hcr : close.readable = true := by
      unfold token.readable
      rw [hc]
      rfl
    have hn := next_advance p close (after :: rest) hin hcr
    have hn2 := next_advance (advance p close (after :: rest)) after rest rfl hafter
    have e1 : (advance p close (after :: rest)).tok = close.ttype := rfl
    unfold parser_parse_type
    rw [parse_type, parse_type_params]
    simp only [hp, if_true, hn, e1, hc, bind_done, hn2, Bool.not_true, Bool.false_eq_true,
      if_false]
    rfl

/-! # Properties of util.c -/

/-! ## CRC-16 -/

/-- A bit at or above position `n` of a number below `2 ^ n` is clear. -/
theorem testBit_above {m n i : Nat} (h : m < 2 ^ n) (hi : n ≤ i) : m.testBit i = false :=
  Nat.testBit_lt_two_pow (Nat.lt_of_lt_of_le h (Nat.pow_le_pow_right (by decide) hi))

/-- Shifting the register left by one is linear over XOR as long as the
second summand stays below bit 15. -/
theorem shift_mod_xor (s m : Nat) (hm : m < 2 ^ 15) :
    ((s ^^^ m) <<< 1) % 2 ^ 16 = ((s <<< 1) % 2 ^ 16) ^^^ (m <<< 1) := by
  apply Nat.eq_of_testBit_eq
  intro i
  simp only [Nat.testBit_mod_two_pow, Nat.testBit_xor, Nat.testBit_shiftLeft]
  by_cases hi : i < 16
  · cases decide (1 ≤ i) <;> simp [hi]
  · have h15 : 15 ≤ i - 1 := by omega
    simp [hi, testBit_above hm h15]

/-- One step of the bitwise CRC is linear over XOR with a value below
bit 15. -/
theorem crc16_shift_xor (s m : Nat) (hm : m < 2 ^ 15) :
    crc16_shift (s ^^^ m) = crc16_shift s ^^^ (m <<< 1) := by
  unfold crc16_shift
  have h15 : (s ^^^ m).testBit 15 = s.testBit 15 := by
    simp [Nat.testBit_xor, testBit_above hm (Nat.le_refl 15)]
  have hs := shift_mod_xor s m hm
  rw [show (2 : Nat) ^ 16 = 65536 from rfl] at hs
  rw [h15, hs]
  split
  · rw [Nat.xor_assoc, Nat.xor_comm (m <<< 1), ← Nat.xor_assoc]
  · rfl

/-- Eight steps of the bitwise CRC move a low byte into the high byte
unchanged. -/
theorem crc16_shift8_xor (s lo : Nat) (hlo : lo < 256) :
    crc16_shift8 (s ^^^ lo) = crc16_shift8 s ^^^ (lo <<< 8) := by
  have hsh : ∀ j, (lo <<< j) <<< 1 = lo <<< (j + 1) := fun j => by
    rw [← Nat.shiftLeft_add]
  have hlt : ∀ j, j ≤ 7 → lo <<< j < 2 ^ 15 := by
    intro j hj
    rw [Nat.shiftLeft_eq]
    calc lo * 2 ^ j < 256 * 2 ^ j := Nat.mul_lt_mul_of_pos_right hlo (Nat.two_pow_pos j)
      _ ≤ 256 * 2 ^ 7 := Nat.mul_le_mul_left _ (Nat.pow_le_pow_right (by decide) hj)
      _ = 2 ^ 15 := by decide
  have h0 : s ^^^ lo = s ^^^ (lo <<< 0) := rfl
  unfold crc16_shift8
  rw [h0, crc16_shift_xor _ _ (hlt 0 (by decide)), hsh, crc16_shift_xor _ _ (hlt 1 (by decide)),
    hsh, crc16_shift_xor _ _ (hlt 2 (by decide)), hsh, crc16_shift_xor _ _ (hlt 3 (by decide)),
    hsh, crc16_shift_xor _ _ (hlt 4 (by decide)), hsh, crc16_shift_xor _ _ (hlt 5 (by decide)),
    hsh, crc16_shift_xor _ _ (hlt 6 (by decide)), hsh, crc16_shift_xor _ _ (hlt 7 (by decide)),
    hsh]

/-- Every entry of the table is the bitwise computation on its index in the
high byte of a zero register. -/
theorem crc16_table_entries :
    ∀ t, t < 256 → util_crc16_table.getD t 0 = crc16_shift8 (t <<< 8) := by
  decide!

/-- A step of the bitwise CRC leaves a 16-bit value. -/
theorem crc16_shift_lt (r : Nat) : crc16_shift r < 2 ^ 16 := by
  unfold crc16_shift
  split
  · exact Nat.xor_lt_two_pow (Nat.mod_lt _ (by decide)) (by decide)
  · exact Nat.mod_lt _ (by decide)

/-- One round of the loop of `util_crc16` is one byte of the bitwise
computation. -/
theorem crc16_round (h c : Nat) (hh : h < 65536) (hc : c < 256) :
    (util_crc16_table.getD ((h >>> 8) ^^^ c) 0 ^^^ (h <<< 8)) % 65536 =
      crc16_shift8 (h ^^^ (c <<< 8)) := by
  have h8 : h >>> 8 < 2 ^ 8 := by
    rw [Nat.shiftRight_eq_div_pow]
    exact Nat.div_lt_of_lt_mul hh
  have ht : (h >>> 8) ^^^ c < 256 := Nat.xor_lt_two_pow h8 hc
  have e1 : h ^^^ (c <<< 8) = (((h >>> 8) ^^^ c) <<< 8) ^^^ (h % 2 ^ 8) := by
    apply Nat.eq_of_testBit_eq
    intro i
    simp only [Nat.testBit_mod_two_pow, Nat.testBit_xor, Nat.testBit_shiftLeft,
      Nat.testBit_shiftRight]
    by_cases hi : i < 8
    · have hi2 : ¬ (8 ≤ i) := by omega
      simp [hi, hi2]
    · have hi2 : 8 ≤ i := by omega
      have hi3 : 8 + (i - 8) = i := by omega
      simp [hi, hi2, hi3]
  have hlo : h % 2 ^ 8 < 256 := Nat.mod_lt _ (by decide)
  rw [e1, crc16_shift8_xor _ _ hlo, ← crc16_table_entries _ ht]
  have hT : util_crc16_table.getD ((h >>> 8) ^^^ c) 0 < 2 ^ 16 := by
    rw [crc16_table_entries _ ht]
    exact crc16_shift_lt _
  generalize util_crc16_table.getD ((h >>> 8) ^^^ c) 0 = T at hT
  rw [show (65536 : Nat) = 2 ^ 16 from rfl]
  apply Nat.eq_of_testBit_eq
  intro i
  simp only [Nat.testBit_mod_two_pow, Nat.testBit_xor, Nat.testBit_shiftLeft]
  by_cases hi : i < 16
  · by_cases hi2 : 8 ≤ i
    · have hi3 : i - 8 < 8 := by omega
      simp [hi, hi2, hi3]
    · simp [hi, hi2]
  · have hi2 : 8 ≤ i := by omega
    have hi3 : ¬ (i - 8 < 8) := by omega
    simp [hi, hi2, hi3, testBit_above hT (Nat.le_of_not_lt hi)]

/-- The loop of `util_crc16` and the bitwise computation agree from every
16-bit register value. -/
theorem crc16_loop (k : List Nat) :
    ∀ h, h < 65536 →
      k.foldl (fun h c =>
        (util_crc16_table.getD ((h >>> 8) ^^^ (c % 256)) 0 ^^^ (h <<< 8)) % 65536) h =
      k.foldl (fun r c => crc16_shift8 (r ^^^ ((c % 256) <<< 8))) h := by
  induction k with
  | nil =>
    intro h _
    rfl
  | cons c cs ih =>
    intro h hh
    simp only [List.foldl_cons]
    rw [crc16_round h (c % 256) hh (Nat.mod_lt _ (by decide))]
    exact ih _ (crc16_shift_lt _)

/-- C37: `util_crc16` equals the bitwise CRC-16/CCITT computation: from the
register value `current`, for each byte in order, XOR the byte into the high
8 bits of the 16-bit register and shift left eight times, XOR-ing in 0x1021
whenever the bit shifted out was 1, with no reflection and no final XOR.
Every index into `util_crc16_table` is below 256, the table has 256 entries
and each equals the bitwise computation applied to its index with register
0.  On the bytes of `123456789` the result is 0x29B1 from register 0xFFFF
and 0x31C3 from register 0. -/
theorem crc16_table_driven_is_bitwise :
    (∀ current k, util_crc16 current k = crc16_bitwise current k) ∧
    (∀ h c, h < 65536 → (h >>> 8) ^^^ (c % 256) < util_crc16_table.length) ∧
    util_crc16_table.length = 256 ∧
    (∀ i, i < 256 → util_crc16_table.getD i 0 = crc16_bitwise 0 [i]) ∧
    util_crc16 0xFFFF [0x31, 0x32, 0x33, 0x34, 0x35, 0x36, 0x37, 0x38, 0x39] = 0x29B1 ∧
    util_crc16 0 [0x31, 0x32, 0x33, 0x34, 0x35, 0x36, 0x37, 0x38, 0x39] = 0x31C3 := by
  refine ⟨?_, ?_, by decide!, ?_, by decide!, by decide!⟩
  · intro current k
    unfold util_crc16 crc16_bitwise
    exact crc16_loop k _ (Nat.mod_lt _ (by decide))
  · intro h c hh
    have h8 : h >>> 8 < 2 ^ 8 := by
      rw [Nat.shiftRight_eq_div_pow]
      exact Nat.div_lt_of_lt_mul hh
    have hc : c % 256 < 2 ^ 8 := Nat.mod_lt _ (by decide)
    have hl : util_crc16_table.length = 2 ^ 8 := by decide!
    rw [hl]
    exact Nat.xor_lt_two_pow h8 hc
  · intro i hi
    rw [crc16_table_entries i hi]
    unfold crc16_bitwise
    simp only [List.foldl_cons, List.foldl_nil, Nat.zero_mod, Nat.zero_xor,
      Nat.mod_eq_of_lt hi]

/-! ## Mersenne twister -/

/-- A round of the first loop at an index whose partner lies in the array
returns with the length of the state kept. -/
theorem mt_first_body_done (s : List Nat) (i : Nat) (h : i + MT_PERIOD < MT_SIZE) :
    ∃ s1, mt_first_body s i = .done s1 ∧ s1.length = s.length := by
  have h1 : i < MT_SIZE := by omega
  have h2 : i + 1 < MT_SIZE := by
    unfold MT_PERIOD at h
    omega
  unfold mt_first_body mt_read mt_write
  simp only [h, h1, h2, if_true, bind_done]
  exact ⟨_, rfl, List.length_set _ _ _⟩

/-- The second round of the last pass of the first loop reads
`mt_state[MT_SIZE]`. -/
theorem mt_first_body_beyond (s : List Nat) : mt_first_body s (MT_SPACE - 1 + 1) = .undefined := by
  unfold mt_first_body mt_read
  have h1 : MT_SPACE - 1 + 1 < MT_SIZE := by decide
  have h2 : MT_SPACE - 1 + 1 + 1 < MT_SIZE := by decide
  have h3 : ¬ (MT_SPACE - 1 + 1 + MT_PERIOD < MT_SIZE) := by decide
  simp only [h1, h2, h3, if_true, if_false, bind_done]
  rfl

/-- From every even index up to `MT_SPACE - 1` the first loop runs into the
read of `mt_state[MT_SIZE]`. -/
theorem mt_first_loop_undefined (n : Nat) :
    ∀ fuel i s, i + 2 * n = MT_SPACE - 1 → n < fuel → mt_first_loop fuel i s = .undefined := by
  induction n with
  | zero =>
    intro fuel i s hi hf
    obtain ⟨f, rfl⟩ : ∃ f, fuel = f + 1 := ⟨fuel - 1, by omega⟩
    have hi2 : i = MT_SPACE - 1 := by omega
    subst hi2
    rw [mt_first_loop]
    have h1 : MT_SPACE - 1 < MT_SPACE := by decide
    obtain ⟨s1, hs1, -⟩ := mt_first_body_done s (MT_SPACE - 1) (by decide)
    rw [if_pos h1, hs1, bind_done, mt_first_body_beyond]
    rfl
  | succ n ih =>
    intro fuel i s hi hf
    obtain ⟨f, rfl⟩ : ∃ f, fuel = f + 1 := ⟨fuel - 1, by omega⟩
    have hS : MT_SPACE = 227 := rfl
    have hP : MT_PERIOD = 397 := rfl
    have hZ : MT_SIZE = 624 := rfl
    rw [mt_first_loop]
    have h1 : i < MT_SPACE := by omega
    obtain ⟨s1, hs1, -⟩ := mt_first_body_done s i (by omega)
    obtain ⟨s2, hs2, -⟩ := mt_first_body_done s1 (i + 1) (by omega)
    rw [if_pos h1, hs1, bind_done, hs2, bind_done]
    exact ih f (i + 1 + 1) s2 (by omega) (by omega)

/-- C39, refuted for every state: `mt_generate` reads `mt_state[624]`.  Its
first loop, `for (i = 0; i < MT_SPACE; ++i)` with a second `i++` in the body,
runs the second half of its body at `i = 227`, where the partner
`mt_state[i + MT_PERIOD]` lies one past the array, so the call is undefined
on every state.  The rounds also differ from the reference loop: the first
loop masks the low bits with `0x7FFFFFF`, dropping bits 27 to 30 (with
`mt_state[1] = 0x08000000` in a zero state the round at 0 leaves 0 where the
reference leaves `0x04000000`), and the last statements take the low bits
from `mt_state[623]` where the reference takes them from `mt_state[0]` (with
`mt_state[0] = 2` in a zero state they leave 0 where the reference leaves 1).
The second loop agrees with the reference on such a round. -/
theorem mt_generate_reads_past_state :
    (∀ s, mt_generate s = .undefined) ∧
    (∀ s, mt_first_body s 227 = .undefined) ∧
    word_after (mt_first_body (mt_zero_but 1 0x08000000) 0) 0 = some 0 ∧
    (mt_reference_step (mt_zero_but 1 0x08000000) 0).getD 0 0 = 0x04000000 ∧
    word_after (mt_last (mt_zero_but 0 2)) 623 = some 0 ∧
    (mt_reference_step (mt_zero_but 0 2) 623).getD 623 0 = 1 ∧
    word_after (mt_second_body (mt_zero_but 301 0x08000001) 300) 300 = some 0x9D08B0DF ∧
    (mt_reference_step (mt_zero_but 301 0x08000001) 300).getD 300 0 = 0x9D08B0DF := by
  refine ⟨?_, fun s => mt_first_body_beyond s, by decide!, by decide!, by decide!, by decide!,
    by decide!, by decide!⟩
  intro s
  unfold mt_generate
  rw [mt_first_loop_undefined 113 MT_SIZE 0 s (by decide) (by decide)]
  rfl

/-! ## Hash table -/

/-- A string equals itself under `strcmp`. -/
theorem strcmp_self (a : List Nat) : strcmp a a = 0 := by
  induction a with
  | nil => rfl
  | cons x xs ih => simp [strcmp, ih]

/-- Strings that `strcmp` finds equal are equal. -/
theorem strcmp_eq : ∀ (a b : List Nat), strcmp a b = 0 → a = b := by
  intro a
  induction a with
  | nil =>
    intro b h
    cases b with
    | nil => rfl
    | cons y ys => simp [strcmp] at h
  | cons x xs ih =>
    intro b h
    cases b with
    | nil => simp [strcmp] at h
    | cons y ys =>
      simp only [strcmp] at h
      split at h
      · simp at h
      · split at h
        · simp at h
        · have hxy : x = y := by omega
          rw [hxy, ih ys h]

/-- When `strcmp` does not order `a` after `b` nor finds them equal, it orders
`b` after `a`. -/
theorem strcmp_flip : ∀ (a b : List Nat), ¬ strcmp a b > 0 → strcmp a b ≠ 0 → strcmp b a > 0 := by
  intro a
  induction a with
  | nil =>
    intro b h1 h2
    cases b with
    | nil => simp [strcmp] at h2
    | cons y ys => simp [strcmp]
  | cons x xs ih =>
    intro b h1 h2
    cases b with
    | nil => simp [strcmp] at h1
    | cons y ys =>
      simp only [strcmp] at h1 h2 ⊢
      by_cases hxy : x < y
      · have hyx : ¬ y < x := by omega
        simp [hxy, hyx]
      · by_cases hyx : y < x
        · simp [hxy, hyx] at h1
        · simp only [hxy, hyx, if_false] at h1 h2 ⊢
          exact ih ys h1 h2

/-- The order of `strcmp` is asymmetric. -/
theorem strcmp_asymm : ∀ (a b : List Nat), strcmp a b > 0 → ¬ strcmp b a > 0 := by
  intro a
  induction a with
  | nil =>
    intro b h
    cases b <;> simp [strcmp] at h
  | cons x xs ih =>
    intro b h
    cases b with
    | nil => simp [strcmp]
    | cons y ys =>
      simp only [strcmp] at h ⊢
      by_cases hxy : x < y
      · simp [hxy] at h
      · by_cases hyx : y < x
        · have : ¬ x < y := hxy
          simp [hyx, this]
        · simp only [hxy, hyx, if_false] at h ⊢
          exact ih ys h

/-- The order of `strcmp` is transitive. -/
theorem strcmp_trans : ∀ (a b c : List Nat), strcmp a b > 0 → strcmp b c > 0 → strcmp a c > 0 := by
  intro a
  induction a with
  | nil =>
    intro b c h
    cases b <;> simp [strcmp] at h
  | cons x xs ih =>
    intro b c h1 h2
    cases b with
    | nil => cases c <;> simp [strcmp] at h2
    | cons y ys =>
      cases c with
      | nil => simp [strcmp]
      | cons z zs =>
        simp only [strcmp] at h1 h2 ⊢
        by_cases hxy : x < y
        · simp [hxy] at h1
        · by_cases hyx : y < x
          · by_cases hyz : y < z
            · simp [hyz] at h2
            · have h3 : ¬ x < z := by omega
              have h4 : z < x := by omega
              simp [h3, h4]
          · have hxy2 : x = y := by omega
            subst hxy2
            simp only [hxy, if_false] at h1
            by_cases hxz : x < z
            · simp [hxz] at h2
            · by_cases hzx : z < x
              · simp [hxz, hzx]
              · simp only [hxz, hzx, if_false] at h2 ⊢
                exact ih ys zs h1 h2

/-- A chain without a node of the key holds no value for it. -/
theorem chain_lookup_absent (key : List Nat) (c : List hash_node_t)
    (h : ∀ m ∈ c, m.key ≠ key) : chain_lookup key c = 0 := by
  induction c with
  | nil => rfl
  | cons n rest ih =>
    simp only [chain_lookup, h n (List.mem_cons_self _ _), if_false]
    exact ih (fun m hm => h m (List.mem_cons_of_mem _ hm))

/-- In a sorted chain the search of `util_htgeth` finds the value that the
chain holds for the key. -/
theorem htgeth_chain_lookup (key : List Nat) (c : List hash_node_t) (hs : chain_sorted c) :
    htgeth_chain key c = chain_lookup key c := by
  induction c with
  | nil => rfl
  | cons n rest ih =>
    obtain ⟨hn, hrest⟩ := List.pairwise_cons.mp hs
    by_cases h : strcmp key n.key > 0
    · have hne : n.key ≠ key := by
        intro e
        rw [e, strcmp_self] at h
        exact absurd h (by decide)
      have e1 : htgeth_chain key (n :: rest) = htgeth_chain key rest := by
        simp [htgeth_chain, List.dropWhile, h]
      rw [e1, ih hrest]
      simp [chain_lookup, hne]
    · have e1 : htgeth_chain key (n :: rest) =
          if strcmp key n.key ≠ 0 then 0 else n.value := by
        simp [htgeth_chain, List.dropWhile, h]
      rw [e1]
      by_cases h0 : strcmp key n.key = 0
      · have e := strcmp_eq _ _ h0
        rw [if_neg (not_not.mpr h0)]
        simp [chain_lookup, e.symm]
      · have hne : n.key ≠ key := by
          intro e
          rw [e, strcmp_self] at h0
          exact h0 rfl
        have habs : ∀ m ∈ rest, m.key ≠ key := by
          intro m hm e
          have := hn m hm
          rw [e] at this
          exact h this
        simp [h0, chain_lookup, hne, chain_lookup_absent key rest habs]

/-- Linking a node in after the skipped nodes gives the same chain whether
or not a node was skipped. -/
theorem skipped_append (s x : List hash_node_t) :
    (if s.isEmpty then x else s ++ x) = s ++ x := by
  cases s <;> rfl

/-- The chain of `util_htseth` on an empty chain. -/
theorem htseth_chain_nil (key : List Nat) (v : Nat) :
    htseth_chain key v [] = [⟨key, v⟩] :=
  rfl

/-- The chain of `util_htseth`, node by node. -/
theorem htseth_chain_cons (key : List Nat) (v : Nat) (n : hash_node_t)
    (rest : List hash_node_t) :
    htseth_chain key v (n :: rest) =
      if strcmp key n.key > 0 then n :: htseth_chain key v rest
      else if strcmp key n.key = 0 then { n with value := v } :: rest
      else ⟨key, v⟩ :: n :: rest := by
  by_cases h : strcmp key n.key > 0
  · rw [if_pos h]
    unfold htseth_chain
    simp only [List.takeWhile_cons, List.dropWhile_cons, h, decide_True, if_true,
      skipped_append, _util_htnewpair]
    cases List.dropWhile (fun n => decide (strcmp key n.key > 0)) rest with
    | nil => simp
    | cons m tl =>
      simp only []
      split <;> simp
  · rw [if_neg h]
    unfold htseth_chain
    simp [List.takeWhile_cons, List.dropWhile_cons, h, _util_htnewpair]

/-- The chain of `util_htrmh`, node by node. -/
theorem htrmh_chain_cons (key : List Nat) (n : hash_node_t) (rest : List hash_node_t) :
    htrmh_chain key (n :: rest) =
      if strcmp key n.key > 0 then n :: htrmh_chain key rest
      else if strcmp key n.key = 0 then rest
      else n :: rest := by
  by_cases h : strcmp key n.key > 0
  · rw [if_pos h]
    unfold htrmh_chain
    simp only [List.takeWhile_cons, List.dropWhile_cons, h, decide_True, if_true]
    cases List.dropWhile (fun n => decide (strcmp key n.key > 0)) rest with
    | nil => simp
    | cons m tl =>
      simp only []
      split <;> simp
  · rw [if_neg h]
    unfold htrmh_chain
    by_cases h0 : strcmp key n.key = 0
    · simp [List.takeWhile_cons, List.dropWhile_cons, h, h0]
    · simp [List.takeWhile_cons, List.dropWhile_cons, h, h0]

/-- What `util_htseth` does to a sorted chain: the chain stays sorted, its
keys are the old ones and the key set, and it holds the value for the key
set and the old values for every other key. -/
theorem htseth_chain_spec (key : List Nat) (v : Nat) (c : List hash_node_t)
    (hs : chain_sorted c) :
    chain_sorted (htseth_chain key v c) ∧
      (∀ m ∈ htseth_chain key v c, m.key = key ∨ ∃ m2 ∈ c, m2.key = m.key) ∧
      ∀ k, chain_lookup k (htseth_chain key v c) = if k = key then v else chain_lookup k c := by
  induction c with
  | nil =>
    rw [htseth_chain_nil]
    refine ⟨List.pairwise_singleton _ _, ?_, ?_⟩
    · intro m hm
      left
      rw [List.mem_singleton.mp hm]
    · intro k
      by_cases hk : k = key
      · simp [chain_lookup, hk]
      · have hk2 : ¬ key = k := fun e => hk e.symm
        simp [chain_lookup, hk, hk2]
  | cons n rest ih =>
    obtain ⟨hn, hrest⟩ := List.pairwise_cons.mp hs
    obtain ⟨ih1, ih2, ih3⟩ := ih hrest
    rw [htseth_chain_cons]
    by_cases h : strcmp key n.key > 0
    · rw [if_pos h]
      have hne : n.key ≠ key := by
        intro e
        rw [e, strcmp_self] at h
        exact absurd h (by decide)
      refine ⟨List.pairwise_cons.mpr ⟨?_, ih1⟩, ?_, ?_⟩
      · intro m hm
        rcases ih2 m hm with e | ⟨m2, hm2, e⟩
        · rw [e]
          exact h
        · rw [← e]
          exact hn m2 hm2
      · intro m hm
        rcases List.mem_cons.mp hm with e | hm
        · right
          exact ⟨n, List.mem_cons_self _ _, by rw [e]⟩
        · rcases ih2 m hm with e | ⟨m2, hm2, e⟩
          · left
            exact e
          · right
            exact ⟨m2, List.mem_cons_of_mem _ hm2, e⟩
      · intro k
        simp only [chain_lookup, ih3 k]
        by_cases hk : k = key
        · have : ¬ n.key = k := by
            rw [hk]
            exact hne
          simp [hk, hne]
        · simp [hk]
    · rw [if_neg h]
      by_cases h0 : strcmp key n.key = 0
      · rw [if_pos h0]
        have e := strcmp_eq _ _ h0
        refine ⟨List.pairwise_cons.mpr ⟨hn, hrest⟩, ?_, ?_⟩
        · intro m hm
          rcases List.mem_cons.mp hm with e2 | hm
          · left
            rw [e2, e]
          · right
            exact ⟨m, List.mem_cons_of_mem _ hm, rfl⟩
        · intro k
          simp only [chain_lookup]
          by_cases hk : k = key
          · simp [hk, e]
          · have : ¬ n.key = k := by
              rw [← e]
              exact fun e2 => hk e2.symm
            simp [hk, this]
      · rw [if_neg h0]
        have hflip := strcmp_flip _ _ h h0
        refine ⟨List.pairwise_cons.mpr ⟨?_, hs⟩, ?_, ?_⟩
        · intro m hm
          rcases List.mem_cons.mp hm with e2 | hm
          · rw [e2]
            exact hflip
          · exact strcmp_trans _ _ _ (hn m hm) hflip
        · intro m hm
          rcases List.mem_cons.mp hm with e2 | hm
          · left
            rw [e2]
          · right
            exact ⟨m, hm, rfl⟩
        · intro k
          by_cases hk : k = key
          · simp [chain_lookup, hk]
          · have hk2 : ¬ key = k := fun e => hk e.symm
            simp [chain_lookup, hk, hk2]

/-- What `util_htrmh` does to a sorted chain: the chain stays sorted, and it
holds nothing for the key removed and the old values for every other key. -/
theorem htrmh_chain_spec (key : List Nat) (c : List hash_node_t) (hs : chain_sorted c) :
    chain_sorted (htrmh_chain key c) ∧
      (∀ m ∈ htrmh_chain key c, m ∈ c) ∧
      ∀ k, chain_lookup k (htrmh_chain key c) = if k = key then 0 else chain_lookup k c := by
  induction c with
  | nil =>
    refine ⟨List.Pairwise.nil, fun m hm => hm, ?_⟩
    intro k
    have e : htrmh_chain key [] = [] := rfl
    rw [e]
    simp [chain_lookup]
  | cons n rest ih =>
    obtain ⟨hn, hrest⟩ := List.pairwise_cons.mp hs
    obtain ⟨ih1, ih2, ih3⟩ := ih hrest
    rw [htrmh_chain_cons]
    by_cases h : strcmp key n.key > 0
    · rw [if_pos h]
      have hne : n.key ≠ key := by
        intro e
        rw [e, strcmp_self] at h
        exact absurd h (by decide)
      refine ⟨List.pairwise_cons.mpr ⟨fun m hm => hn m (ih2 m hm), ih1⟩, ?_, ?_⟩
      · intro m hm
        rcases List.mem_cons.mp hm with e | hm
        · rw [e]
          exact List.mem_cons_self _ _
        · exact List.mem_cons_of_mem _ (ih2 m hm)
      · intro k
        simp only [chain_lookup, ih3 k]
        by_cases hk : k = key
        · have : ¬ n.key = k := by
            rw [hk]
            exact hne
          simp [hk, hne]
        · simp [hk]
    · rw [if_neg h]
      by_cases h0 : strcmp key n.key = 0
      · rw [if_pos h0]
        have e := strcmp_eq _ _ h0
        refine ⟨hrest, fun m hm => List.mem_cons_of_mem _ hm, ?_⟩
        intro k
        by_cases hk : k = key
        · have habs : ∀ m ∈ rest, m.key ≠ k := by
            intro m hm e2
            have := hn m hm
            rw [e2, hk, e, strcmp_self] at this
            exact absurd this (by decide)
          rw [if_pos hk]
          exact chain_lookup_absent k rest habs
        · have : ¬ n.key = k := by
            rw [← e]
            exact fun e2 => hk e2.symm
          simp [chain_lookup, hk, this]
      · rw [if_neg h0]
        refine ⟨hs, fun m hm => hm, ?_⟩
        intro k
        by_cases hk : k = key
        · rw [if_pos hk, hk, ← htgeth_chain_lookup key _ hs]
          simp [htgeth_chain, List.dropWhile, h, h0]
        · rw [if_neg hk]

/-- The bin of a key is a bin of the table. -/
theorem hthash_lt (ht : hash_table_t) (key : List Nat) (h : 0 < ht.size) :
    util_hthash ht key < ht.size :=
  Nat.mod_lt _ h

/-- The bin of a key depends on the table through its size only. -/
theorem hthash_size (ht ht2 : hash_table_t) (key : List Nat) (h : ht2.size = ht.size) :
    util_hthash ht2 key = util_hthash ht key := by
  unfold util_hthash
  rw [h]

/-- The chain of a bin of a table with sorted chains is sorted. -/
theorem bin_sorted (ht : hash_table_t) (h : chains_sorted ht) (bin : Nat) :
    chain_sorted (ht.table.getD bin []) := by
  by_cases hb : bin < ht.table.length
  · rw [List.getD_eq_getElem _ _ hb]
    exact h _ (List.getElem_mem _)
  · rw [List.getD_eq_default _ _ (Nat.le_of_not_lt hb)]
    exact List.Pairwise.nil

/-- Replacing the chain of a bin by a sorted chain keeps a table as the calls
need it. -/
theorem set_inv (ht : hash_table_t) (h : ht_inv ht) (bin : Nat) (c : List hash_node_t)
    (hc : chain_sorted c) : ht_inv { ht with table := ht.table.set bin c } := by
  obtain ⟨h1, h2, h3⟩ := h
  refine ⟨?_, h2, ?_⟩
  · simp only [List.length_set]
    exact h1
  · intro x hx
    rcases List.mem_or_eq_of_mem_set hx with hx | hx
    · exact h3 x hx
    · rw [hx]
      exact hc

/-- Reading a bin after the chain of a bin was replaced. -/
theorem getD_set (t : List (List hash_node_t)) (i j : Nat) (c : List hash_node_t)
    (hi : i < t.length) :
    (t.set i c).getD j [] = if j = i then c else t.getD j [] := by
  by_cases h : j = i
  · subst h
    rw [if_pos rfl, List.getD_eq_getElem _ _ (by rw [List.length_set]; exact hi)]
    simp
  · rw [if_neg h]
    simp only [List.getD_eq_getElem?_getD]
    rw [List.getElem?_set_ne (fun e => h e.symm)]

/-- After `util_htset` on a table with sorted chains the table is as the
calls need it, and `util_htget` returns the value set for the key and what it
returned before for every other key. -/
theorem htset_spec (ht : hash_table_t) (h : ht_inv ht) (key : List Nat) (v : Nat) :
    ht_inv (util_htset ht key v) ∧
      ∀ k, util_htget (util_htset ht key v) k = if k = key then v else util_htget ht k := by
  have hc := htseth_chain_spec key v _ (bin_sorted ht h.2.2 (util_hthash ht key))
  refine ⟨set_inv ht h _ _ hc.1, ?_⟩
  intro k
  have hh : util_hthash (util_htset ht key v) k = util_hthash ht k :=
    hthash_size _ ht k rfl
  have ht2 : (util_htset ht key v).table = ht.table.set (util_hthash ht key)
      (htseth_chain key v (ht.table.getD (util_hthash ht key) [])) := rfl
  have hb : util_hthash ht key < ht.table.length := by
    rw [h.1]
    exact hthash_lt ht key h.2.1
  unfold util_htget util_htgeth
  rw [hh, ht2, getD_set _ _ _ _ hb]
  by_cases hk : k = key
  · rw [if_pos hk, hk, if_pos rfl, htgeth_chain_lookup _ _ hc.1, hc.2.2, if_pos rfl]
  · rw [if_neg hk]
    by_cases hbin : util_hthash ht k = util_hthash ht key
    · rw [if_pos hbin, htgeth_chain_lookup _ _ hc.1, hc.2.2, if_neg hk, hbin,
        htgeth_chain_lookup _ _ (bin_sorted ht h.2.2 _)]
    · rw [if_neg hbin]

/-- After `util_htrm` on a table with sorted chains the table is as the
calls need it, and `util_htget` returns NULL for the key and what it returned
before for every other key. -/
theorem htrm_spec (ht : hash_table_t) (h : ht_inv ht) (key : List Nat) :
    ht_inv (util_htrm ht key) ∧
      ∀ k, util_htget (util_htrm ht key) k = if k = key then 0 else util_htget ht k := by
  have hc := htrmh_chain_spec key _ (bin_sorted ht h.2.2 (util_hthash ht key))
  refine ⟨set_inv ht h _ _ hc.1, ?_⟩
  intro k
  have hh : util_hthash (util_htrm ht key) k = util_hthash ht k :=
    hthash_size _ ht k rfl
  have ht2 : (util_htrm ht key).table = ht.table.set (util_hthash ht key)
      (htrmh_chain key (ht.table.getD (util_hthash ht key) [])) := rfl
  have hb : util_hthash ht key < ht.table.length := by
    rw [h.1]
    exact hthash_lt ht key h.2.1
  unfold util_htget util_htgeth
  rw [hh, ht2, getD_set _ _ _ _ hb]
  by_cases hk : k = key
  · rw [if_pos hk, hk, if_pos rfl, htgeth_chain_lookup _ _ hc.1, hc.2.2, if_pos rfl]
  · rw [if_neg hk]
    by_cases hbin : util_hthash ht k = util_hthash ht key
    · rw [if_pos hbin, htgeth_chain_lookup _ _ hc.1, hc.2.2, if_neg hk, hbin,
        htgeth_chain_lookup _ _ (bin_sorted ht h.2.2 _)]
    · rw [if_neg hbin]

/-- A new table is as the calls need it, and holds nothing. -/
theorem htnew_spec (size : Nat) (ht : hash_table_t) (h : util_htnew size = some ht) :
    ht_inv ht ∧ ∀ k, util_htget ht k = 0 := by
  unfold util_htnew at h
  split at h
  · cases h
  · rename_i hs
    have hpos : 0 < size := by omega
    cases h
    refine ⟨⟨List.length_replicate _ _, hpos, ?_⟩, ?_⟩
    · intro c hc
      rw [List.eq_of_mem_replicate hc]
      exact List.Pairwise.nil
    · intro k
      unfold util_htget util_htgeth
      simp only []
      have : (List.replicate size ([] : List hash_node_t)).getD
          (util_hthash ⟨size, List.replicate size []⟩ k) [] = [] := by
        rw [List.getD_eq_getElem?_getD]
        cases hget : (List.replicate size ([] : List hash_node_t))[
          util_hthash ⟨size, List.replicate size []⟩ k]? with
        | none => rfl
        | some c =>
          have hm := List.getElem?_mem hget
          rw [List.eq_of_mem_replicate hm]
          rfl
      rw [this]
      rfl

/-- A sequence of calls keeps a table as the calls need it; afterwards
`util_htget` returns for a key what the last call on that key says, and what
it returned before when no call was on that key. -/
theorem ht_run_spec (calls : List ht_call) :
    ∀ ht, ht_inv ht → ht_inv (ht_run ht calls) ∧
      ∀ k, util_htget (ht_run ht calls) k =
        match calls.reverse.find? (fun c => decide (c.key = k)) with
        | some (.set _ v) => v
        | some (.rm _) => 0
        | none => util_htget ht k := by
  induction calls with
  | nil =>
    intro ht h
    exact ⟨h, fun k => rfl⟩
  | cons c cs ih =>
    intro ht h
    have hstep : ht_inv (ht_apply ht c) ∧
        ∀ k, util_htget (ht_apply ht c) k =
          if k = c.key then (match c with
            | .set _ v => v
            | .rm _ => 0) else util_htget ht k := by
      cases c with
      | set key v => exact htset_spec ht h key v
      | rm key => exact htrm_spec ht h key
    obtain ⟨h1, h2⟩ := ih (ht_apply ht c) hstep.1
    refine ⟨h1, ?_⟩
    intro k
    have e : ht_run ht (c :: cs) = ht_run (ht_apply ht c) cs := rfl
    rw [e, h2 k, List.reverse_cons, List.find?_append]
    cases hf : cs.reverse.find? (fun c => decide (c.key = k)) with
    | some x =>
      have e2 : (some x).or (List.find? (fun c => decide (c.key = k)) [c]) = some x := rfl
      rw [e2]
      cases x <;> rfl
    | none =>
      simp only [Option.none_or, List.find?_cons, List.find?_nil]
      rw [hstep.2 k]
      by_cases hk : k = c.key
      · have : c.key = k := hk.symm
        simp only [this, decide_True, if_true]
        cases c <;> simp [ht_call.key] at this ⊢
      · have : ¬ c.key = k := fun e2 => hk e2.symm
        simp [this, hk]

/-- C38: the string hash table is a finite map.  `util_htnew(size)` returns
a table for every `size >= 1` (the allocations taken to succeed).  After any
sequence of `util_htset` and `util_htrm` calls on such a table, `util_htget`
returns for every key the value of the most recent `util_htset` of that key
that no `util_htrm` of the key followed, and NULL when there is none; every
chain is strictly sorted by key; and a further `util_htset` or `util_htrm` of
one key leaves the result for every other key as it was.  In a table of one
bin, where all keys collide, the calls set `b`, set `a`, set `c`, set `b`
again, remove `a` leave the chain `b`, `c` with the second value of `b`. -/
theorem hash_table_is_finite_map :
    (∀ size, 1 ≤ size → ∃ ht, util_htnew size = some ht) ∧
    (∀ size ht calls, util_htnew size = some ht →
      (∀ k, util_htget (ht_run ht calls) k = latest_value calls k) ∧
      chains_sorted (ht_run ht calls) ∧
      (∀ k k2 v, k ≠ k2 →
        util_htget (util_htset (ht_run ht calls) k2 v) k = util_htget (ht_run ht calls) k) ∧
      (∀ k k2, k ≠ k2 →
        util_htget (util_htrm (ht_run ht calls) k2) k = util_htget (ht_run ht calls) k)) ∧
    util_htnew 0 = none ∧
    ht_keys (ht_run ⟨1, [[]]⟩ [.set [98] 2, .set [97] 1, .set [99] 3, .set [98] 5, .rm [97]]) =
      [[[98], [99]]] ∧
    util_htget (ht_run ⟨1, [[]]⟩ [.set [98] 2, .set [97] 1, .set [99] 3, .set [98] 5,
      .rm [97]]) [98] = 5 ∧
    util_htget (ht_run ⟨1, [[]]⟩ [.set [98] 2, .set [97] 1, .set [99] 3, .set [98] 5,
      .rm [97]]) [97] = 0 ∧
    util_htnew 1 = some ⟨1, [[]]⟩ := by
  refine ⟨?_, ?_, rfl, by decide!, by decide!, by decide!, rfl⟩
  · intro size hs
    unfold util_htnew
    rw [if_neg (by omega)]
    exact ⟨_, rfl⟩
  · intro size ht calls hnew
    obtain ⟨hinv, hempty⟩ := htnew_spec size ht hnew
    obtain ⟨hrun, hget⟩ := ht_run_spec calls ht hinv
    refine ⟨?_, hrun.2.2, ?_, ?_⟩
    · intro k
      rw [hget k]
      unfold latest_value
      cases hf : calls.reverse.find? (fun c => decide (c.key = k)) with
      | none => exact hempty k
      | some x => cases x <;> rfl
    · intro k k2 v hk
      rw [(htset_spec _ hrun k2 v).2 k, if_neg hk]
    · intro k k2 hk
      rw [(htrm_spec _ hrun k2).2 k, if_neg hk]

/-! ## Tracked string duplicate -/

/-- The node that the loop of `parser_const_string` finds stores the
string. -/
theorem const_string_find_holds (s : String) (pool : List ast_expression) :
    (const_string_find s pool).sat (fun r => ∀ v, r = some v → v.constval = .vstring s) := by
  induction pool with
  | nil =>
    intro v hv
    cases hv
  | cons w rest ih =>
    unfold const_string_find
    cases hc : w.constval with
    | vnull => trivial
    | vstring x =>
      simp only []
      by_cases hx : (x == s) = true
      · rw [if_pos hx]
        intro v hv
        cases hv
        rw [hc, eq_of_beq hx]
      · rw [if_neg hx]
        exact ih
    | none => exact ih
    | vfloat d => exact ih
    | vvec u => exact ih

/-- C40 (amended): for every non-empty string `s`, `_util_Estrdup` returns
a copy equal to `s`; for NULL it returns NULL; `_util_Estrdup_empty` copies
every string.  So the node that `parser_const_string` returns for a
non-empty literal stores a string equal to the literal, and the call returns
when no NULL string is pooled; for `text` on the empty pool the node and the
pool hold `text`. -/
theorem estrdup_copies_nonempty :
    (∀ s : String, s ≠ "" → _util_Estrdup (some s) = some s) ∧
    _util_Estrdup none = none ∧
    (∀ s : String, _util_Estrdup_empty (some s) = some s) ∧
    (∀ p s, s ≠ "" → (parser_const_string p s).sat (fun r => r.1.constval = .vstring s)) ∧
    (∀ p s, s ≠ "" → no_null_string p →
      ∃ r, parser_const_string p s = .done r ∧ r.1.constval = .vstring s) ∧
    string_interned (parser_const_string (clean_state []) "text") =
      some (.vstring "text", [.vstring "text"]) := by
  have hsat : ∀ p s, s ≠ "" →
      (parser_const_string p s).sat (fun r => r.1.constval = .vstring s) := by
    intro p s hs
    unfold parser_const_string
    apply sat_bind _ _ _ _ (const_string_find_holds s p.imm_string)
    intro found hfound
    cases found with
    | some v => exact hfound v rfl
    | none =>
      simp only [sat_done, string_payload_nonempty s hs]
      rfl
  refine ⟨?_, rfl, fun s => rfl, hsat, ?_, by decide!⟩
  · intro s hs
    have h := string_payload_nonempty s hs
    unfold string_payload util_strdup at h
    cases he : _util_Estrdup (some s) with
    | none =>
      rw [he] at h
      cases h
    | some c =>
      rw [he] at h
      cases h
      rfl
  · intro p s hs hp
    have h := hsat p s hs
    rw [const_string_eq p s hs hp] at h ⊢
    exact ⟨_, rfl, h⟩

/-- C40, counterexample: for the empty string `_util_Estrdup` returns NULL,
where `_util_Estrdup_empty` returns a copy; the node that
`parser_const_string` builds for the empty literal stores NULL. -/
theorem estrdup_empty_is_null :
    _util_Estrdup (some "") = none ∧
      _util_Estrdup_empty (some "") = some "" ∧
      string_payload "" = .vnull ∧
      string_interned (parser_const_string (clean_state []) "") = some (.vnull, [.vnull]) := by
  exact ⟨by decide!, by decide!, by decide!, by decide!⟩

end Gmqcc
